import Mathlib

/-!
# xLights: a shallow embedding of the J1Sys upload, Servo and ElementEffects

Sources: `xLights/controllers/J1Sys.cpp`, `xLights/models/DMX/Servo.cpp` and
`xLights/sequencer/ElementEffects.cpp`.

Conventions of the embedding.

* C++ `int`/`long` values are `Int` (row indices and counts that only grow from
  zero are `Nat`); the channel numbers handled here are far below `2^31`, so
  wrap-around is not modelled.  C++ `/` on integers is `Int.tdiv`.
* A `char` is its integer code (`'4'` is 52); the sentinel `-1` stays `-1`.
* The firmware number (`float _firmware`, `wxAtof(_version)`) is a rational and
  `>= 3.4` is the exact comparison with 34/10.  On every finite `float` value and
  on the `double` parsed from a decimal version string such as "3.3", "3.4" or
  "3.5" the C++ comparison against the `double` literal 3.4 gives the same
  answer; rounding itself is not modelled.
* `wxString::Lower` is ASCII lower-casing (no protocol name of the source
  contains a letter that a non-ASCII character lower-cases to).
* Indexing a `std::vector` outside its size, dereferencing the null pointer that
  `GetOutput` returns for an unmapped channel and reading an unset `long sc` are
  undefined behaviour: the embedding stops with a `Fault`.
* Logging, `DumpConfig` and `DisplayError` do not change a result and are left out, and so
  is the debug-build check `wxASSERT(_outputs != 0)`.
* In Servo.cpp and ElementEffects.cpp `float` and `double` values are rationals, `size_t`
  has 64 bits, and the queueing of work on the base object is kept as the list of the
  work names.
* The classes that J1Sys.cpp only uses (`OutputManager`, `Output`, `UDController`,
  `UDControllerPort`, `UDControllerPortModel`) and the row types of J1Sys.h are not part of
  the sources at hand; they are modelled from the specification, each marked as such.
-/

namespace xLights

/-! ## J1SysControllerRules (J1Sys.cpp lines 26-122) -/

def J1SYS_P12S : String := "J1Sys-P12S"
def J1SYS_P12R : String := "J1Sys-P12R"
def J1SYS_P12D : String := "J1Sys-P12D"
def J1SYS_P2 : String := "J1Sys P2"

def J1SYS_MODEL_P12S : String := "ECG-P12S"
def J1SYS_MODEL_P12R : String := "ECG-P12R"
def J1SYS_MODEL_P12D : String := "ECG-P12D"

/-- ASCII lower-casing, standing for `wxString::Lower`. -/
def Lower (s : String) : String := ⟨s.data.map Char.toLower⟩

/-- The three constructor arguments of `J1SysControllerRules`. -/
structure J1SysControllerRules where
  _outputs : Int
  _firmware : ℚ
  _model : String

namespace J1SysControllerRules

def GetControllerId (r : J1SysControllerRules) : String :=
  if r._outputs = 2 then J1SYS_P2
  else if r._outputs = 12 then
    if r._model = J1SYS_MODEL_P12S then J1SYS_P12S
    else if r._model = J1SYS_MODEL_P12R then J1SYS_P12R
    else J1SYS_P12D
  else J1SYS_P12R

def GetControllerManufacturer (_r : J1SysControllerRules) : String := "J1Sys"

def SupportsLEDPanelMatrix (_r : J1SysControllerRules) : Bool := false

def GetMaxPixelPortChannels (r : J1SysControllerRules) : Int :=
  if r._outputs = 2 then 9999999
  else if r._outputs = 12 then
    if r.GetControllerId = J1SYS_P12R then 170 * 3
    else if r._firmware ≥ 3.4 then 2 * 170 * 3
    else 170 * 3
  else 0

def GetMaxPixelPort (r : J1SysControllerRules) : Int := r._outputs

def GetMaxSerialPortChannels (r : J1SysControllerRules) : Int :=
  if r._outputs = 12 then 512 else 0

def GetMaxSerialPort (r : J1SysControllerRules) : Int :=
  if r._outputs = 12 then
    if r.GetControllerId = J1SYS_P12R then 0 else 2
  else 0

def IsValidPixelProtocol (_r : J1SysControllerRules) (protocol : String) : Bool :=
  let p := Lower protocol
  p == "ws2811" || p == "tm180x" || p == "tm18xx" || p == "ws2801" || p == "tls3001"
    || p == "lpd6803"

def IsValidSerialProtocol (_r : J1SysControllerRules) (protocol : String) : Bool :=
  let p := Lower protocol
  p == "renard" || p == "dmx"

def SupportsMultipleProtocols (_r : J1SysControllerRules) : Bool := true
def SupportsSmartRemotes (_r : J1SysControllerRules) : Bool := false
def SupportsMultipleInputProtocols (_r : J1SysControllerRules) : Bool := false
def AllUniversesSameSize (_r : J1SysControllerRules) : Bool := false
def UniversesMustBeSequential (_r : J1SysControllerRules) : Bool := false

/-- The `std::set` initialised with "E131" and "ARTNET", as the list of its elements. -/
def GetSupportedInputProtocols (_r : J1SysControllerRules) : List String := ["E131", "ARTNET"]

end J1SysControllerRules

/-! ## Collaborators declared outside J1Sys.cpp -/

/-- Modelled from the spec: `Output` (outputs/Output.h, not under src) is one universe
with its source protocol type, its universe id and its channel count. -/
structure Output where
  type : String
  universe_ : Int
  channels : Int
deriving DecidableEq, Repr

/-- Modelled from the spec: `OutputManager` (outputs/OutputManager.h, not under src)
holds the outputs in order; each output holds consecutive absolute channels and the
first output starts at absolute channel 1. -/
abbrev OutputManager := List Output

/-- What `GetOutput(absoluteChannel, sc)` hands back when it finds an output: the
`Output*` (pointer identity is the position `index` in the manager) and the 1-based
offset `sc` of the channel inside that output. -/
structure Found where
  index : Nat
  output : Output
  sc : Int
deriving DecidableEq, Repr

/-- The search of `GetOutput` from output number `index`, whose first absolute channel is
`first`. -/
def GetOutputFrom : List Output → Nat → Int → Int → Option Found
  | [], _, _, _ => none
  | o :: os, index, first, absoluteChannel =>
    if first ≤ absoluteChannel ∧ absoluteChannel ≤ first + o.channels - 1 then
      some ⟨index, o, absoluteChannel - first + 1⟩
    else GetOutputFrom os (index + 1) (first + o.channels) absoluteChannel

/-- Modelled from the spec: `OutputManager::GetOutput` is the reverse lookup from an
absolute channel to (output, offset within the output); `none` is the null pointer. -/
def OutputManager.GetOutput (om : OutputManager) (absoluteChannel : Int) : Option Found :=
  GetOutputFrom om 0 1 absoluteChannel

/-- Modelled from the spec: `UDControllerPortModel` (ControllerUploadData.h, not under src)
is a model span: a protocol name and an absolute channel range. -/
structure UDControllerPortModel where
  protocol : String
  startChannel : Int
  endChannel : Int
deriving DecidableEq, Repr

/-- Modelled from the spec: the channel count of the span's absolute channel range. -/
def UDControllerPortModel.Channels (m : UDControllerPortModel) : Int :=
  m.endChannel - m.startChannel + 1

/-- Modelled from the spec: `UDControllerPort` (ControllerUploadData.h, not under src): the
ordered model spans of a port, and the protocol, universe and absolute channel range the
serial section asks it for. -/
structure UDControllerPort where
  protocol : String
  universe_ : Int
  startChannel : Int
  endChannel : Int
  models : List UDControllerPortModel
deriving DecidableEq, Repr

/-- Modelled from the spec: what J1Sys.cpp asks of `UDController cud`: the verdict of
`cud.Check(&rules, check)`, `GetMaxPixelPort()`, `GetMaxSerialPort()`, and per port number
`HasPixelPort`/`GetControllerPixelPort` and `HasSerialPort`/`GetControllerSerialPort`
(`none` when the port has no assignment). -/
structure UDController where
  check : Bool
  maxPixelPort : Int
  maxSerialPort : Int
  pixelPort : Nat → Option UDControllerPort
  serialPort : Nat → Option UDControllerPort

/-! ## Rows (J1Sys.h) and protocol encoding (J1Sys.cpp lines 677-719) -/

/-- Modelled from the spec: `J1SysOutput` (J1Sys.h, not under src), one pixel config row;
the fields are those J1Sys.cpp uses (`universe_` is the field `universe`, a reserved
word here) and a fresh row is all zero/false. -/
structure J1SysOutput where
  port : Int := 0
  active : Bool := false
  protocol : Int := 0
  speed : Int := 0
  universe_ : Int := 0
  startChannel : Int := 0
  pixels : Int := 0
deriving DecidableEq, Repr

/-- Modelled from the spec: `J1SysSerialOutput` (J1Sys.h, not under src), one serial row. -/
structure J1SysSerialOutput where
  port : Int := 0
  active : Bool := false
  protocol : Int := 0
  speed : Int := 0
  universe_ : Int := 0
deriving DecidableEq, Repr

/-- The integer code of a character, the value of a C++ `char`. -/
def code (c : Char) : Int := c.toNat

def GetBankSize (_outputs : Nat) : Nat :=
  if _outputs = 2 then 4 else 1

def EncodeStringPortProtocol (protocol : String) : Int :=
  let p := Lower protocol
  if p = "ws2811" then code '4'
  else if p = "tm180x" then code '2'
  else if p = "tm18xx" then code '2'
  else if p = "ws2801" then code '1'
  else if p = "tls3001" then code '3'
  else if p = "lpd6803" then code '0'
  else -1

def EncodeSerialPortProtocol (protocol : String) : Int :=
  let p := Lower protocol
  if p = "dmx" then code 'D'
  else if p = "renard" then code 'R'
  else -1

def DecodeProtocolSpeed (protocol : String) : Int :=
  let p := Lower protocol
  if p = "ws2811" then 3600
  else if p = "ws2801" then 750
  else if p = "dmx" then 5
  else if p = "renard" then 3
  else 0

/-! ## The pixel allocation loop of SetOutputs (J1Sys.cpp lines 347-463) -/

/-- Why a run of the allocation stops early.  `tooManyOutputs` is the reported failure of
lines 372-378 and 411-417 (`return false`); the others are undefined behaviour of the C++
(`outOfRange`: vector index outside the vector; `nullOutput`: `GetOutput` returned null and
is dereferenced); `fuel` is the embedding running out of loop fuel, which the fuel handed
to the loops excludes (see `allocPixel_fuel`). -/
inductive Fault where
  | tooManyOutputs
  | outOfRange
  | nullOutput
  | fuel
deriving DecidableEq, Repr

/-- One access to `j1SysOutputs`, recorded for the proofs (it has no effect on the rows):
`cursor i` is an access written `j1SysOutputs[output]`, `bank i` one written
`j1SysOutputs[bankStart + ..]` or `j1SysOutputs[(pp - 1) * GetBankSize()]`; `i` is the
index value. -/
inductive Access where
  | cursor (i : Nat)
  | bank (i : Nat)
deriving DecidableEq, Repr

def Access.index : Access → Nat
  | .cursor i => i
  | .bank i => i

/-- The variables of the loop over a port's models: the vector, `output`, `lastEnd`, and
the record of the accesses made so far. -/
structure AllocState where
  rows : List J1SysOutput
  output : Nat
  lastEnd : Int
  log : List Access
deriving DecidableEq, Repr

/-- An early stop and the variables at that moment. -/
structure Stop where
  fault : Fault
  st : AllocState
deriving DecidableEq, Repr

/-- A write `j1SysOutputs[a.index].field = ..` (or several to the same row). -/
def AllocState.modify (st : AllocState) (a : Access) (f : J1SysOutput → J1SysOutput) :
    Except Stop AllocState :=
  match st.rows[a.index]? with
  | some r => .ok { st with rows := st.rows.set a.index (f r), log := st.log ++ [a] }
  | none => .error ⟨.outOfRange, { st with log := st.log ++ [a] }⟩

/-- A read of `j1SysOutputs[a.index]`. -/
def AllocState.read (st : AllocState) (a : Access) : Except Stop (J1SysOutput × AllocState) :=
  match st.rows[a.index]? with
  | some r => .ok (r, { st with log := st.log ++ [a] })
  | none => .error ⟨.outOfRange, { st with log := st.log ++ [a] }⟩

/-- Lines 381-387 and 426-432: `for (int i = ..; i < GetBankSize(); i++)` clearing
`j1SysOutputs[bankStart + i]`; `count` is the number of iterations left, `GetBankSize() - i`. -/
def clearRows (bankStart : Nat) : Nat → Nat → AllocState → Except Stop AllocState
  | 0, _, st => .ok st
  | count + 1, i, st => do
    let st ← st.modify (.bank (bankStart + i))
      (fun r => { r with active := false, universe_ := 0, startChannel := 0, pixels := 0 })
    clearRows bankStart count (i + 1) st

/-- One iteration of the `while (channels > 0)` loop of lines 370-403 (the model starts a
new row); it yields the new value of `channels` and the new variables. -/
def freshIter (om : OutputManager) (bankStart bankSize : Nat) (m : UDControllerPortModel)
    (channels : Int) (st : AllocState) : Except Stop (Int × AllocState) :=
  if st.output ≥ bankStart + bankSize then .error ⟨.tooManyOutputs, st⟩
  else do
    let st ← st.modify (.cursor st.output) (fun r => { r with active := true })
    let st ← clearRows bankStart (bankSize - (st.output % bankSize + 1))
      (st.output % bankSize + 1) st
    match om.GetOutput (m.startChannel + m.Channels - channels) with
    | none => .error ⟨.nullOutput, st⟩
    | some o =>
      let st ← st.modify (.cursor st.output)
        (fun r => { r with universe_ := o.output.universe_, startChannel := o.sc })
      if channels < o.output.channels - o.sc + 1 then do
        let st ← st.modify (.cursor st.output) (fun r => { r with pixels := channels.tdiv 3 })
        pure (0, st)
      else do
        let st ← st.modify (.cursor st.output)
          (fun r => { r with pixels := (o.output.channels - o.sc + 1).tdiv 3 })
        pure (channels - (o.output.channels - o.sc + 1), { st with output := st.output + 1 })

/-- The `while (channels > 0)` loop of lines 370-403. -/
def freshLoop (om : OutputManager) (bankStart bankSize : Nat) (m : UDControllerPortModel) :
    Nat → Int → AllocState → Except Stop AllocState
  | 0, _, st => .error ⟨.fuel, st⟩
  | fuel + 1, channels, st =>
    if channels > 0 then do
      let (channels, st) ← freshIter om bankStart bankSize m channels st
      freshLoop om bankStart bankSize m fuel channels st
    else pure st

/-- Lines 421-435: when the row at `output` has no universe yet, it is started at the
channel looked up, the rows after it in the bank are cleared, and it takes the protocol and
speed of the first row of the bank. -/
def contStart (o : Found) (bankStart bankSize : Nat) (st : AllocState) :
    Except Stop AllocState := do
  let (r, st) ← st.read (.cursor st.output)
  if r.universe_ = 0 then do
    let st ← st.modify (.cursor st.output)
      (fun r => { r with universe_ := o.output.universe_, startChannel := o.sc,
                         active := true })
    let st ← clearRows bankStart (bankSize - (st.output % bankSize + 1))
      (st.output % bankSize + 1) st
    let (leader, st) ← st.read (.bank bankStart)
    st.modify (.cursor st.output)
      (fun r => { r with protocol := leader.protocol, speed := leader.speed })
  else pure st

/-- One iteration of the `while (channels > 0)` loop of lines 409-447 (the model continues
the previous model's run). -/
def contIter (om : OutputManager) (bankStart bankSize : Nat) (m : UDControllerPortModel)
    (channels : Int) (st : AllocState) : Except Stop (Int × AllocState) :=
  if st.output ≥ bankStart + bankSize then .error ⟨.tooManyOutputs, st⟩
  else
    match om.GetOutput (m.startChannel + m.Channels - channels) with
    | none => .error ⟨.nullOutput, st⟩
    | some o => do
      let st ← contStart o bankStart bankSize st
      let (r, st) ← st.read (.cursor st.output)
      if channels < o.output.channels - r.startChannel + 1 - r.pixels * 3 then do
        let st ← st.modify (.cursor st.output)
          (fun r => { r with pixels := r.pixels + channels.tdiv 3 })
        pure (0, st)
      else do
        let st ← st.modify (.cursor st.output)
          (fun r => { r with pixels := (o.output.channels - r.startChannel + 1).tdiv 3 })
        let (r, st) ← st.read (.cursor st.output)
        pure (channels - (o.output.channels - r.startChannel + 1 - r.pixels * 3),
              { st with output := st.output + 1 })

/-- The `while (channels > 0)` loop of lines 409-447. -/
def contLoop (om : OutputManager) (bankStart bankSize : Nat) (m : UDControllerPortModel) :
    Nat → Int → AllocState → Except Stop AllocState
  | 0, _, st => .error ⟨.fuel, st⟩
  | fuel + 1, channels, st =>
    if channels > 0 then do
      let (channels, st) ← contIter om bankStart bankSize m channels st
      contLoop om bankStart bankSize m fuel channels st
    else pure st

/-- Fuel that is enough for either loop started at row `output`: a loop iteration that
does not end the loop moves `output` up by one, and an iteration with `output` at the end
of the bank ends the loop. -/
def loopFuel (bankStart bankSize output : Nat) : Nat :=
  bankStart + bankSize - output + 1

/-- The gap test of lines 358-362. -/
def gapStep (st : AllocState) (m : UDControllerPortModel) : AllocState :=
  if st.lastEnd ≠ -1 ∧ m.startChannel ≠ st.lastEnd + 1 then
    { st with output := st.output + 1, lastEnd := -1 }
  else st

/-- The body of `for (auto m : port->GetModels())`, lines 358-449. -/
def placeModel (om : OutputManager) (bankStart bankSize : Nat) (st : AllocState)
    (m : UDControllerPortModel) : Except Stop AllocState := do
  let st := gapStep st m
  let st ← st.modify (.cursor st.output)
    (fun r => { r with protocol := EncodeStringPortProtocol m.protocol,
                       speed := DecodeProtocolSpeed m.protocol })
  if st.lastEnd = -1 then do
    let st ← freshLoop om bankStart bankSize m (loopFuel bankStart bankSize st.output)
      m.Channels st
    pure { st with lastEnd := m.endChannel }
  else do
    let st ← contLoop om bankStart bankSize m (loopFuel bankStart bankSize st.output)
      m.Channels st
    pure { st with lastEnd := m.endChannel }

/-- Lines 453-457: every row of the bank gets a copy of the bank's protocol and speed;
`count` is the number of iterations left, `GetBankSize() - i`. -/
def copyBank (bankStart : Nat) : Nat → Nat → AllocState → Except Stop AllocState
  | 0, _, st => .ok st
  | count + 1, i, st => do
    let (leader, st) ← st.read (.bank bankStart)
    let st ← st.modify (.bank (bankStart + i))
      (fun r => { r with protocol := leader.protocol, speed := leader.speed })
    copyBank bankStart count (i + 1) st

/-- The variables at the start of port `pp`, lines 352-354. -/
def portStart (bankSize pp : Nat) (rows : List J1SysOutput) : AllocState :=
  { rows := rows, output := (pp - 1) * bankSize, lastEnd := -1, log := [] }

/-- The body of `if (cud.HasPixelPort(pp))`, lines 351-457. -/
def allocPort (om : OutputManager) (bankSize pp : Nat) (port : UDControllerPort)
    (rows : List J1SysOutput) : Except Stop AllocState := do
  let bankStart := (pp - 1) * bankSize
  let st ← port.models.foldlM (placeModel om bankStart bankSize) (portStart bankSize pp rows)
  copyBank bankStart (bankSize - 1) 1 st

/-- The body of `for (int pp = 1; pp <= _outputs; pp++)`, lines 349-462. -/
def allocStep (om : OutputManager) (bankSize : Nat) (cud : UDController)
    (rows : List J1SysOutput) (pp : Nat) : Except Stop (List J1SysOutput) :=
  match cud.pixelPort pp with
  | some port => do
    let st ← allocPort om bankSize pp port rows
    pure st.rows
  | none => pure rows

/-- The loop `for (int pp = 1; pp <= _outputs; pp++)`, lines 347-463. -/
def allocPixel (om : OutputManager) (_outputs : Nat) (cud : UDController)
    (rows : List J1SysOutput) : Except Stop (List J1SysOutput) :=
  (List.range' 1 _outputs).foldlM (allocStep om (GetBankSize _outputs) cud) rows

/-! ## The HTTP layer and the read-back (J1Sys.cpp lines 179-250 and 585-675) -/

inductive Method where
  | GET
  | POST
deriving DecidableEq, Repr

/-- One request sent by `GetURL` (body empty) or `PutURL`. -/
structure Request where
  method : Method
  url : String
  body : String
deriving DecidableEq, Repr

/-- The controller at the other end of `_http`: the body it answers a request with.  The
empty string is also what `GetURL`/`PutURL` return when the transport fails. -/
structure Device where
  respond : Request → String

/-- What the regular expressions of `ReadCurrentConfig` find for one row in the page:
whether `sA<L>..checked` matches, the text captured for `sT<L>`, and `wxAtoi` of the texts
captured for `sB<L>`, `sU<L>`, `sS<L>`, `sC<L>` (`none`: the expression does not match). -/
structure ScrapedRow where
  active : Bool
  protocol : Option String
  speed : Option Int
  universe_ : Option Int
  startChannel : Option Int
  pixels : Option Int

/-- What the regular expressions of `ReadCurrentSerialConfig` find for one row: the match of
`pA<n>..checked`, the first character captured for `pP<n>`, and `wxAtoi` of the texts
captured for `pB<n>` and `pU<n>`. -/
structure ScrapedSerialRow where
  active : Bool
  protocol : Option Int
  speed : Option Int
  universe_ : Option Int

/-- The `wxRegEx` matching, taken as given: page and row index to what is found. -/
structure Scraper where
  stringRow : String → Nat → ScrapedRow
  serialRow : String → Nat → ScrapedSerialRow

/-- The body of the `for` loop of `ReadCurrentConfig`, lines 593-636, for row `i`. -/
def readRow (bankSize : Nat) (found : Nat → ScrapedRow) (rows : List J1SysOutput) (i : Nat) :
    List J1SysOutput :=
  match rows[i]? with
  | none => rows
  | some r =>
    let f := found i
    let r := { r with port := i, active := f.active }
    let r :=
      if i % bankSize = 0 then
        let r := match f.protocol with
          | some p => { r with protocol := EncodeStringPortProtocol p }
          | none => r
        match f.speed with
          | some v => { r with speed := v }
          | none => r
      else
        let leader := rows.getD (i / bankSize * bankSize) {}
        { r with protocol := leader.protocol, speed := leader.speed }
    let r := match f.universe_ with
      | some v => { r with universe_ := v }
      | none => r
    let r := match f.startChannel with
      | some v => { r with startChannel := v }
      | none => r
    let r := match f.pixels with
      | some v => { r with pixels := v }
      | none => r
    rows.set i r

/-- The effect of `ReadCurrentConfig` on the vector, given the page `config` that
`GetURL("/protect/stringConfig.htm")` returned. -/
def ReadCurrentConfig (bankSize : Nat) (found : Nat → ScrapedRow) (config : String)
    (rows : List J1SysOutput) : List J1SysOutput :=
  if config ≠ "" then (List.range rows.length).foldl (readRow bankSize found) rows
  else rows

/-- The body of the `for` loop of `ReadCurrentSerialConfig`, lines 649-672, for row `i`. -/
def readSerialRow (found : Nat → ScrapedSerialRow) (rows : List J1SysSerialOutput) (i : Nat) :
    List J1SysSerialOutput :=
  match rows[i]? with
  | none => rows
  | some r =>
    let f := found i
    let r := { r with port := i, active := f.active }
    let r := match f.protocol with
      | some c => { r with protocol := c }
      | none => r
    let r := match f.speed with
      | some v => { r with speed := v }
      | none => r
    let r := match f.universe_ with
      | some v => { r with universe_ := v }
      | none => r
    rows.set i r

def ReadCurrentSerialConfig (found : Nat → ScrapedSerialRow) (config : String)
    (rows : List J1SysSerialOutput) : List J1SysSerialOutput :=
  if config ≠ "" then (List.range rows.length).foldl (readSerialRow found) rows
  else rows

/-! ## Request bodies (J1Sys.cpp lines 721-751) -/

/-- The conversion `%c` of `wxString::Format` for a character code. -/
def formatC (c : Int) : String := String.singleton (Char.ofNat c.toNat)

/-- The conversion `%d` of `wxString::Format`. -/
def formatD (d : Int) : String := toString d

def BuildStringPort (active : Bool) (string : Int) (protocol : Int) (speed : Int)
    (startChannel : Int) (universe_ : Int) (pixels : Int) : String :=
  let out : Int := 65 + string
  "sA" ++ formatC out ++ "=" ++ formatD (if active then 1 else 0)
    ++ "&sT" ++ formatC out ++ "=" ++ formatC protocol
    ++ "&sB" ++ formatC out ++ "=" ++ formatD speed
    ++ "&sU" ++ formatC out ++ "=" ++ formatD universe_
    ++ "&sS" ++ formatC out ++ "=" ++ formatD startChannel
    ++ "&sC" ++ formatC out ++ "=" ++ formatD pixels

def BuildSerialPort (active : Bool) (port : Int) (protocol : Int) (speed : Int)
    (universe_ : Int) : String :=
  "pA" ++ formatD port ++ "=" ++ formatD (if active then 1 else 0)
    ++ "&pP" ++ formatD port ++ "=" ++ formatC protocol
    ++ "&pB" ++ formatD port ++ "=" ++ formatD speed
    ++ "&pU" ++ formatD port ++ "=" ++ formatD universe_

/-- Lines 465-470: `j.port = port; port++` over the rows, counting from `port`. -/
def numberPorts : List J1SysOutput → Int → List J1SysOutput
  | [], _ => []
  | j :: js, port => { j with port := port } :: numberPorts js (port + 1)

/-- Lines 476-482: the pixel upload body. -/
def stringRequest (rows : List J1SysOutput) : String :=
  rows.foldl
    (fun requestString j =>
      (if requestString ≠ "" then requestString ++ "&" else requestString)
        ++ BuildStringPort j.active j.port j.protocol j.speed j.startChannel j.universe_
            j.pixels)
    ""

/-- Lines 544-550: the serial upload body. -/
def serialRequest (rows : List J1SysSerialOutput) : String :=
  rows.foldl
    (fun requestString j =>
      (if requestString ≠ "" then requestString ++ "&" else requestString)
        ++ BuildSerialPort j.active (j.port + 1) j.protocol j.speed j.universe_)
    ""

/-! ## The upload session (J1Sys.cpp lines 252-565) -/

/-- The members of the `J1Sys` object the upload uses; `_version` is the number
`wxAtof(_version)`. -/
structure J1Sys where
  _ip : String
  _outputs : Nat
  _version : ℚ
  _model : String

def ipConfigRequest (outputs : List Output) : Request :=
  let e131 := outputs.any (fun o => o.type = "E131")
  let artnet := outputs.any (fun o => o.type ≠ "E131" ∧ o.type = "ArtNet")
  ⟨.POST, "/protect/ipConfig.htm",
    "an=0&e1en=" ++ formatD (if e131 then 1 else 0) ++ "&anen="
      ++ formatD (if artnet then 1 else 0)⟩

/-- `SetInputUniverses`, lines 252-313; `outputs` is the list that
`outputManager->GetAllOutputs(_ip, selected)` returns.  The result is the returned value
and the requests sent. -/
def SetInputUniverses (j : J1Sys) (dev : Device) (outputs : List Output) :
    Bool × List Request :=
  if j._outputs = 2 ∧ outputs.length > 8 then (false, [])
  else if j._outputs ≠ 2 ∧ j._outputs = 12 ∧
      outputs.length > (if j._model ≠ J1SYS_MODEL_P12R ∧ j._version ≥ 3.4 then 26 else 12)
    then (false, [])
  else if outputs.any (fun o => o.channels > 510) then (false, [])
  else
    let request := ipConfigRequest outputs
    (dev.respond request ≠ "", [request])

/-- How a section of `SetOutputs` ends: it falls through with the flag `success`, it
returns a value from `SetOutputs`, or the C++ has undefined behaviour. -/
inductive Flow where
  | next (success : Bool)
  | ret (value : Bool)
  | undefined
deriving DecidableEq, Repr

def stringConfigGet : Request := ⟨.GET, "/protect/stringConfig.htm", ""⟩
def portConfigGet : Request := ⟨.GET, "/protect/portConfig.htm", ""⟩
def rebootGet : Request := ⟨.GET, "/protect/reboot.htm?", ""⟩

/-- The pixel section, lines 338-492. -/
def pixelSection (j : J1Sys) (dev : Device) (scr : Scraper) (om : OutputManager)
    (cud : UDController) (success : Bool) : Flow × List Request :=
  if success ∧ cud.maxPixelPort > 0 then
    let config := dev.respond stringConfigGet
    let rows := ReadCurrentConfig (GetBankSize j._outputs) (scr.stringRow config) config
      (List.replicate (j._outputs * GetBankSize j._outputs) {})
    match allocPixel om j._outputs cud rows with
    | .error stop =>
      (if stop.fault = .tooManyOutputs then .ret false else .undefined, [stringConfigGet])
    | .ok rows =>
      let requestString := stringRequest (numberPorts rows 0)
      if requestString ≠ "" then
        let post : Request := ⟨.POST, "/protect/stringConfig.htm", requestString⟩
        (.next (if dev.respond post = "" then false else success), [stringConfigGet, post])
      else (.next success, [stringConfigGet])
  else (.next success, [])

/-- Why the loop over the serial ports stops early: the two reported failures of lines
520-526 and 528-536 (`return false`), and undefined behaviour (`outOfRange`: the row index
`sp - 1` is outside the vector; `unsetOffset`: `sc` is read although `GetOutput` found no
output and left it unset). -/
inductive SerialFault where
  | moreThanOneUniverse
  | notChannelOne
  | outOfRange
  | unsetOffset
deriving DecidableEq, Repr

/-- An early stop of the serial loop and the vector at that moment. -/
structure SerialStop where
  fault : SerialFault
  rows : List J1SysSerialOutput
deriving DecidableEq, Repr

/-- The body of `for (int sp = 1; sp <= cud.GetMaxSerialPort(); sp++)`, lines 504-537. -/
def serialStep (om : OutputManager) (cud : UDController) (rows : List J1SysSerialOutput)
    (sp : Nat) : Except SerialStop (List J1SysSerialOutput) :=
  match cud.serialPort sp with
  | none => .ok rows
  | some port =>
    match rows[sp - 1]? with
    | none => .error ⟨.outOfRange, rows⟩
    | some r =>
      let r := { r with active := true }
      let r := { r with protocol := EncodeSerialPortProtocol port.protocol }
      let r := if r.protocol = code 'D' ∧ r.speed < (5 : Int) then { r with speed := (5 : Int) } else r
      let r := { r with universe_ := port.universe_ }
      let rows := rows.set (sp - 1) r
      let o := om.GetOutput port.startChannel
      let o2 := om.GetOutput port.endChannel
      if o.map (fun x => x.index) ≠ o2.map (fun x => x.index) then
        .error ⟨.moreThanOneUniverse, rows⟩
      else
        match o with
        | none => .error ⟨.unsetOffset, rows⟩
        | some x => if x.sc ≠ 1 then .error ⟨.notChannelOne, rows⟩ else .ok rows

/-- The serial section, lines 494-560. -/
def serialSection (j : J1Sys) (dev : Device) (scr : Scraper) (om : OutputManager)
    (cud : UDController) (success : Bool) : Flow × List Request :=
  if success ∧ cud.maxSerialPort > 0 then
    let rules : J1SysControllerRules := ⟨j._outputs, j._version, j._model⟩
    let config := dev.respond portConfigGet
    let rows := ReadCurrentSerialConfig (scr.serialRow config) config
      (List.replicate rules.GetMaxSerialPort.toNat {})
    match (List.range' 1 cud.maxSerialPort.toNat).foldlM (serialStep om cud) rows with
    | .error stop =>
      (if stop.fault = .moreThanOneUniverse ∨ stop.fault = .notChannelOne then .ret false
        else .undefined, [portConfigGet])
    | .ok rows =>
      let requestString := serialRequest rows
      if requestString ≠ "" then
        let post : Request := ⟨.POST, "/protect/portConfig.htm", requestString⟩
        (.next (if dev.respond post = "" then false else success), [portConfigGet, post])
      else (.next success, [portConfigGet])
  else (.next success, [])

/-- What a call of `SetOutputs` does: the value it returns (`none`: undefined behaviour)
and the requests it sends, in order. -/
structure Outcome where
  result : Option Bool
  trace : List Request
deriving DecidableEq, Repr

/-- `SetOutputs`, lines 315-565; `outputs` is what `GetAllOutputs(_ip, selected)` returns. -/
def SetOutputs (j : J1Sys) (dev : Device) (scr : Scraper) (om : OutputManager)
    (outputs : List Output) (cud : UDController) : Outcome :=
  let input := SetInputUniverses j dev outputs
  if input.1 = false then ⟨some false, input.2⟩
  else
    let pixel := pixelSection j dev scr om cud cud.check
    match pixel.1 with
    | .undefined => ⟨none, input.2 ++ pixel.2⟩
    | .ret value => ⟨some value, input.2 ++ pixel.2⟩
    | .next success =>
      let serial := serialSection j dev scr om cud success
      match serial.1 with
      | .undefined => ⟨none, input.2 ++ pixel.2 ++ serial.2⟩
      | .ret value => ⟨some value, input.2 ++ pixel.2 ++ serial.2⟩
      | .next success =>
        ⟨some success,
          input.2 ++ pixel.2 ++ serial.2 ++ (if success then [rebootGet] else [])⟩

/-! ## Relations used to state what the allocation does -/

/-- The result `r` satisfies `Q` when it is a value and `E` when it is an early stop. -/
def Post {α : Type} (r : Except Stop α) (Q : α → Prop) (E : Stop → Prop) : Prop :=
  match r with
  | .ok a => Q a
  | .error e => E e

/-- The variables `st'` are reached from `st` by accesses that stay in the rows `lo` up to
`hi - 1`: `output` does not go down, the vector keeps its size, every access recorded since
`st` has an index below `hi`, one written `j1SysOutputs[output]` an index between the old
and the new `output`, one written relative to the bank an index from `lo` on, and a row that
no recorded access names is unchanged. -/
structure Step (lo hi : Nat) (st st' : AllocState) : Prop where
  output_le : st.output ≤ st'.output
  length_eq : st'.rows.length = st.rows.length
  log_eq : ∃ d, st'.log = st.log ++ d ∧
    (∀ j, Access.cursor j ∈ d → st.output ≤ j ∧ j ≤ st'.output ∧ j < hi) ∧
    (∀ j, Access.bank j ∈ d → lo ≤ j ∧ j < hi) ∧
    (∀ j, (∀ a ∈ d, a.index ≠ j) → st'.rows[j]? = st.rows[j]?)

/-- The early-stop condition carried through the allocation: the variables at the stop are
reached by in-bank accesses, and the stop is not the embedding running out of fuel. -/
def StopOk (lo hi : Nat) (st : AllocState) (e : Stop) : Prop :=
  Step lo hi st e.st ∧ e.fault ≠ .fuel

/-- The variables at the end of a run, whether it ended or stopped early. -/
def finalState : Except Stop AllocState → AllocState
  | .ok s => s
  | .error e => e.st

/-- The rows of `allocPixel` when it ends without a stop (empty otherwise). -/
def rowsOf (r : Except Stop (List J1SysOutput)) : List J1SysOutput :=
  match r with
  | .ok rows => rows
  | .error _ => []

/-- A row after the clearing of lines 383-386. -/
def cleared (r : J1SysOutput) : J1SysOutput :=
  { r with active := false, universe_ := 0, startChannel := 0, pixels := 0 }

/-- Every row has the protocol and the speed of the first row of its bank. -/
def BanksAgree (size : Nat) (rows : List J1SysOutput) : Prop :=
  ∀ i r l, rows[i]? = some r → rows[i / size * size]? = some l →
    r.protocol = l.protocol ∧ r.speed = l.speed

/-- The pixel allocation stopped at the check of lines 372-378 or 411-417: a model still
had channels to place (`channels > 0`) with `output` past the last row of the bank. -/
def BankOverflow (r : Except Stop (List J1SysOutput)) : Prop :=
  ∃ stop, r = .error stop ∧ stop.fault = .tooManyOutputs

/-- The serial row `r` after the writes of lines 507-513 for the port `port`. -/
def serialWritten (r : J1SysSerialOutput) (port : UDControllerPort) : J1SysSerialOutput :=
  { r with
    active := true
    protocol := EncodeSerialPortProtocol port.protocol
    speed := if EncodeSerialPortProtocol port.protocol = code 'D' ∧ r.speed < 5 then 5
             else r.speed
    universe_ := port.universe_ }

/-- The serial vector at the end of a step or loop, whether it ended or stopped early. -/
def serialRowsOf (res : Except SerialStop (List J1SysSerialOutput)) : List J1SysSerialOutput :=
  match res with
  | .ok rows => rows
  | .error stop => stop.rows

/-- A property of the vector and the access record that every kind of access of the
allocation keeps: recording an access, a write through `j1SysOutputs[output]`, the clearing
write of lines 383-386 and 428-431, and the copy of protocol and speed of lines 455-456. -/
structure Writes (I : List J1SysOutput → List Access → Prop) : Prop where
  access : ∀ rows log a, I rows log → I rows (log ++ [a])
  cursor : ∀ rows log j (f : J1SysOutput → J1SysOutput) r, I rows log → rows[j]? = some r →
    I (rows.set j (f r)) (log ++ [.cursor j])
  clear : ∀ rows log j r, I rows log → rows[j]? = some r →
    I (rows.set j { r with active := false, universe_ := 0, startChannel := 0, pixels := 0 })
      (log ++ [.bank j])
  copy : ∀ rows log j r (l : J1SysOutput), I rows log → rows[j]? = some r →
    I (rows.set j { r with protocol := l.protocol, speed := l.speed }) (log ++ [.bank j])

/-- A row that holds no span: inactive, with universe, start channel and pixel count 0. -/
def Unused (r : J1SysOutput) : Prop :=
  r.active = false ∧ r.universe_ = 0 ∧ r.startChannel = 0 ∧ r.pixels = 0

/-- Every row from `lo` up to `hi - 1` that no access written `j1SysOutputs[output]` names
(the accesses through which a model span is written) is unused. -/
def UnwrittenUnused (lo hi : Nat) (rows : List J1SysOutput) (log : List Access) : Prop :=
  ∀ k, lo ≤ k → k < hi → Access.cursor k ∉ log → ∀ r, rows[k]? = some r → Unused r

/-! ## Example inputs -/

/-- A device that answers every request with a non-empty page. -/
def okDevice : Device := ⟨fun _ => "ok"⟩

/-- A scraper whose expressions never match. -/
def noMatch : Scraper :=
  ⟨fun _ _ => ⟨false, none, none, none, none, none⟩, fun _ _ => ⟨false, none, none, none⟩⟩

/-- A 2-output controller (ECG-P2, firmware 2.9). -/
def p2Controller : J1Sys := ⟨"192.168.0.50", 2, 2.9, "ECG-P2"⟩

/-- Nine universes of 510 channels. -/
def nineUniverses : List Output :=
  (List.range 9).map (fun i => ⟨"E131", (i : Int) + 1, 510⟩)

/-- A controller description with no port assigned. -/
def emptyCud : UDController := ⟨true, 0, 0, fun _ => none, fun _ => none⟩

/-- Two universes of 510 channels. -/
def twoUniverses : OutputManager := [⟨"E131", 1, 510⟩, ⟨"E131", 2, 510⟩]

/-- Eight fresh rows: the vector of a 2-output controller. -/
def eightRows : List J1SysOutput := List.replicate 8 {}

/-- A model on the absolute channels 1 to 30. -/
def gapFirst : UDControllerPortModel := ⟨"ws2811", 1, 30⟩

/-- A model on the absolute channels 61 to 90: a gap after `gapFirst`, same universe. -/
def gapSecond : UDControllerPortModel := ⟨"ws2811", 61, 90⟩

/-- A port with one model of 600 channels from absolute channel 1. -/
def longPort : UDControllerPort := ⟨"ws2811", 1, 1, 600, [⟨"ws2811", 1, 600⟩]⟩

/-- Port 1 carries `longPort`, nothing else is assigned. -/
def longCud : UDController :=
  ⟨true, 1, 0, fun pp => if pp = 1 then some longPort else none, fun _ => none⟩

/-- A model of 600 channels from absolute channel 1. -/
def longModel : UDControllerPortModel := ⟨"ws2811", 1, 600⟩

/-- One ArtNet universe of 510 channels whose universe id is 0. -/
def zeroUniverse : OutputManager := [⟨"ArtNet", 0, 510⟩]

/-- A port with two contiguous models of 300 and 150 channels from absolute channel 1. -/
def runPort : UDControllerPort :=
  ⟨"ws2811", 1, 1, 450, [⟨"ws2811", 1, 300⟩, ⟨"ws2811", 301, 450⟩]⟩

/-- Port 1 carries `runPort` (two contiguous models of 300 and 150 channels from absolute
channel 1); nothing else is assigned. -/
def runCud : UDController :=
  ⟨true, 1, 0, fun pp => if pp = 1 then some runPort else none, fun _ => none⟩

/-- Eight universes of 510 channels. -/
def eightUniverses : List Output :=
  (List.range 8).map (fun i => ⟨"E131", (i : Int) + 1, 510⟩)

/-- Port 1 carries one model of 2550 channels (five universes), nothing else is assigned. -/
def overflowCud : UDController :=
  ⟨true, 1, 0,
    fun pp => if pp = 1 then some ⟨"ws2811", 1, 1, 2550, [⟨"ws2811", 1, 2550⟩]⟩ else none,
    fun _ => none⟩

/-- Serial port 1 runs from channel 1 of the first universe into the second universe. -/
def spanningCud : UDController :=
  ⟨true, 0, 1, fun _ => none,
    fun sp => if sp = 1 then some ⟨"dmx", 1, 1, 600, []⟩ else none⟩

/-- A 12-output controller (ECG-P12S, firmware 3.3). -/
def p12Controller : J1Sys := ⟨"192.168.0.51", 12, 3.3, "ECG-P12S"⟩

/-- A 12-output controller, model ECG-P12R, firmware 3.5. -/
def p12rController : J1Sys := ⟨"192.168.0.52", 12, 3.5, "ECG-P12R"⟩

/-- One universe of 510 channels. -/
def oneUniverse : OutputManager := [⟨"E131", 1, 510⟩]

/-- Port 1 carries one ws2811 model of 510 channels from absolute channel 1, nothing else
is assigned. -/
def fullCud : UDController :=
  ⟨true, 1, 0,
    fun pp => if pp = 1 then some ⟨"ws2811", 1, 1, 510, [⟨"ws2811", 1, 510⟩]⟩ else none,
    fun _ => none⟩

/-- A device that answers the POST of the pixel configuration with an empty body and
everything else with a page. -/
def pixelPostFails : Device :=
  ⟨fun req => if req.method = .POST ∧ req.url = "/protect/stringConfig.htm" then "" else "ok"⟩

/-- Serial port 1 carries DMX on the channels 1 to 510 of universe 1. -/
def dmxCud : UDController :=
  ⟨true, 0, 1, fun _ => none,
    fun sp => if sp = 1 then some ⟨"DMX", 1, 1, 510, []⟩ else none⟩

/-- Port 1 carries two contiguous models of 300 channels, on the absolute channels 1 to 300
and 301 to 600; nothing else is assigned. -/
def contCud : UDController :=
  ⟨true, 1, 0,
    fun pp => if pp = 1 then
        some ⟨"ws2811", 1, 1, 600, [⟨"ws2811", 1, 300⟩, ⟨"ws2811", 301, 600⟩]⟩
      else none,
    fun _ => none⟩

/-- Port 12 carries `gapFirst` and `gapSecond` (channels 1 to 30 and 61 to 90 of one
universe); nothing else is assigned. -/
def gapLastCud : UDController :=
  ⟨true, 12, 0,
    fun pp => if pp = 12 then some ⟨"ws2811", 1, 1, 90, [gapFirst, gapSecond]⟩ else none,
    fun _ => none⟩

/-- A device whose pixel configuration page cannot be read (empty answer to the GET of
/protect/stringConfig.htm) and that answers everything else with a page. -/
def emptyReadDevice : Device := ⟨fun req => if req = stringConfigGet then "" else "ok"⟩

/-- A scraper that reports every pixel row of the page as active, on universe 5 from channel
1 with 10 pixels, and every serial row as inactive. -/
def busyScraper : Scraper :=
  ⟨fun _ _ => ⟨true, some "ws2811", some 3600, some 5, some 1, some 10⟩,
    fun _ _ => ⟨false, none, none, none⟩⟩

/-! ## Servo (models/DMX/Servo.cpp) -/

/-- The attributes of a `wxXmlNode` (wxWidgets), in list order, as name and value. -/
structure wxXmlNode where
  attributes : List (String × String)
deriving DecidableEq, Repr

/-- `wxXmlNode::GetAttribute(name, defaultVal)`: the value of the first attribute with
that name, the default when there is none. -/
def wxXmlNode.GetAttribute (node : wxXmlNode) (name defaultVal : String) : String :=
  match node.attributes.find? (fun a => a.1 = name) with
  | some a => a.2
  | none => defaultVal

/-- `wxXmlNode::DeleteAttribute(name)`: the first attribute with that name is removed. -/
def wxXmlNode.DeleteAttribute (node : wxXmlNode) (name : String) : wxXmlNode :=
  ⟨node.attributes.eraseP (fun a => a.1 = name)⟩

/-- `wxXmlNode::AddAttribute(name, value)`: the attribute is added at the end of the list. -/
def wxXmlNode.AddAttribute (node : wxXmlNode) (name value : String) : wxXmlNode :=
  ⟨node.attributes ++ [(name, value)]⟩

/-- The number that a list of decimal digits writes. -/
def digitsValue (cs : List Char) : Nat :=
  cs.foldl (fun acc c => acc * 10 + (c.toNat - 48)) 0

/-- `wxAtoi`, that is C `atoi`: leading white space is skipped, an optional sign is read,
then the decimal digits that follow; anything after them is ignored and no digit gives 0.
Values outside the range of `int` (undefined in C) are not wrapped. -/
def wxAtoi (s : String) : Int :=
  match s.data.dropWhile Char.isWhitespace with
  | '-' :: ds => -((digitsValue (ds.takeWhile Char.isDigit) : Nat) : Int)
  | '+' :: ds => ((digitsValue (ds.takeWhile Char.isDigit) : Nat) : Int)
  | ds => ((digitsValue (ds.takeWhile Char.isDigit) : Nat) : Int)

/-- The conversion `(int)` of a `long` (two's complement, 32-bit `int`). -/
def toInt32 (v : Int) : Int := (v + 2 ^ 31) % 2 ^ 32 - 2 ^ 31

/-- The library functions on floating-point text that `Servo` uses, taken as given:
`wxAtof` and `wxString::Format("%6.4f", ..)`; a `float` is a rational here. -/
structure FloatText where
  wxAtof : String → ℚ
  format : ℚ → String

/-- The members of a `Servo` (Servo.h; initial values in the constructor, lines 11-17). -/
structure Servo where
  node_xml : wxXmlNode
  base_name : String
  channel : Int := 0
  min_limit : Int := 0
  max_limit : Int := 65535
  range_of_motion : Int := 180
  pivot_offset_x : ℚ := 0
  pivot_offset_y : ℚ := 0
  servo_style_val : Int := 0
  servo_style : String := "Translate X"

/-- The constant `OFFSET_SCALE`, line 23. -/
def OFFSET_SCALE : ℚ := 100

/-- The values of `enum SERVO_STYLE`, lines 27-34, by style name; `none` for another
name. -/
def servoStyleOf (style : String) : Option Int :=
  if style = "Translate X" then some 0
  else if style = "Translate Y" then some 1
  else if style = "Translate Z" then some 2
  else if style = "Rotate X" then some 3
  else if style = "Rotate Y" then some 4
  else if style = "Rotate Z" then some 5
  else none

/-- `Servo::Init`, lines 45-73. -/
def Servo.Init (lib : FloatText) (s : Servo) : Servo :=
  let servo_style := s.node_xml.GetAttribute "ServoStyle" "Translate X"
  { s with
    channel := wxAtoi (s.node_xml.GetAttribute "Channel" "0")
    min_limit := wxAtoi (s.node_xml.GetAttribute "MinLimit" "0")
    max_limit := wxAtoi (s.node_xml.GetAttribute "MaxLimit" "65535")
    range_of_motion := wxAtoi (s.node_xml.GetAttribute "RangeOfMotion" "180")
    pivot_offset_x := lib.wxAtof (s.node_xml.GetAttribute "PivotOffsetX" "0") / OFFSET_SCALE
    pivot_offset_y := lib.wxAtof (s.node_xml.GetAttribute "PivotOffsetY" "0") / OFFSET_SCALE
    servo_style := servo_style
    servo_style_val := (servoStyleOf servo_style).getD 0 }

/-- What `Servo::OnPropertyGridChange` reads from the event: the property name,
`GetPropertyValue().GetLong()` and `GetValue().GetDouble()`. -/
structure PropertyEvent where
  name : String
  long : Int
  double : ℚ

/-- What a call of `Servo::OnPropertyGridChange` does: the returned value, the servo after
it, and the work it queues on the base object, in order. -/
structure ChangeResult where
  ret : Int
  servo : Servo
  work : List String

/-- The style names of lines 228-245 by value; another value leaves `servo_style`. -/
def servoStyleName (val : Int) (current : String) : String :=
  if val = 0 then "Translate X"
  else if val = 1 then "Translate Y"
  else if val = 2 then "Translate Z"
  else if val = 3 then "Rotate X"
  else if val = 4 then "Rotate Y"
  else if val = 5 then "Rotate Z"
  else current

/-- `Servo::OnPropertyGridChange`, lines 170-258. -/
def Servo.OnPropertyGridChange (lib : FloatText) (s : Servo) (event : PropertyEvent) :
    ChangeResult :=
  let name := event.name
  if s.base_name ++ "Channel" = name then
    let node := (s.node_xml.DeleteAttribute "Channel").AddAttribute "Channel"
      (formatD (toInt32 event.long))
    ⟨0, { s with node_xml := node },
      ["WORK_RGBEFFECTS_CHANGE", "WORK_RELOAD_MODEL_FROM_XML",
       "WORK_MODELS_CHANGE_REQUIRING_RERENDER"]⟩
  else if s.base_name ++ "MinLimit" = name then
    let node := (s.node_xml.DeleteAttribute "DmxServoMinLimit").AddAttribute
      "DmxServoMinLimit" (formatD (toInt32 event.long))
    ⟨0, { s with node_xml := node },
      ["WORK_RGBEFFECTS_CHANGE", "WORK_RELOAD_MODEL_FROM_XML", "WORK_REDRAW_LAYOUTPREVIEW"]⟩
  else if s.base_name ++ "MaxLimit" = name then
    let node := (s.node_xml.DeleteAttribute "MaxLimit").AddAttribute "MaxLimit"
      (formatD (toInt32 event.long))
    ⟨0, { s with node_xml := node },
      ["WORK_RGBEFFECTS_CHANGE", "WORK_RELOAD_MODEL_FROM_XML", "WORK_REDRAW_LAYOUTPREVIEW"]⟩
  else if s.base_name ++ "RangeOfMotion" = name then
    let node := (s.node_xml.DeleteAttribute "RangeOfMotion").AddAttribute "RangeOfMotion"
      (formatD (toInt32 event.long))
    ⟨0, { s with node_xml := node },
      ["WORK_RGBEFFECTS_CHANGE", "WORK_RELOAD_MODEL_FROM_XML", "WORK_REDRAW_LAYOUTPREVIEW"]⟩
  else if s.base_name ++ "PivotOffsetX" = name then
    let x := event.double / OFFSET_SCALE
    let node := (s.node_xml.DeleteAttribute "PivotOffsetX").AddAttribute "PivotOffsetX"
      (lib.format (x * OFFSET_SCALE))
    ⟨0, { s with node_xml := node, pivot_offset_x := x },
      ["WORK_RGBEFFECTS_CHANGE", "WORK_MODELS_CHANGE_REQUIRING_RERENDER",
       "WORK_REDRAW_LAYOUTPREVIEW", "WORK_RELOAD_PROPERTYGRID"]⟩
  else if s.base_name ++ "PivotOffsetY" = name then
    let y := event.double / OFFSET_SCALE
    let node := (s.node_xml.DeleteAttribute "PivotOffsetY").AddAttribute "PivotOffsetY"
      (lib.format (y * OFFSET_SCALE))
    ⟨0, { s with node_xml := node, pivot_offset_y := y },
      ["WORK_RGBEFFECTS_CHANGE", "WORK_MODELS_CHANGE_REQUIRING_RERENDER",
       "WORK_REDRAW_LAYOUTPREVIEW", "WORK_RELOAD_PROPERTYGRID"]⟩
  else if s.base_name ++ "ServoStyle" = name then
    let node := s.node_xml.DeleteAttribute "ServoStyle"
    let val := event.long
    let style := servoStyleName val s.servo_style
    ⟨0, { s with node_xml := node.AddAttribute "ServoStyle" style, servo_style_val := val,
                 servo_style := style },
      ["WORK_RGBEFFECTS_CHANGE", "WORK_MODELS_CHANGE_REQUIRING_RERENDER",
       "WORK_RELOAD_MODEL_FROM_XML", "WORK_RELOAD_MODELLIST", "WORK_REDRAW_LAYOUTPREVIEW",
       "WORK_CALCULATE_START_CHANNELS", "WORK_RELOAD_PROPERTYGRID"]⟩
  else ⟨-1, s, []⟩

/-- A servo named "Servo1" on a node that stores all four integer properties. -/
def storedServo : Servo :=
  { node_xml := ⟨[("Channel", "3"), ("MinLimit", "5"), ("MaxLimit", "60000"),
                  ("RangeOfMotion", "90")]⟩,
    base_name := "Servo1" }

/-- Floating-point text functions for the examples (no example reads a pivot offset). -/
def plainFloatText : FloatText := ⟨fun _ => 0, fun _ => "0.0000"⟩

/-! ## ElementEffects (sequencer/ElementEffects.cpp lines 75-121) -/

/-- One entry of `Effects` (`Effect_Struct` of ElementEffects.h, with the fields that
`AddEffect` fills, lines 55-62); the times, `double` in the source, are rationals. -/
structure Effect_Struct where
  ID : Int
  Effect : String
  EffectIndex : Int
  StartTime : ℚ
  EndTime : ℚ
  Protected : Bool
  Selected : Bool
deriving DecidableEq

/-- The conversion of an `int` to `size_t` (64 bits): the value modulo 2^64. -/
def toSizeT (i : Int) : Nat := (i % 2 ^ 64).toNat

/-- What a call of one of the query functions does: the positions of `Effects` it accesses
through `operator[]`, and its result; `none` when an accessed position is outside the
vector, which is undefined behaviour. -/
structure Probe (α : Type) where
  accesses : List Nat
  result : Option α

/-- The conversion `(int)` of a `double` that `return Effects[..].StartTime;` makes in a
function returning `int`: the fraction is dropped. -/
def truncTime (t : ℚ) : Int := t.num.tdiv t.den

/-- `ElementEffects::IsStartTimeLinked`, lines 75-85; `index < Effects.size()` compares
after converting `index` to `size_t`, and so does `operator[]`. -/
def IsStartTimeLinked (Effects : List Effect_Struct) (index : Int) : Probe Bool :=
  if toSizeT index < Effects.length then
    ⟨[toSizeT (index - 1), toSizeT index],
      match Effects[toSizeT (index - 1)]?, Effects[toSizeT index]? with
      | some a, some b => some (decide (a.EndTime = b.StartTime))
      | _, _ => none⟩
  else ⟨[], some false⟩

/-- `ElementEffects::IsEndTimeLinked`, lines 87-97. -/
def IsEndTimeLinked (Effects : List Effect_Struct) (index : Int) : Probe Bool :=
  if toSizeT index < Effects.length then
    ⟨[toSizeT index, toSizeT (index + 1)],
      match Effects[toSizeT index]?, Effects[toSizeT (index + 1)]? with
      | some a, some b => some (decide (a.EndTime = b.StartTime))
      | _, _ => none⟩
  else ⟨[], some false⟩

/-- `ElementEffects::GetMaximumEndTime`, lines 99-109; `Effects.size()-1` is computed in
`size_t` and `NO_MIN_MAX_TIME` is a constant of the header. -/
def GetMaximumEndTime (NO_MIN_MAX_TIME : Int) (Effects : List Effect_Struct) (index : Int) :
    Probe Int :=
  if toSizeT index = toSizeT ((Effects.length : Int) - 1) then ⟨[], some NO_MIN_MAX_TIME⟩
  else
    ⟨[toSizeT (index + 1)],
      match Effects[toSizeT (index + 1)]? with
      | some a => some (truncTime a.StartTime)
      | none => none⟩

/-- `ElementEffects::GetMinimumStartTime`, lines 111-121. -/
def GetMinimumStartTime (NO_MIN_MAX_TIME : Int) (Effects : List Effect_Struct) (index : Int) :
    Probe Int :=
  if index = 0 then ⟨[], some NO_MIN_MAX_TIME⟩
  else
    ⟨[toSizeT (index - 1)],
      match Effects[toSizeT (index - 1)]? with
      | some a => some (truncTime a.EndTime)
      | none => none⟩

/-- An effect list with one effect from time 0 to 5. -/
def oneEffect : List Effect_Struct := [⟨1, "Bars", 0, 0, 5, false, false⟩]

/-! # Theorems -/

/-! ## Capabilities -/

/-- C8: with 12 outputs and a model other than ECG-P12R, a firmware below 3.4 (such as 3.3)
gives 510 channels per pixel port and a firmware of 3.4 or more gives 1020, and every other
capability is the same for the two firmwares. -/
theorem rules_firmware_changes_only_pixel_channels (model : String) (f1 f2 : ℚ)
    (hmodel : model ≠ J1SYS_MODEL_P12R) (h1 : f1 < 3.4) (h2 : 3.4 ≤ f2) :
    (J1SysControllerRules.mk 12 f1 model).GetMaxPixelPortChannels = 510 ∧
    (J1SysControllerRules.mk 12 f2 model).GetMaxPixelPortChannels = 1020 ∧
    (J1SysControllerRules.mk 12 f1 model).GetControllerId
      = (J1SysControllerRules.mk 12 f2 model).GetControllerId ∧
    (J1SysControllerRules.mk 12 f1 model).GetMaxPixelPort
      = (J1SysControllerRules.mk 12 f2 model).GetMaxPixelPort ∧
    (J1SysControllerRules.mk 12 f1 model).GetMaxSerialPort
      = (J1SysControllerRules.mk 12 f2 model).GetMaxSerialPort ∧
    (J1SysControllerRules.mk 12 f1 model).GetMaxSerialPortChannels
      = (J1SysControllerRules.mk 12 f2 model).GetMaxSerialPortChannels ∧
    (∀ p, (J1SysControllerRules.mk 12 f1 model).IsValidPixelProtocol p
      = (J1SysControllerRules.mk 12 f2 model).IsValidPixelProtocol p) ∧
    (∀ p, (J1SysControllerRules.mk 12 f1 model).IsValidSerialProtocol p
      = (J1SysControllerRules.mk 12 f2 model).IsValidSerialProtocol p) ∧
    (J1SysControllerRules.mk 12 f1 model).GetSupportedInputProtocols
      = (J1SysControllerRules.mk 12 f2 model).GetSupportedInputProtocols ∧
    (J1SysControllerRules.mk 12 f1 model).GetControllerManufacturer
      = (J1SysControllerRules.mk 12 f2 model).GetControllerManufacturer ∧
    (J1SysControllerRules.mk 12 f1 model).SupportsLEDPanelMatrix
      = (J1SysControllerRules.mk 12 f2 model).SupportsLEDPanelMatrix ∧
    (J1SysControllerRules.mk 12 f1 model).SupportsMultipleProtocols
      = (J1SysControllerRules.mk 12 f2 model).SupportsMultipleProtocols ∧
    (J1SysControllerRules.mk 12 f1 model).SupportsSmartRemotes
      = (J1SysControllerRules.mk 12 f2 model).SupportsSmartRemotes ∧
    (J1SysControllerRules.mk 12 f1 model).SupportsMultipleInputProtocols
      = (J1SysControllerRules.mk 12 f2 model).SupportsMultipleInputProtocols ∧
    (J1SysControllerRules.mk 12 f1 model).AllUniversesSameSize
      = (J1SysControllerRules.mk 12 f2 model).AllUniversesSameSize ∧
    (J1SysControllerRules.mk 12 f1 model).UniversesMustBeSequential
      = (J1SysControllerRules.mk 12 f2 model).UniversesMustBeSequential := by
  have hid : ∀ f : ℚ, (J1SysControllerRules.mk 12 f model).GetControllerId ≠ J1SYS_P12R := by
    intro f
    simp only [J1SysControllerRules.GetControllerId]
    split_ifs <;> decide
  have hnot : ¬ f1 ≥ 3.4 := not_le.mpr h1
  refine ⟨?_, ?_, rfl, rfl, rfl, rfl, fun _ => rfl, fun _ => rfl, rfl, rfl, rfl, rfl, rfl,
    rfl, rfl, rfl⟩
  · simp [J1SysControllerRules.GetMaxPixelPortChannels, hid, hnot]
  · have h2' : f2 ≥ 3.4 := h2
    simp [J1SysControllerRules.GetMaxPixelPortChannels, hid, h2']

/-- C8 at the model ECG-P12S and the firmwares 3.3 and 3.4. -/
theorem rules_firmware_changes_only_pixel_channels_witness :
    (J1SysControllerRules.mk 12 3.3 "ECG-P12S").GetMaxPixelPortChannels = 510 ∧
    (J1SysControllerRules.mk 12 3.4 "ECG-P12S").GetMaxPixelPortChannels = 1020 :=
  have h := rules_firmware_changes_only_pixel_channels "ECG-P12S" 3.3 3.4 (by decide)
    (by norm_num) (by norm_num)
  ⟨h.1, h.2.1⟩

/-- C9: with 12 outputs, the model ECG-P12R has no serial port and 510 channels per pixel
port whatever the firmware; every other model has 2 serial ports, and 1020 channels per
pixel port when the firmware is 3.4 or more and 510 otherwise. -/
theorem rules_twelve_outputs (model : String) (f : ℚ) :
    (J1SysControllerRules.mk 12 f model).GetMaxSerialPort
      = (if model = "ECG-P12R" then 0 else 2) ∧
    (J1SysControllerRules.mk 12 f model).GetMaxPixelPortChannels
      = (if model = "ECG-P12R" then 510 else if f ≥ 3.4 then 1020 else 510) := by
  have hid : (J1SysControllerRules.mk 12 f model).GetControllerId = J1SYS_P12R
      ↔ model = "ECG-P12R" := by
    by_cases hS : model = "ECG-P12S"
    · subst hS
      have e : (J1SysControllerRules.mk 12 f "ECG-P12S").GetControllerId = J1SYS_P12S := rfl
      rw [e]
      exact ⟨fun h => absurd h (by decide), fun h => absurd h (by decide)⟩
    · by_cases hR : model = "ECG-P12R"
      · subst hR; exact ⟨fun _ => rfl, fun _ => rfl⟩
      · have e : (J1SysControllerRules.mk 12 f model).GetControllerId = J1SYS_P12D := by
          simp [J1SysControllerRules.GetControllerId, J1SYS_MODEL_P12S, J1SYS_MODEL_P12R, hS,
            hR]
        rw [e]
        exact ⟨fun h => absurd h (by decide), fun h => absurd h hR⟩
  constructor
  · simp only [J1SysControllerRules.GetMaxSerialPort, hid]; simp
  · simp only [J1SysControllerRules.GetMaxPixelPortChannels, hid]
    split_ifs <;> norm_num at *

/-- C10 as stated fails: with 4 outputs the limits are not those of the 12-output ECG-P12R
variant: 4 pixel ports instead of 12, 0 channels per pixel port instead of 510, 0 channels
per serial port instead of 512. -/
theorem rules_other_outputs_counterexample :
    (J1SysControllerRules.mk 4 3.3 "ECG-P4").GetMaxPixelPort = 4 ∧
    (J1SysControllerRules.mk 12 3.3 "ECG-P12R").GetMaxPixelPort = 12 ∧
    (J1SysControllerRules.mk 4 3.3 "ECG-P4").GetMaxPixelPortChannels = 0 ∧
    (J1SysControllerRules.mk 12 3.3 "ECG-P12R").GetMaxPixelPortChannels = 510 ∧
    (J1SysControllerRules.mk 4 3.3 "ECG-P4").GetMaxSerialPortChannels = 0 ∧
    (J1SysControllerRules.mk 12 3.3 "ECG-P12R").GetMaxSerialPortChannels = 512 := by
  refine ⟨rfl, rfl, ?_, ?_, ?_, ?_⟩ <;> decide

/-- C10 as amended: with an output count other than 2 and 12 the controller id and the
number of serial ports are those of the 12-output ECG-P12R variant (J1Sys-P12R and 0), the
number of pixel ports is the output count, and the channels per pixel port and per serial
port are 0. -/
theorem rules_other_outputs (outputs : Int) (f g : ℚ) (model : String)
    (h2 : outputs ≠ 2) (h12 : outputs ≠ 12) :
    (J1SysControllerRules.mk outputs f model).GetControllerId
      = (J1SysControllerRules.mk 12 g "ECG-P12R").GetControllerId ∧
    (J1SysControllerRules.mk outputs f model).GetMaxSerialPort
      = (J1SysControllerRules.mk 12 g "ECG-P12R").GetMaxSerialPort ∧
    (J1SysControllerRules.mk outputs f model).GetControllerId = "J1Sys-P12R" ∧
    (J1SysControllerRules.mk outputs f model).GetMaxSerialPort = 0 ∧
    (J1SysControllerRules.mk outputs f model).GetMaxPixelPort = outputs ∧
    (J1SysControllerRules.mk outputs f model).GetMaxPixelPortChannels = 0 ∧
    (J1SysControllerRules.mk outputs f model).GetMaxSerialPortChannels = 0 := by
  have e1 : (J1SysControllerRules.mk outputs f model).GetControllerId = "J1Sys-P12R" := by
    simp [J1SysControllerRules.GetControllerId, h2, h12, J1SYS_P12R]
  have e2 : (J1SysControllerRules.mk 12 g "ECG-P12R").GetControllerId = "J1Sys-P12R" := by
    rfl
  have e3 : (J1SysControllerRules.mk outputs f model).GetMaxSerialPort = 0 := by
    simp [J1SysControllerRules.GetMaxSerialPort, h12]
  have e4 : (J1SysControllerRules.mk 12 g "ECG-P12R").GetMaxSerialPort = 0 := by
    rfl
  refine ⟨e1.trans e2.symm, e3.trans e4.symm, e1, e3, rfl, ?_, ?_⟩
  · simp [J1SysControllerRules.GetMaxPixelPortChannels, h2, h12]
  · simp [J1SysControllerRules.GetMaxSerialPortChannels, h12]

/-- C10 as amended, at 4 outputs. -/
theorem rules_other_outputs_witness :
    (J1SysControllerRules.mk 4 3.3 "ECG-P4").GetControllerId = "J1Sys-P12R" ∧
    (J1SysControllerRules.mk 4 3.3 "ECG-P4").GetMaxPixelPortChannels = 0 :=
  have h := rules_other_outputs 4 3.3 3.3 "ECG-P4" (by decide) (by decide)
  ⟨h.2.2.1, h.2.2.2.2.2.1⟩

/-! ## SetInputUniverses -/

/-- C7: when the device has more universes than its family takes (8 with 2 outputs; with 12
outputs 12, or 26 when the model is not ECG-P12R and the firmware is 3.4 or more), or one
universe has more than 510 channels, `SetInputUniverses` returns false and sends no
request, and so does `SetOutputs`. -/
theorem SetInputUniverses_rejects (j : J1Sys) (dev : Device) (scr : Scraper)
    (om : OutputManager) (outputs : List Output) (cud : UDController)
    (h : (j._outputs = 2 ∧ 8 < outputs.length) ∨
         (j._outputs = 12 ∧
            (if j._model ≠ "ECG-P12R" ∧ j._version ≥ 3.4 then 26 else 12) < outputs.length) ∨
         (∃ o ∈ outputs, 510 < o.channels)) :
    SetInputUniverses j dev outputs = (false, []) ∧
    SetOutputs j dev scr om outputs cud = ⟨some false, []⟩ := by
  have key : SetInputUniverses j dev outputs = (false, []) := by
    unfold SetInputUniverses
    rcases h with ⟨h2, hn⟩ | ⟨h12, hn⟩ | ⟨o, ho, hc⟩
    · rw [if_pos ⟨h2, hn⟩]
    · have hne : j._outputs ≠ 2 := by omega
      have hn' : outputs.length >
          (if j._model ≠ J1SYS_MODEL_P12R ∧ j._version ≥ 3.4 then 26 else 12) := hn
      rw [if_neg (fun c => hne c.1), if_pos ⟨hne, h12, hn'⟩]
    · have hany : outputs.any (fun o => decide (o.channels > 510)) = true :=
        List.any_eq_true.mpr ⟨o, ho, by simpa using hc⟩
      split_ifs <;> rfl
  refine ⟨key, ?_⟩
  simp [SetOutputs, key]

/-- C7 on a 2-output controller with 9 universes: `SetOutputs` returns false and no
request is sent. -/
theorem SetInputUniverses_rejects_witness :
    SetOutputs p2Controller okDevice noMatch nineUniverses nineUniverses emptyCud
      = ⟨some false, []⟩ :=
  (SetInputUniverses_rejects p2Controller okDevice noMatch nineUniverses nineUniverses
    emptyCud (Or.inl ⟨rfl, by decide⟩)).2

/-! ## The allocation loop: which rows are accessed -/

theorem Post.bind {α β : Type} {m : Except Stop α} {f : α → Except Stop β}
    {P : α → Prop} {Q : β → Prop} {E : Stop → Prop}
    (hm : Post m P E) (hf : ∀ a, P a → Post (f a) Q E) : Post (m >>= f) Q E := by
  cases m with
  | error e => exact hm
  | ok a => exact hf a hm

theorem Post.mono {α : Type} {m : Except Stop α} {P Q : α → Prop} {E F : Stop → Prop}
    (hm : Post m P E) (hq : ∀ a, P a → Q a) (he : ∀ e, E e → F e) : Post m Q F := by
  cases m with
  | error e => exact he e hm
  | ok a => exact hq a hm

theorem Step.refl (lo hi : Nat) (st : AllocState) : Step lo hi st st :=
  ⟨le_refl _, rfl, [], by simp, by simp, by simp, by simp⟩

theorem Step.trans {lo hi : Nat} {a b c : AllocState} (h1 : Step lo hi a b)
    (h2 : Step lo hi b c) : Step lo hi a c := by
  obtain ⟨d1, e1, c1, b1, r1⟩ := h1.log_eq
  obtain ⟨d2, e2, c2, b2, r2⟩ := h2.log_eq
  refine ⟨le_trans h1.output_le h2.output_le, h2.length_eq.trans h1.length_eq,
    d1 ++ d2, ?_, ?_, ?_, ?_⟩
  · rw [e2, e1, List.append_assoc]
  · intro j hj
    rcases List.mem_append.mp hj with h | h
    · have := c1 j h
      have := h2.output_le
      omega
    · have := c2 j h
      have := h1.output_le
      omega
  · intro j hj
    rcases List.mem_append.mp hj with h | h
    · exact b1 j h
    · exact b2 j h
  · intro j hj
    rw [r2 j (fun a ha => hj a (List.mem_append.mpr (Or.inr ha))),
      r1 j (fun a ha => hj a (List.mem_append.mpr (Or.inl ha)))]

theorem Step.bump {lo hi : Nat} {st s : AllocState} (h : Step lo hi st s) :
    Step lo hi st { s with output := s.output + 1 } := by
  obtain ⟨d, e, c, b, r⟩ := h.log_eq
  exact ⟨Nat.le_succ_of_le h.output_le, h.length_eq, d, e,
    fun j hj => by have := c j hj; exact ⟨this.1, Nat.le_succ_of_le this.2.1, this.2.2⟩, b, r⟩

theorem Post.after {α : Type} {lo hi : Nat} {st s : AllocState} {m : Except Stop α}
    {P Q : α → Prop} (hs : Step lo hi st s) (hm : Post m P (StopOk lo hi s))
    (hq : ∀ a, P a → Q a) : Post m Q (StopOk lo hi st) :=
  Post.mono hm hq (fun _ he => ⟨hs.trans he.1, he.2⟩)

theorem modify_post (lo hi : Nat) (st : AllocState) (a : Access) (f : J1SysOutput → J1SysOutput)
    (ha : a.index < hi) (hc : ∀ j, a = .cursor j → j = st.output)
    (hb : ∀ j, a = .bank j → lo ≤ j) :
    Post (st.modify a f)
      (fun st' => Step lo hi st st' ∧ st'.output = st.output ∧
        ∃ r, st.rows[a.index]? = some r ∧ st'.rows = st.rows.set a.index (f r))
      (StopOk lo hi st) := by
  have key : ∀ rows : List J1SysOutput, rows.length = st.rows.length →
      (∀ j, a.index ≠ j → rows[j]? = st.rows[j]?) →
      Step lo hi st { st with rows := rows, log := st.log ++ [a] } := by
    intro rows hlen hrows
    refine ⟨le_refl _, hlen, [a], rfl, ?_, ?_, ?_⟩
    · intro j hj
      have e : a = .cursor j := (List.mem_singleton.mp hj).symm
      have := hc j e
      subst e
      simp only [Access.index] at ha
      subst this
      exact ⟨le_refl _, le_refl _, ha⟩
    · intro j hj
      have e : a = .bank j := (List.mem_singleton.mp hj).symm
      have := hb j e
      subst e
      exact ⟨this, ha⟩
    · intro j hj
      exact hrows j (hj a (by simp))
  unfold AllocState.modify
  split
  · rename_i r hr
    exact ⟨key _ (by simp) (fun j hj => by simp [List.getElem?_set_ne hj]), rfl, r, hr, rfl⟩
  · exact ⟨key _ rfl (fun _ _ => rfl), fun h => by cases h⟩

theorem read_post (lo hi : Nat) (st : AllocState) (a : Access)
    (ha : a.index < hi) (hc : ∀ j, a = .cursor j → j = st.output)
    (hb : ∀ j, a = .bank j → lo ≤ j) :
    Post (st.read a) (fun p => Step lo hi st p.2 ∧ p.2.output = st.output ∧ p.2.rows = st.rows
      ∧ st.rows[a.index]? = some p.1)
      (StopOk lo hi st) := by
  have h := modify_post lo hi st a id ha hc hb
  unfold AllocState.modify at h
  unfold AllocState.read
  split
  · rename_i r hr
    rw [hr] at h
    have h' : Step lo hi st { st with rows := st.rows.set a.index (id r), log := st.log ++ [a] } :=
      h.1
    refine ⟨⟨h'.output_le, rfl, ?_⟩, rfl, rfl, hr⟩
    obtain ⟨d, e, c, b, _⟩ := h'.log_eq
    exact ⟨d, e, c, b, fun _ _ => rfl⟩
  · rename_i hr
    rw [hr] at h
    exact h

theorem clearRows_post (lo hi : Nat) :
    ∀ (count i : Nat) (st : AllocState), lo + i + count ≤ hi →
    Post (clearRows lo count i st)
      (fun st' => Step lo hi st st' ∧ st'.output = st.output)
      (StopOk lo hi st) := by
  intro count
  induction count with
  | zero => intro i st _; exact ⟨Step.refl _ _ _, rfl⟩
  | succ n ih =>
    intro i st hle
    unfold clearRows
    refine Post.bind
      (modify_post lo hi st (.bank (lo + i)) _ (by simp only [Access.index]; omega)
        (fun j hj => by cases hj) (fun j hj => by cases hj; omega)) ?_
    intro st1 h1
    exact Post.after h1.1 (ih (i + 1) st1 (by omega))
      (fun st2 h2 => ⟨h1.1.trans h2.1, h2.2.trans h1.2.1⟩)

theorem cursor_post (lo hi : Nat) (st s : AllocState) (f : J1SysOutput → J1SysOutput)
    (hs : Step lo hi st s) (ho : s.output = st.output) (hhi : st.output < hi) :
    Post (s.modify (.cursor s.output) f)
      (fun st' => Step lo hi st st' ∧ st'.output = st.output) (StopOk lo hi st) :=
  Post.after hs
    (modify_post lo hi s (.cursor s.output) f (by simp only [Access.index]; omega)
      (fun j hj => by cases hj; rfl) (fun j hj => by cases hj))
    (fun _ h => ⟨hs.trans h.1, h.2.1.trans ho⟩)

/-- Every access of one pass through the body of the loop of lines 370-403 is to a row of
the bank at or after `output`. -/
theorem freshIter_post (om : OutputManager) (lo size : Nat) (m : UDControllerPortModel)
    (channels : Int) (st : AllocState) (hlo : lo ≤ st.output) :
    Post (freshIter om lo size m channels st)
      (fun p => Step lo (lo + size) st p.2 ∧ st.output < lo + size ∧
        (p.1 = 0 ∨ p.2.output = st.output + 1))
      (StopOk lo (lo + size) st) := by
  unfold freshIter
  split
  · exact ⟨Step.refl _ _ _, fun h => by cases h⟩
  · rename_i hout
    have hout : st.output < lo + size := by omega
    have hmod : st.output % size + 1 ≤ size := by
      have : 0 < size := by omega
      have := Nat.mod_lt st.output this
      omega
    refine Post.bind (cursor_post lo _ st st _ (Step.refl _ _ _) rfl hout) ?_
    intro st1 h1
    refine Post.bind (Post.after h1.1
      (clearRows_post lo (lo + size) _ _ st1 (by rw [h1.2]; omega))
      (fun s hs => (⟨h1.1.trans hs.1, hs.2.trans h1.2⟩ :
        Step lo (lo + size) st s ∧ s.output = st.output))) ?_
    intro st2 h2
    split
    · exact ⟨h2.1, fun h => by cases h⟩
    · refine Post.bind (cursor_post lo _ st st2 _ h2.1 h2.2 hout) ?_
      intro st3 h3
      split
      · refine Post.bind (cursor_post lo _ st st3 _ h3.1 h3.2 hout) ?_
        intro st4 h4
        exact ⟨h4.1, hout, Or.inl rfl⟩
      · refine Post.bind (cursor_post lo _ st st3 _ h3.1 h3.2 hout) ?_
        intro st4 h4
        exact ⟨h4.1.bump, hout, Or.inr (by show st4.output + 1 = _; omega)⟩

/-- Every access of the loop of lines 370-403 is to a row of the bank at or after `output`,
and the loop does not run out of fuel. -/
theorem freshLoop_post (om : OutputManager) (lo size : Nat) (m : UDControllerPortModel) :
    ∀ (fuel : Nat) (channels : Int) (st : AllocState), lo ≤ st.output →
      (if 0 < channels then lo + size - st.output + 1 else 1) ≤ fuel →
    Post (freshLoop om lo size m fuel channels st)
      (fun st' => Step lo (lo + size) st st' ∧ (0 < channels → st.output < lo + size))
      (StopOk lo (lo + size) st) := by
  intro fuel
  induction fuel with
  | zero => intro _ st _ h; split_ifs at h <;> omega
  | succ n ih =>
    intro channels st hlo hfuel
    unfold freshLoop
    split
    · rename_i hch
      rw [if_pos hch] at hfuel
      refine Post.bind (freshIter_post om lo size m channels st hlo) ?_
      intro p hp
      obtain ⟨h1, h2, h3⟩ := hp
      refine Post.after h1 (ih p.1 p.2 (le_trans hlo h1.output_le) ?_)
        (fun s hs => ⟨h1.trans hs.1, fun _ => h2⟩)
      rcases h3 with h3 | h3
      · rw [h3]; simp only [lt_irrefl, if_false]; omega
      · split_ifs <;> omega
    · rename_i hch
      exact ⟨Step.refl _ _ _, fun h => absurd h hch⟩

theorem read_after (lo hi : Nat) (st s : AllocState) (a : Access)
    (hs : Step lo hi st s) (ho : s.output = st.output) (ha : a.index < hi)
    (hc : ∀ j, a = .cursor j → j = s.output) (hb : ∀ j, a = .bank j → lo ≤ j) :
    Post (s.read a)
      (fun p => Step lo hi st p.2 ∧ p.2.output = st.output) (StopOk lo hi st) :=
  Post.after hs (read_post lo hi s a ha hc hb)
    (fun _ h => ⟨hs.trans h.1, h.2.1.trans ho⟩)

theorem contStart_post (o : Found) (lo size : Nat) (st : AllocState)
    (hlo : lo ≤ st.output) (hout : st.output < lo + size) :
    Post (contStart o lo size st)
      (fun s => Step lo (lo + size) st s ∧ s.output = st.output)
      (StopOk lo (lo + size) st) := by
  have hmod : st.output % size + 1 ≤ size := by
    have : 0 < size := by omega
    have := Nat.mod_lt st.output this
    omega
  unfold contStart
  refine Post.bind (read_after lo _ st st _ (Step.refl _ _ _) rfl
    (by simp only [Access.index]; omega) (fun j hj => by cases hj; rfl)
    (fun j hj => by cases hj)) ?_
  rintro ⟨r, st1⟩ h1
  dsimp only at h1 ⊢
  split
  · refine Post.bind (cursor_post lo _ st st1 _ h1.1 h1.2 hout) ?_
    intro st2 h2
    refine Post.bind (Post.after h2.1
      (clearRows_post lo (lo + size) _ _ st2 (by rw [h2.2]; omega))
      (fun s hs => (⟨h2.1.trans hs.1, hs.2.trans h2.2⟩ :
        Step lo (lo + size) st s ∧ s.output = st.output))) ?_
    intro st3 h3
    refine Post.bind (read_after lo _ st st3 (.bank lo) h3.1 h3.2
      (by simp only [Access.index]; omega) (fun j hj => by cases hj)
      (fun j hj => by cases hj; exact le_refl _)) ?_
    rintro ⟨leader, st4⟩ h4
    dsimp only at h4 ⊢
    exact cursor_post lo _ st st4 _ h4.1 h4.2 hout
  · exact h1

/-- Every access of one pass through the body of the loop of lines 409-447 is to a row of
the bank at or after `output`. -/
theorem contIter_post (om : OutputManager) (lo size : Nat) (m : UDControllerPortModel)
    (channels : Int) (st : AllocState) (hlo : lo ≤ st.output) :
    Post (contIter om lo size m channels st)
      (fun p => Step lo (lo + size) st p.2 ∧ st.output < lo + size ∧
        (p.1 = 0 ∨ p.2.output = st.output + 1))
      (StopOk lo (lo + size) st) := by
  unfold contIter
  split
  · exact ⟨Step.refl _ _ _, fun h => by cases h⟩
  · rename_i hout
    have hout : st.output < lo + size := by omega
    have hcur : ∀ s : AllocState, Step lo (lo + size) st s → s.output = st.output →
        Post (s.read (.cursor s.output))
          (fun p => Step lo (lo + size) st p.2 ∧ p.2.output = st.output)
          (StopOk lo (lo + size) st) := fun s hs ho =>
      read_after lo _ st s _ hs ho (by simp only [Access.index]; omega)
        (fun j hj => by cases hj; rfl) (fun j hj => by cases hj)
    split
    · exact ⟨Step.refl _ _ _, fun h => by cases h⟩
    · refine Post.bind (contStart_post _ lo size st hlo hout) ?_
      intro st5 h5
      refine Post.bind (hcur st5 h5.1 h5.2) ?_
      rintro ⟨r6, st6⟩ h6
      dsimp only at h6 ⊢
      split
      · refine Post.bind (cursor_post lo _ st st6 _ h6.1 h6.2 hout) ?_
        intro st7 h7
        exact ⟨h7.1, hout, Or.inl rfl⟩
      · refine Post.bind (cursor_post lo _ st st6 _ h6.1 h6.2 hout) ?_
        intro st7 h7
        refine Post.bind (hcur st7 h7.1 h7.2) ?_
        rintro ⟨r8, st8⟩ h8
        dsimp only at h8 ⊢
        exact ⟨h8.1.bump, hout, Or.inr (by show st8.output + 1 = _; omega)⟩

/-- Every access of the loop of lines 409-447 is to a row of the bank at or after `output`,
and the loop does not run out of fuel. -/
theorem contLoop_post (om : OutputManager) (lo size : Nat) (m : UDControllerPortModel) :
    ∀ (fuel : Nat) (channels : Int) (st : AllocState), lo ≤ st.output →
      (if 0 < channels then lo + size - st.output + 1 else 1) ≤ fuel →
    Post (contLoop om lo size m fuel channels st)
      (fun st' => Step lo (lo + size) st st' ∧ (0 < channels → st.output < lo + size))
      (StopOk lo (lo + size) st) := by
  intro fuel
  induction fuel with
  | zero => intro _ st _ h; split_ifs at h <;> omega
  | succ n ih =>
    intro channels st hlo hfuel
    unfold contLoop
    split
    · rename_i hch
      rw [if_pos hch] at hfuel
      refine Post.bind (contIter_post om lo size m channels st hlo) ?_
      intro p hp
      obtain ⟨h1, h2, h3⟩ := hp
      refine Post.after h1 (ih p.1 p.2 (le_trans hlo h1.output_le) ?_)
        (fun s hs => ⟨h1.trans hs.1, fun _ => h2⟩)
      rcases h3 with h3 | h3
      · rw [h3]; simp only [lt_irrefl, if_false]; omega
      · split_ifs <;> omega
    · rename_i hch
      exact ⟨Step.refl _ _ _, fun h => absurd h hch⟩

theorem Step.widen {lo hi hi' : Nat} {a b : AllocState} (h : Step lo hi a b) (hh : hi ≤ hi') :
    Step lo hi' a b := by
  obtain ⟨d, e, c, bk, r⟩ := h.log_eq
  exact ⟨h.output_le, h.length_eq, d, e,
    fun j hj => by have := c j hj; exact ⟨this.1, this.2.1, by omega⟩,
    fun j hj => by have := bk j hj; exact ⟨this.1, by omega⟩, r⟩

theorem gapStep_output (st : AllocState) (m : UDControllerPortModel) :
    st.output ≤ (gapStep st m).output ∧ (gapStep st m).rows = st.rows ∧
    (gapStep st m).log = st.log := by
  unfold gapStep
  split <;> simp

/-- The accesses of the body of the loop over the models (lines 358-449): the first is the
write of protocol and speed to the row at `output` after the gap test; all later ones are to
rows of the bank; if the model has channels and the body ends without a stop, the first one
is to a row of the bank too. -/
theorem placeModel_post (om : OutputManager) (lo size : Nat) (st : AllocState)
    (m : UDControllerPortModel) (hlo : lo ≤ st.output) :
    Post (placeModel om lo size st m)
      (fun st' => Step lo (max (lo + size) ((gapStep st m).output + 1)) st st' ∧
        (∃ d, st'.log = st.log ++ .cursor (gapStep st m).output :: d) ∧
        (0 < m.Channels → (gapStep st m).output < lo + size) ∧
        st'.lastEnd = m.endChannel ∧ (gapStep st m).output ≤ st'.output)
      (fun e => Step lo (max (lo + size) ((gapStep st m).output + 1)) st e.st ∧
        (∃ d, e.st.log = st.log ++ .cursor (gapStep st m).output :: d) ∧ e.fault ≠ .fuel) := by
  obtain ⟨g1, g2, g3⟩ := gapStep_output st m
  generalize hg : gapStep st m = g at g1 g2 g3
  have hgs : Step lo (max (lo + size) (g.output + 1)) st g :=
    ⟨g1, by rw [g2], [], by simp [g3], by simp, by simp, by simp [g2]⟩
  have hm := modify_post lo (max (lo + size) (g.output + 1)) g (.cursor g.output)
    (fun r => { r with protocol := EncodeStringPortProtocol m.protocol,
                       speed := DecodeProtocolSpeed m.protocol })
    (by simp only [Access.index]; omega) (fun j hj => by cases hj; rfl)
    (fun j hj => by cases hj)
  have hlog : ∀ s s' : AllocState, s.log = st.log ++ [.cursor g.output] →
      Step lo (lo + size) s s' → ∃ d, s'.log = st.log ++ .cursor g.output :: d := by
    intro s s' hs hss
    obtain ⟨d, e, _⟩ := hss.log_eq
    exact ⟨d, by rw [e, hs]; simp⟩
  unfold placeModel
  simp only [hg]
  cases hmod : g.modify (.cursor g.output)
      (fun r => { r with protocol := EncodeStringPortProtocol m.protocol,
                         speed := DecodeProtocolSpeed m.protocol }) with
  | error e =>
    rw [hmod] at hm
    have he : e.st.log = st.log ++ [.cursor g.output] := by
      unfold AllocState.modify at hmod
      split at hmod
      · cases hmod
      · cases hmod; simp [g3]
    exact ⟨hgs.trans hm.1, ⟨[], he⟩, hm.2⟩
  | ok s =>
    rw [hmod] at hm
    obtain ⟨hs1, hs2, r, hr, hrows⟩ := hm
    have hslog : s.log = st.log ++ [.cursor g.output] := by
      unfold AllocState.modify at hmod
      split at hmod
      · cases hmod; simp [g3]
      · cases hmod
    have hsl : lo ≤ s.output := by omega
    have hfuel : ∀ c : Int, (if 0 < c then lo + size - s.output + 1 else 1)
        ≤ loopFuel lo size s.output := by
      intro c; unfold loopFuel; split_ifs <;> omega
    have hfin : ∀ s' : AllocState, Step lo (lo + size) s s' →
        (0 < m.Channels → s.output < lo + size) →
        Step lo (max (lo + size) (g.output + 1)) st { s' with lastEnd := m.endChannel } ∧
        (∃ d, ({ s' with lastEnd := m.endChannel } : AllocState).log
          = st.log ++ .cursor g.output :: d) ∧
        (0 < m.Channels → g.output < lo + size) ∧
        ({ s' with lastEnd := m.endChannel } : AllocState).lastEnd = m.endChannel ∧
        g.output ≤ ({ s' with lastEnd := m.endChannel } : AllocState).output := by
      intro s' hss hpos
      have h1 := (hgs.trans hs1).trans (hss.widen (le_max_left _ _))
      refine ⟨⟨h1.output_le, h1.length_eq, h1.log_eq⟩, hlog s s' hslog hss,
        fun h => by have := hpos h; omega, rfl, ?_⟩
      have := hss.output_le
      show g.output ≤ s'.output
      omega
    have herr : ∀ e : Stop, StopOk lo (lo + size) s e →
        Step lo (max (lo + size) (g.output + 1)) st e.st ∧
        (∃ d, e.st.log = st.log ++ .cursor g.output :: d) ∧ e.fault ≠ .fuel := by
      intro e he
      exact ⟨(hgs.trans hs1).trans (he.1.widen (le_max_left _ _)), hlog s e.st hslog he.1, he.2⟩
    show Post (Except.bind (Except.ok s) _) _ _
    simp only [Except.bind]
    split
    · refine Post.bind (Post.mono (freshLoop_post om lo size m _ m.Channels s hsl (hfuel _))
        (fun s' hs' => hfin s' hs'.1 hs'.2) herr) ?_
      intro a ha
      exact ha
    · refine Post.bind (Post.mono (contLoop_post om lo size m _ m.Channels s hsl (hfuel _))
        (fun s' hs' => hfin s' hs'.1 hs'.2) herr) ?_
      intro a ha
      exact ha

theorem Step.frame {lo hi : Nat} {st st' : AllocState} (h : Step lo hi st st')
    (hlo : lo ≤ st.output) (j : Nat) (hj : j < lo ∨ hi ≤ j) : st'.rows[j]? = st.rows[j]? := by
  obtain ⟨d, _, c, b, r⟩ := h.log_eq
  apply r
  intro a ha
  cases a with
  | cursor k => have := c k ha; simp only [Access.index]; omega
  | bank k => have := b k ha; simp only [Access.index]; omega

/-- The loop over the models of a port never moves `output` down, and when every model has
at least one channel and the loop ends without a stop, all its accesses are to rows of the
bank. -/
theorem placeModels_post (om : OutputManager) (lo size : Nat) :
    ∀ (models : List UDControllerPortModel) (st : AllocState), lo ≤ st.output →
    Post (models.foldlM (placeModel om lo size) st)
      (fun st' => st.output ≤ st'.output ∧
        ((∀ m ∈ models, 0 < m.Channels) → Step lo (lo + size) st st'))
      (fun _ => True) := by
  intro models
  induction models with
  | nil => intro st _; exact ⟨le_refl _, fun _ => Step.refl _ _ _⟩
  | cons m ms ih =>
    intro st hlo
    rw [List.foldlM_cons]
    refine Post.bind (Post.mono (placeModel_post om lo size st m hlo) (fun a ha => ha)
      (fun _ _ => trivial)) ?_
    intro s hs
    obtain ⟨h1, _, h3, _, _⟩ := hs
    refine Post.mono (ih s (le_trans hlo h1.output_le)) ?_ (fun _ h => h)
    intro s' hs'
    refine ⟨le_trans h1.output_le hs'.1, fun hpos => ?_⟩
    have hm := h3 (hpos m (List.mem_cons_self _ _))
    have e : max (lo + size) ((gapStep st m).output + 1) = lo + size := by omega
    rw [e] at h1
    exact h1.trans (hs'.2 (fun x hx => hpos x (List.mem_cons_of_mem _ hx)))

/-- The copy loop of lines 453-457 accesses rows of the bank only, leaves the rows before
`bankStart + i` as they are, and gives each row from `bankStart + i` on the protocol and
speed of the row `bankStart`. -/
theorem copyBank_post (lo hi : Nat) :
    ∀ (count i : Nat) (st : AllocState), lo ≤ st.output → 1 ≤ i → lo + i + count ≤ hi →
    Post (copyBank lo count i st)
      (fun st' => Step lo hi st st' ∧ (∀ j, j < lo + i → st'.rows[j]? = st.rows[j]?) ∧
        ∀ k, i ≤ k → k < i + count → ∀ r l, st'.rows[lo + k]? = some r →
          st'.rows[lo]? = some l → r.protocol = l.protocol ∧ r.speed = l.speed)
      (fun _ => True) := by
  intro count
  induction count with
  | zero =>
    intro i st _ _ _
    exact ⟨Step.refl _ _ _, fun _ _ => rfl, fun k h1 h2 => by omega⟩
  | succ n ih =>
    intro i st hlo hi1 hle
    unfold copyBank
    refine Post.bind (Post.mono (read_post lo hi st (.bank lo) (by simp only [Access.index]; omega)
      (fun j hj => by cases hj) (fun j hj => by cases hj; exact le_refl _)) (fun a ha => ha)
      (fun _ _ => trivial)) ?_
    rintro ⟨leader, st1⟩ ⟨h1, h1o, h1r, h1l⟩
    dsimp only at h1 h1o h1r h1l ⊢
    simp only [Access.index] at h1l
    refine Post.bind (Post.mono (modify_post lo hi st1 (.bank (lo + i)) _
      (by simp only [Access.index]; omega) (fun j hj => by cases hj)
      (fun j hj => by cases hj; omega)) (fun a ha => ha) (fun _ _ => trivial)) ?_
    rintro st2 ⟨h2, h2o, r0, hr0, h2r⟩
    simp only [Access.index] at hr0 h2r
    refine Post.mono (ih (i + 1) st2 (by omega) (by omega) (by omega)) ?_ (fun _ h => h)
    rintro st3 ⟨h3, h3f, h3h⟩
    have hrow : ∀ j, j ≠ lo + i → st2.rows[j]? = st.rows[j]? := by
      intro j hj
      rw [h2r, List.getElem?_set_ne (Ne.symm hj), h1r]
    refine ⟨(h1.trans h2).trans h3, ?_, ?_⟩
    · intro j hj
      rw [h3f j (by omega), hrow j (by omega)]
    · intro k hk1 hk2 r l hr hl
      have hl2 : st2.rows[lo]? = some leader := by
        rw [hrow lo (by omega)]; exact h1l
      rw [h3f lo (by omega), hl2] at hl
      cases hl
      by_cases hki : k = i
      · subst hki
        rw [h3f (lo + k) (by omega), h2r] at hr
        have hlen : lo + k < st1.rows.length := by
          by_contra hc
          rw [List.getElem?_eq_none (by omega)] at hr0
          cases hr0
        rw [List.getElem?_set_self hlen] at hr
        cases hr
        exact ⟨rfl, rfl⟩
      · have := h3h k (by omega) (by omega) r leader hr (by rw [h3f lo (by omega), hl2])
        exact this

theorem Post.of_eq {α : Type} {m : Except Stop α} {Q : α → Prop} {E : Stop → Prop} {a : α}
    (h : Post m Q E) (e : m = .ok a) : Q a := by
  rw [e] at h; exact h

theorem readRow_length (size : Nat) (found : Nat → ScrapedRow) (rows : List J1SysOutput)
    (k : Nat) : (readRow size found rows k).length = rows.length := by
  unfold readRow
  split
  · rfl
  · simp

theorem readRow_other (size : Nat) (found : Nat → ScrapedRow) (rows : List J1SysOutput)
    (k i : Nat) (h : i ≠ k) : (readRow size found rows k)[i]? = rows[i]? := by
  unfold readRow
  split
  · rfl
  · simp [List.getElem?_set_ne (Ne.symm h)]

theorem readRow_self (size : Nat) (found : Nat → ScrapedRow) (rows : List J1SysOutput)
    (k : Nat) (hk : k % size ≠ 0) (r : J1SysOutput)
    (h : (readRow size found rows k)[k]? = some r) :
    r.protocol = (rows.getD (k / size * size) {}).protocol ∧
    r.speed = (rows.getD (k / size * size) {}).speed := by
  unfold readRow at h
  split at h
  · rename_i hn
    rw [hn] at h; cases h
  · rename_i r0 hr0
    have hlen : k < rows.length := by
      by_contra hc
      rw [List.getElem?_eq_none (by omega)] at hr0
      cases hr0
    rw [List.getElem?_set_self hlen] at h
    cases h
    simp only [if_neg hk]
    cases (found k).universe_ <;> cases (found k).startChannel <;> cases (found k).pixels <;>
      exact ⟨rfl, rfl⟩

theorem readRows_agree (size : Nat) (found : Nat → ScrapedRow)
    (rows : List J1SysOutput) :
    ∀ k, ((List.range k).foldl (readRow size found) rows).length = rows.length ∧
      ∀ i, i < k → ∀ r l, ((List.range k).foldl (readRow size found) rows)[i]? = some r →
        ((List.range k).foldl (readRow size found) rows)[i / size * size]? = some l →
        r.protocol = l.protocol ∧ r.speed = l.speed := by
  intro k
  induction k with
  | zero => exact ⟨rfl, fun i hi => by omega⟩
  | succ n ih =>
    rw [List.range_succ, List.foldl_append]
    simp only [List.foldl_cons, List.foldl_nil]
    generalize (List.range n).foldl (readRow size found) rows = cur at ih ⊢
    refine ⟨by rw [readRow_length]; exact ih.1, ?_⟩
    intro i hi r l hr hl
    have hlead : i / size * size ≤ i := Nat.div_mul_le_self i size
    by_cases hin : i = n
    · subst hin
      by_cases hmod : i % size = 0
      · have e : i / size * size = i := Nat.div_mul_cancel (Nat.dvd_of_mod_eq_zero hmod)
        rw [e, hr] at hl
        cases hl
        exact ⟨rfl, rfl⟩
      · have hne : i / size * size ≠ i := by
          intro e
          apply hmod
          rw [← e]
          exact Nat.mul_mod_left _ _
        rw [readRow_other _ _ _ _ _ hne] at hl
        have := readRow_self size found cur i hmod r hr
        rw [List.getD_eq_getElem?_getD, hl] at this
        exact this
    · rw [readRow_other _ _ _ _ _ hin] at hr
      rw [readRow_other _ _ _ _ _ (by omega)] at hl
      exact ih.2 i (by omega) r l hr hl

/-- After `ReadCurrentConfig` on a fresh vector every row has the protocol and speed of the
first row of its bank. -/
theorem ReadCurrentConfig_agree (size : Nat) (found : Nat → ScrapedRow)
    (config : String) (n : Nat) :
    (ReadCurrentConfig size found config (List.replicate n {})).length = n ∧
    BanksAgree size (ReadCurrentConfig size found config (List.replicate n {})) := by
  unfold ReadCurrentConfig
  split
  · have h := readRows_agree size found (List.replicate n ({} : J1SysOutput))
      (List.replicate n ({} : J1SysOutput)).length
    refine ⟨by rw [h.1]; simp, ?_⟩
    intro i r l hr hl
    have hi : i < (List.replicate n ({} : J1SysOutput)).length := by
      by_contra hc
      rw [List.getElem?_eq_none (by rw [h.1]; omega)] at hr
      cases hr
    exact h.2 i hi r l hr hl
  · refine ⟨by simp, ?_⟩
    intro i r l hr hl
    rw [List.getElem?_replicate] at hr hl
    split at hr <;> split at hl <;> simp_all

theorem bank_leader (size pp i : Nat) (h1 : (pp - 1) * size ≤ i)
    (h2 : i < (pp - 1) * size + size) : i / size * size = (pp - 1) * size := by
  have hs : 0 < size := by omega
  have : i / size = pp - 1 := by
    apply Nat.div_eq_of_lt_le
    · exact h1
    · rw [Nat.succ_mul]; exact h2
  rw [this]

theorem bank_leader_outside (size pp i : Nat) (hs : 0 < size)
    (h : i < (pp - 1) * size ∨ (pp - 1) * size + size ≤ i) :
    i / size * size < (pp - 1) * size ∨ (pp - 1) * size + size ≤ i / size * size := by
  rcases h with h | h
  · exact Or.inl (lt_of_le_of_lt (Nat.div_mul_le_self i size) h)
  · right
    have h' : (pp - 1 + 1) * size ≤ i := by rw [Nat.succ_mul]; exact h
    have : pp - 1 + 1 ≤ i / size := (Nat.le_div_iff_mul_le hs).mpr h'
    calc (pp - 1) * size + size = (pp - 1 + 1) * size := by rw [Nat.succ_mul]
      _ ≤ i / size * size := Nat.mul_le_mul_right _ this

/-- The allocation of one port, when every model has at least one channel and it ends
without a stop, changes rows of the port's bank only and leaves every row of the vector with
the protocol and speed of the first row of its bank. -/
theorem allocPort_agree (om : OutputManager) (size pp : Nat) (hs : 0 < size)
    (port : UDControllerPort) (rows : List J1SysOutput) (st : AllocState)
    (hpos : ∀ m ∈ port.models, 0 < m.Channels) (hagree : BanksAgree size rows)
    (h : allocPort om size pp port rows = .ok st) :
    st.rows.length = rows.length ∧ BanksAgree size st.rows ∧
    ∀ j, (j < (pp - 1) * size ∨ (pp - 1) * size + size ≤ j) → st.rows[j]? = rows[j]? := by
  have hp : Post (allocPort om size pp port rows)
      (fun s => Step ((pp - 1) * size) ((pp - 1) * size + size) (portStart size pp rows) s ∧
        ∀ k, 1 ≤ k → k < 1 + (size - 1) → ∀ r l, s.rows[(pp - 1) * size + k]? = some r →
          s.rows[(pp - 1) * size]? = some l → r.protocol = l.protocol ∧ r.speed = l.speed)
      (fun _ => True) := by
    unfold allocPort
    refine Post.bind (placeModels_post om _ size port.models (portStart size pp rows)
      (le_refl _)) ?_
    intro s1 h1
    have h1s := h1.2 hpos
    refine Post.mono (copyBank_post ((pp - 1) * size) ((pp - 1) * size + size) (size - 1) 1 s1
      (le_trans (le_refl _) h1.1) (le_refl _) (by omega)) ?_ (fun _ h => h)
    intro s2 h2
    exact ⟨h1s.trans h2.1, h2.2.2⟩
  obtain ⟨hstep, hcopy⟩ := hp.of_eq h
  have hframe := hstep.frame (le_refl _)
  refine ⟨hstep.length_eq, ?_, hframe⟩
  intro i r l hr hl
  by_cases hin : (pp - 1) * size ≤ i ∧ i < (pp - 1) * size + size
  · rw [bank_leader size pp i hin.1 hin.2] at hl
    by_cases hk : i = (pp - 1) * size
    · subst hk
      rw [hr] at hl
      cases hl
      exact ⟨rfl, rfl⟩
    · have e : i = (pp - 1) * size + (i - (pp - 1) * size) := by omega
      rw [e] at hr
      exact hcopy (i - (pp - 1) * size) (by omega) (by omega) r l hr hl
  · have hout : i < (pp - 1) * size ∨ (pp - 1) * size + size ≤ i := by omega
    rw [hframe i hout] at hr
    rw [hframe _ (bank_leader_outside size pp i hs hout)] at hl
    exact hagree i r l hr hl

theorem allocPixel_agree (om : OutputManager) (size : Nat) (hs : 0 < size)
    (cud : UDController)
    (hpos : ∀ pp port, cud.pixelPort pp = some port → ∀ m ∈ port.models, 0 < m.Channels) :
    ∀ (ports : List Nat) (rows rows' : List J1SysOutput), BanksAgree size rows →
      ports.foldlM (allocStep om size cud) rows = .ok rows' →
      rows'.length = rows.length ∧ BanksAgree size rows' := by
  intro ports
  induction ports with
  | nil =>
    intro rows rows' hag h
    cases h
    exact ⟨rfl, hag⟩
  | cons pp ps ih =>
    intro rows rows' hag h
    rw [List.foldlM_cons] at h
    cases hstep : allocStep om size cud rows pp with
    | error e => rw [hstep] at h; cases h
    | ok mid =>
      rw [hstep] at h
      have hmid : mid.length = rows.length ∧ BanksAgree size mid := by
        unfold allocStep at hstep
        split at hstep
        · rename_i port hport
          cases hport' : allocPort om size pp port rows with
          | error e => rw [hport'] at hstep; cases hstep
          | ok st =>
            rw [hport'] at hstep
            cases hstep
            have := allocPort_agree om size pp hs port rows st (hpos pp port hport) hag hport'
            exact ⟨this.1, this.2.1⟩
        · cases hstep
          exact ⟨rfl, hag⟩
      have := ih mid rows' hmid.2 h
      exact ⟨this.1.trans hmid.1, this.2⟩

theorem placeModels_fuel (om : OutputManager) (lo size : Nat) :
    ∀ (models : List UDControllerPortModel) (st : AllocState), lo ≤ st.output →
    Post (models.foldlM (placeModel om lo size) st) (fun st' => lo ≤ st'.output)
      (fun e => e.fault ≠ .fuel) := by
  intro models
  induction models with
  | nil => intro st h; exact h
  | cons m ms ih =>
    intro st hlo
    rw [List.foldlM_cons]
    refine Post.bind (Post.mono (placeModel_post om lo size st m hlo) (fun a ha => ha)
      (fun _ he => he.2.2)) ?_
    intro s hs
    exact ih s (le_trans hlo hs.1.output_le)

theorem copyBank_fuel (lo : Nat) :
    ∀ (count i : Nat) (st : AllocState),
    Post (copyBank lo count i st) (fun _ => True) (fun e => e.fault ≠ .fuel) := by
  intro count
  induction count with
  | zero => intro i st; trivial
  | succ n ih =>
    intro i st
    unfold copyBank
    refine Post.bind (Post.mono (read_post lo (lo + 1) st (.bank lo)
      (by simp only [Access.index]; omega) (fun j hj => by cases hj)
      (fun j hj => by cases hj; exact le_refl _)) (fun _ _ => trivial) (fun _ he => he.2)) ?_
    rintro ⟨leader, st1⟩ _
    refine Post.bind (Post.mono (modify_post lo (lo + i + 1) st1 (.bank (lo + i)) _
      (by simp only [Access.index]; omega) (fun j hj => by cases hj)
      (fun j hj => by cases hj; omega)) (fun _ _ => trivial) (fun _ he => he.2)) ?_
    intro st2 _
    exact ih (i + 1) st2

/-- The pixel allocation never stops because the embedding ran out of loop fuel: a stop is
the reported failure or undefined behaviour of the C++. -/
theorem allocPixel_fuel (om : OutputManager) (size : Nat) (cud : UDController) :
    ∀ (ports : List Nat) (rows : List J1SysOutput) (e : Stop),
      ports.foldlM (allocStep om size cud) rows = .error e → e.fault ≠ .fuel := by
  intro ports
  induction ports with
  | nil => intro rows e h; cases h
  | cons pp ps ih =>
    intro rows e h
    rw [List.foldlM_cons] at h
    cases hstep : allocStep om size cud rows pp with
    | ok mid => rw [hstep] at h; exact ih mid e h
    | error e' =>
      rw [hstep] at h
      cases h
      unfold allocStep at hstep
      split at hstep
      · rename_i port _
        have hp : Post (allocPort om size pp port rows) (fun _ => True)
            (fun e => e.fault ≠ .fuel) := by
          unfold allocPort
          refine Post.bind (placeModels_fuel om _ size port.models (portStart size pp rows)
            (le_refl _)) ?_
          intro s _
          exact copyBank_fuel _ _ _ s
        cases hport : allocPort om size pp port rows with
        | ok st => rw [hport] at hstep; cases hstep
        | error e2 =>
          rw [hport] at hstep hp
          cases hstep
          exact hp
      · cases hstep

/-- C3: when the second of two consecutive models of a port does not start right after the
end of the first, the first access made for the second model is to the row `output + 1`,
above every row `j1SysOutputs[output]` accessed for the first model (`d1` is the record of
the accesses made for the first model, `d2` the rest of those made for the second).  The
rows a model is placed on are the rows accessed as `j1SysOutputs[output]`; clearing the
later rows of the bank is not counted.  The end channel of a model is not the value -1
that `lastEnd` uses for "no previous model". -/
theorem gap_forces_new_row (om : OutputManager) (n pp : Nat) (rows : List J1SysOutput)
    (before : List UDControllerPortModel) (m1 m2 : UDControllerPortModel)
    (st0 st1 : AllocState)
    (h0 : before.foldlM (placeModel om ((pp - 1) * GetBankSize n) (GetBankSize n))
      (portStart (GetBankSize n) pp rows) = .ok st0)
    (h1 : placeModel om ((pp - 1) * GetBankSize n) (GetBankSize n) st0 m1 = .ok st1)
    (hend : m1.endChannel ≠ -1)
    (hgap : m2.startChannel ≠ m1.endChannel + 1) :
    ∃ d1 d2, st1.log = st0.log ++ d1 ∧
      (finalState (placeModel om ((pp - 1) * GetBankSize n) (GetBankSize n) st1 m2)).log
        = st1.log ++ Access.cursor (st1.output + 1) :: d2 ∧
      ∀ j, Access.cursor j ∈ d1 → j < st1.output + 1 := by
  have hlo0 : (pp - 1) * GetBankSize n ≤ st0.output :=
    ((placeModels_post om ((pp - 1) * GetBankSize n) (GetBankSize n) before
      (portStart (GetBankSize n) pp rows) (le_refl _)).of_eq h0).1
  obtain ⟨hs1, _, _, hlast, _⟩ :=
    (placeModel_post om ((pp - 1) * GetBankSize n) (GetBankSize n) st0 m1 hlo0).of_eq h1
  obtain ⟨d1, e1, c1, _, _⟩ := hs1.log_eq
  have hg : (gapStep st1 m2).output = st1.output + 1 := by
    unfold gapStep
    rw [if_pos ⟨by rw [hlast]; exact hend, by rw [hlast]; exact hgap⟩]
  have h2 := placeModel_post om ((pp - 1) * GetBankSize n) (GetBankSize n) st1 m2
    (le_trans hlo0 hs1.output_le)
  rw [hg] at h2
  have hd2 : ∃ d2, (finalState (placeModel om ((pp - 1) * GetBankSize n) (GetBankSize n)
      st1 m2)).log = st1.log ++ Access.cursor (st1.output + 1) :: d2 := by
    cases hr : placeModel om ((pp - 1) * GetBankSize n) (GetBankSize n) st1 m2 with
    | ok s => rw [hr] at h2; exact h2.2.1
    | error e => rw [hr] at h2; exact h2.2.1
  obtain ⟨d2, e2⟩ := hd2
  exact ⟨d1, d2, e1, e2, fun j hj => by have := c1 j hj; omega⟩

/-- C3 on a 2-output controller, port 1: a model on channels 1-30 and one on channels 61-90
of the same universe; the first is placed on row 0, the second starts on row 1. -/
theorem gap_forces_new_row_witness :
    ∃ d1 d2,
      (finalState (placeModel twoUniverses 0 4 (portStart 4 1 eightRows) gapFirst)).log
        = [] ++ d1 ∧
      (finalState (placeModel twoUniverses 0 4
        (finalState (placeModel twoUniverses 0 4 (portStart 4 1 eightRows) gapFirst))
        gapSecond)).log
        = (finalState (placeModel twoUniverses 0 4 (portStart 4 1 eightRows) gapFirst)).log
            ++ Access.cursor (0 + 1) :: d2 ∧
      ∀ j, Access.cursor j ∈ d1 → j < 0 + 1 :=
  gap_forces_new_row twoUniverses 2 1 eightRows [] gapFirst gapSecond
    (portStart 4 1 eightRows)
    (finalState (placeModel twoUniverses 0 4 (portStart 4 1 eightRows) gapFirst))
    rfl rfl (by decide) (by decide)

/-- C4: when the pixel allocation ends without a stop, every row of every bank has the
protocol code and the speed of the first row of its bank.  The vector is the one
`ReadCurrentConfig` leaves (whatever the page and whatever the expressions find), and every
model of every port has at least one channel (its end channel is not below its start
channel). -/
theorem banks_share_protocol_and_speed (om : OutputManager) (n : Nat) (cud : UDController)
    (found : Nat → ScrapedRow) (config : String) (rows : List J1SysOutput)
    (hpos : ∀ pp port, cud.pixelPort pp = some port → ∀ m ∈ port.models, 0 < m.Channels)
    (h : allocPixel om n cud
      (ReadCurrentConfig (GetBankSize n) found config
        (List.replicate (n * GetBankSize n) {})) = .ok rows) :
    ∀ bank k, bank < n → k < GetBankSize n →
      ∃ r l, rows[bank * GetBankSize n + k]? = some r ∧ rows[bank * GetBankSize n]? = some l ∧
        r.protocol = l.protocol ∧ r.speed = l.speed := by
  have hs : 0 < GetBankSize n := by unfold GetBankSize; split <;> decide
  obtain ⟨hlen0, hag0⟩ := ReadCurrentConfig_agree (GetBankSize n) found config
    (n * GetBankSize n)
  obtain ⟨hlen, hag⟩ := allocPixel_agree om (GetBankSize n) hs cud hpos _ _ rows hag0 h
  rw [hlen0] at hlen
  intro bank k hb hk
  have hlt : bank * GetBankSize n + k < rows.length := by
    rw [hlen]
    calc bank * GetBankSize n + k < bank * GetBankSize n + GetBankSize n := by omega
      _ = (bank + 1) * GetBankSize n := by rw [Nat.succ_mul]
      _ ≤ n * GetBankSize n := Nat.mul_le_mul_right _ hb
  have hlt0 : bank * GetBankSize n < rows.length := by omega
  refine ⟨rows[bank * GetBankSize n + k], rows[bank * GetBankSize n],
    List.getElem?_eq_getElem hlt, List.getElem?_eq_getElem hlt0, ?_⟩
  have hlead : (bank * GetBankSize n + k) / GetBankSize n * GetBankSize n
      = bank * GetBankSize n := by
    have : (bank * GetBankSize n + k) / GetBankSize n = bank := by
      rw [Nat.add_comm, Nat.add_mul_div_right _ _ hs, Nat.div_eq_of_lt hk, Nat.zero_add]
    rw [this]
  exact hag _ _ _ (List.getElem?_eq_getElem hlt) (by rw [hlead]; exact List.getElem?_eq_getElem hlt0)

/-- C4 on a 2-output controller whose port 1 carries one model of 600 channels: the
allocation ends without a stop and the rows of each bank agree. -/
theorem banks_share_protocol_and_speed_witness :
    allocPixel twoUniverses 2 longCud
      (ReadCurrentConfig (GetBankSize 2) (noMatch.stringRow "") ""
        (List.replicate (2 * GetBankSize 2) {}))
      = .ok (rowsOf (allocPixel twoUniverses 2 longCud
          (ReadCurrentConfig (GetBankSize 2) (noMatch.stringRow "") ""
            (List.replicate (2 * GetBankSize 2) {})))) ∧
    ∀ bank k, bank < 2 → k < GetBankSize 2 →
      ∃ r l,
        (rowsOf (allocPixel twoUniverses 2 longCud
          (ReadCurrentConfig (GetBankSize 2) (noMatch.stringRow "") ""
            (List.replicate (2 * GetBankSize 2) {}))))[bank * GetBankSize 2 + k]? = some r ∧
        (rowsOf (allocPixel twoUniverses 2 longCud
          (ReadCurrentConfig (GetBankSize 2) (noMatch.stringRow "") ""
            (List.replicate (2 * GetBankSize 2) {}))))[bank * GetBankSize 2]? = some l ∧
        r.protocol = l.protocol ∧ r.speed = l.speed :=
  ⟨rfl, banks_share_protocol_and_speed twoUniverses 2 longCud (noMatch.stringRow "") "" _
    (fun pp port hp m hm => by
      have hport : port = longPort := by
        unfold longCud at hp
        by_cases h1 : pp = 1
        · simp only [h1, if_true] at hp; exact (Option.some.inj hp).symm
        · simp only [h1, if_false] at hp; cases hp
      subst hport
      have : m = ⟨"ws2811", 1, 600⟩ := by simpa [longPort] using hm
      subst this
      decide)
    rfl⟩

theorem modify_ok (st : AllocState) (a : Access) (f : J1SysOutput → J1SysOutput)
    (r : J1SysOutput) (h : st.rows[a.index]? = some r) :
    ∃ st', st.modify a f = .ok st' ∧ st'.rows = st.rows.set a.index (f r) ∧
      st'.output = st.output ∧ st'.lastEnd = st.lastEnd ∧ st'.log = st.log ++ [a] := by
  unfold AllocState.modify
  rw [h]
  exact ⟨_, rfl, rfl, rfl, rfl, rfl⟩

theorem read_ok (st : AllocState) (a : Access) (r : J1SysOutput)
    (h : st.rows[a.index]? = some r) :
    ∃ st', st.read a = .ok (r, st') ∧ st'.rows = st.rows ∧
      st'.output = st.output ∧ st'.lastEnd = st.lastEnd ∧ st'.log = st.log ++ [a] := by
  unfold AllocState.read
  rw [h]
  exact ⟨_, rfl, rfl, rfl, rfl, rfl⟩

/-- The clearing loop, when the rows it names are in the vector: it ends, clears exactly the
rows `bankStart + i` up to `bankStart + i + count - 1` and changes nothing else. -/
theorem clearRows_ok (lo : Nat) :
    ∀ (count i : Nat) (st : AllocState), lo + i + count ≤ st.rows.length →
    ∃ st', clearRows lo count i st = .ok st' ∧ st'.output = st.output ∧
      st'.lastEnd = st.lastEnd ∧ st'.rows.length = st.rows.length ∧
      (∀ j, j < lo + i ∨ lo + i + count ≤ j → st'.rows[j]? = st.rows[j]?) ∧
      (∀ j, lo + i ≤ j → j < lo + i + count →
        ∃ r, st.rows[j]? = some r ∧ st'.rows[j]? = some (cleared r)) := by
  intro count
  induction count with
  | zero =>
    intro i st _
    exact ⟨st, rfl, rfl, rfl, rfl, fun _ _ => rfl, fun j h1 h2 => by omega⟩
  | succ n ih =>
    intro i st hle
    have hlt : lo + i < st.rows.length := by omega
    obtain ⟨s1, e1, r1, o1, l1, _⟩ := modify_ok st (.bank (lo + i))
      (fun r => { r with active := false, universe_ := 0, startChannel := 0, pixels := 0 })
      st.rows[lo + i] (List.getElem?_eq_getElem hlt)
    simp only [Access.index] at r1
    have hlen1 : s1.rows.length = st.rows.length := by rw [r1]; simp
    obtain ⟨st', h1, h2, h3, h4, h5, h6⟩ := ih (i + 1) s1 (by omega)
    refine ⟨st', ?_, h2.trans o1, h3.trans l1, h4.trans hlen1, ?_, ?_⟩
    · unfold clearRows
      rw [e1]
      exact h1
    · intro j hj
      rw [h5 j (by omega), r1]
      exact List.getElem?_set_ne (by omega)
    · intro j hj1 hj2
      by_cases hji : j = lo + i
      · subst hji
        refine ⟨st.rows[lo + i], List.getElem?_eq_getElem hlt, ?_⟩
        rw [h5 _ (by omega), r1]
        exact List.getElem?_set_self hlt
      · obtain ⟨r, hr1, hr2⟩ := h6 j (by omega) (by omega)
        refine ⟨r, ?_, hr2⟩
        rw [← hr1, r1]
        exact (List.getElem?_set_ne (by omega)).symm

theorem bank_offset (size pp out : Nat) (h1 : (pp - 1) * size ≤ out)
    (h2 : out < (pp - 1) * size + size) :
    (pp - 1) * size + (out % size + 1) = out + 1 ∧ out % size + 1 ≤ size := by
  have hs : 0 < size := by omega
  have hmod : out % size = out - (pp - 1) * size := by
    have e : out = (out - (pp - 1) * size) + (pp - 1) * size := by omega
    rw [e, Nat.add_mul_mod_self_right, Nat.mod_eq_of_lt (by omega)]
    omega
  omega

/-- One pass through the body of the loop of lines 370-403 with the row at `output` in the
bank of port `pp`, the bank in the vector and the channel found: what it writes. -/
theorem freshIter_ok (om : OutputManager) (size pp : Nat) (m : UDControllerPortModel)
    (channels : Int) (st : AllocState) (o : Found)
    (hlo : (pp - 1) * size ≤ st.output) (hhi : st.output < (pp - 1) * size + size)
    (hrows : (pp - 1) * size + size ≤ st.rows.length)
    (hfound : om.GetOutput (m.startChannel + m.Channels - channels) = some o) :
    ∃ st' r,
      freshIter om ((pp - 1) * size) size m channels st
        = .ok (if channels < o.output.channels - o.sc + 1 then 0
                else channels - (o.output.channels - o.sc + 1), st') ∧
      st.rows[st.output]? = some r ∧
      st'.rows[st.output]? = some
        { r with active := true, universe_ := o.output.universe_, startChannel := o.sc,
                 pixels := if channels < o.output.channels - o.sc + 1 then channels.tdiv 3
                           else (o.output.channels - o.sc + 1).tdiv 3 } ∧
      st'.output = (if channels < o.output.channels - o.sc + 1 then st.output
                    else st.output + 1) ∧
      st'.lastEnd = st.lastEnd ∧ st'.rows.length = st.rows.length ∧
      (∀ j, j < st.output ∨ (pp - 1) * size + size ≤ j → st'.rows[j]? = st.rows[j]?) ∧
      (∀ j, st.output < j → j < (pp - 1) * size + size →
        ∃ r', st.rows[j]? = some r' ∧ st'.rows[j]? = some (cleared r')) := by
  obtain ⟨hoff, hoff2⟩ := bank_offset size pp st.output hlo hhi
  have hlt : st.output < st.rows.length := by omega
  obtain ⟨s1, e1, r1, o1, l1, _⟩ := modify_ok st (.cursor st.output)
    (fun r => { r with active := true }) st.rows[st.output] (List.getElem?_eq_getElem hlt)
  simp only [Access.index] at r1
  have hlen1 : s1.rows.length = st.rows.length := by rw [r1]; simp
  obtain ⟨s2, e2, o2, l2, hlen2, f2, c2⟩ := clearRows_ok ((pp - 1) * size)
    (size - (s1.output % size + 1)) (s1.output % size + 1) s1 (by rw [o1, hlen1]; omega)
  rw [o1] at f2 c2
  have hrow2 : s2.rows[(Access.cursor s2.output).index]?
      = some { st.rows[st.output] with active := true } := by
    simp only [Access.index]
    rw [o2, o1, f2 _ (by omega), r1]
    exact List.getElem?_set_self hlt
  obtain ⟨s3, e3, r3, o3, l3, _⟩ := modify_ok s2 (.cursor s2.output)
    (fun r => { r with universe_ := o.output.universe_, startChannel := o.sc }) _ hrow2
  simp only [Access.index] at r3
  have hlt2 : st.output < s2.rows.length := by rw [hlen2, hlen1]; exact hlt
  have hrow3 : s3.rows[(Access.cursor s3.output).index]?
      = some { st.rows[st.output] with active := true, universe_ := o.output.universe_,
                                       startChannel := o.sc } := by
    simp only [Access.index]
    rw [o3, r3, o2, o1]
    exact List.getElem?_set_self hlt2
  have hlt3 : st.output < s3.rows.length := by rw [r3]; simpa using hlt2
  have hout3 : s3.output = st.output := by rw [o3, o2, o1]
  have hclear : ∀ (s4 : AllocState) (x : J1SysOutput), s4.rows = s3.rows.set s3.output x →
      s4.rows[st.output]? = some x ∧ s4.rows.length = st.rows.length ∧
      (∀ j, j < st.output ∨ (pp - 1) * size + size ≤ j → s4.rows[j]? = st.rows[j]?) ∧
      (∀ j, st.output < j → j < (pp - 1) * size + size →
        ∃ r', st.rows[j]? = some r' ∧ s4.rows[j]? = some (cleared r')) := by
    intro s4 x hs4
    rw [hout3] at hs4
    refine ⟨by rw [hs4]; exact List.getElem?_set_self hlt3,
      by rw [hs4, List.length_set, r3, List.length_set, hlen2, hlen1], ?_, ?_⟩
    · intro j hj
      have hne : st.output ≠ j := by omega
      rw [hs4, List.getElem?_set_ne hne, r3, o2, o1, List.getElem?_set_ne hne,
        f2 j (by omega), r1, List.getElem?_set_ne hne]
    · intro j hj1 hj2
      have hne : st.output ≠ j := by omega
      obtain ⟨r', hr1, hr2⟩ := c2 j (by omega) (by omega)
      rw [r1, List.getElem?_set_ne hne] at hr1
      refine ⟨r', hr1, ?_⟩
      rw [hs4, List.getElem?_set_ne hne, r3, o2, o1, List.getElem?_set_ne hne]
      exact hr2
  have hstart : freshIter om ((pp - 1) * size) size m channels st
      = (if channels < o.output.channels - o.sc + 1 then do
          let st ← s3.modify (.cursor s3.output) (fun r => { r with pixels := channels.tdiv 3 })
          pure (0, st)
        else do
          let st ← s3.modify (.cursor s3.output)
            (fun r => { r with pixels := (o.output.channels - o.sc + 1).tdiv 3 })
          pure (channels - (o.output.channels - o.sc + 1),
            { st with output := st.output + 1 })) := by
    unfold freshIter
    rw [if_neg (by omega)]
    simp only [bind, Except.bind, e1, e2, hfound, e3]
  rw [hstart]
  by_cases hc : channels < o.output.channels - o.sc + 1
  · simp only [if_pos hc]
    obtain ⟨s4, e4, r4, o4, l4, _⟩ := modify_ok s3 (.cursor s3.output)
      (fun r => { r with pixels := channels.tdiv 3 }) _ hrow3
    simp only [Access.index] at r4
    obtain ⟨q1, q2, q3, q4⟩ := hclear s4 _ r4
    refine ⟨s4, st.rows[st.output], ?_, List.getElem?_eq_getElem hlt, q1, by rw [o4, hout3],
      by rw [l4, l3, l2, l1], q2, q3, q4⟩
    simp only [bind, Except.bind, e4, pure, Except.pure]
  · simp only [if_neg hc]
    obtain ⟨s4, e4, r4, o4, l4, _⟩ := modify_ok s3 (.cursor s3.output)
      (fun r => { r with pixels := (o.output.channels - o.sc + 1).tdiv 3 }) _ hrow3
    simp only [Access.index] at r4
    obtain ⟨q1, q2, q3, q4⟩ := hclear s4 _ r4
    refine ⟨{ s4 with output := s4.output + 1 }, st.rows[st.output], ?_,
      List.getElem?_eq_getElem hlt, q1, by show s4.output + 1 = _; rw [o4, hout3],
      by show s4.lastEnd = _; rw [l4, l3, l2, l1], q2, q3, q4⟩
    simp only [bind, Except.bind, e4, pure, Except.pure]

theorem GetOutputFrom_bounds : ∀ (os : List Output) (index : Nat) (first ch : Int) (f : Found),
    GetOutputFrom os index first ch = some f → 1 ≤ f.sc ∧ f.sc ≤ f.output.channels := by
  intro os
  induction os with
  | nil => intro _ _ _ f h; cases h
  | cons o os ih =>
    intro index first ch f h
    unfold GetOutputFrom at h
    split at h
    · rename_i hc
      cases h
      constructor <;> simp only <;> omega
    · exact ih _ _ _ f h

/-- A channel that `GetOutput` finds has an offset from 1 to the channel count of its
output. -/
theorem GetOutput_bounds (om : OutputManager) (ch : Int) (f : Found)
    (h : om.GetOutput ch = some f) : 1 ≤ f.sc ∧ f.sc ≤ f.output.channels :=
  GetOutputFrom_bounds om 0 1 ch f h

theorem freshLoop_succ (om : OutputManager) (lo size : Nat) (m : UDControllerPortModel)
    (fuel : Nat) (channels : Int) (st : AllocState) (h : 0 < channels) (c : Int)
    (st' : AllocState) (e : freshIter om lo size m channels st = .ok (c, st')) :
    freshLoop om lo size m (fuel + 1) channels st = freshLoop om lo size m fuel c st' := by
  rw [freshLoop]
  simp only [gt_iff_lt, h, if_true, bind, Except.bind, e]

/-- C2: a model that starts a new row at offset `sc` of a universe of `N` channels and has
at least `N - sc + 1` channels.  The first pass of the loop of lines 370-403 gives the row
the pixel count `(N - sc + 1) / 3` (rounded down), takes exactly `N - sc + 1` off the
remaining channels and moves to the next row; if channels remain and that row is in the
bank, the second pass writes on it the universe and offset that `GetOutput` finds for the
first absolute channel after the boundary, and leaves the first row as it is.  The row the
model starts on is a row of the bank of port `pp`, which lies in the vector. -/
theorem fresh_row_to_universe_boundary (om : OutputManager) (n pp : Nat)
    (m : UDControllerPortModel) (st : AllocState) (o : Found)
    (hlo : (pp - 1) * GetBankSize n ≤ st.output)
    (hhi : st.output < (pp - 1) * GetBankSize n + GetBankSize n)
    (hrows : (pp - 1) * GetBankSize n + GetBankSize n ≤ st.rows.length)
    (hfound : om.GetOutput m.startChannel = some o)
    (hlong : o.output.channels - o.sc + 1 ≤ m.Channels) :
    ∃ st1 r1,
      (∀ fuel, freshLoop om ((pp - 1) * GetBankSize n) (GetBankSize n) m (fuel + 1) m.Channels st
        = freshLoop om ((pp - 1) * GetBankSize n) (GetBankSize n) m fuel
            (m.Channels - (o.output.channels - o.sc + 1)) st1) ∧
      st1.output = st.output + 1 ∧
      st1.rows[st.output]? = some r1 ∧ r1.active = true ∧
      r1.universe_ = o.output.universe_ ∧ r1.startChannel = o.sc ∧
      r1.pixels = (o.output.channels - o.sc + 1) / 3 ∧
      (0 < m.Channels - (o.output.channels - o.sc + 1) →
        st.output + 1 < (pp - 1) * GetBankSize n + GetBankSize n →
        ∀ o2, om.GetOutput (m.startChannel + (o.output.channels - o.sc + 1)) = some o2 →
        ∃ channels2 st2 r2,
          (∀ fuel, freshLoop om ((pp - 1) * GetBankSize n) (GetBankSize n) m (fuel + 1)
              (m.Channels - (o.output.channels - o.sc + 1)) st1
            = freshLoop om ((pp - 1) * GetBankSize n) (GetBankSize n) m fuel channels2 st2) ∧
          st2.rows[st.output + 1]? = some r2 ∧ r2.active = true ∧
          r2.universe_ = o2.output.universe_ ∧ r2.startChannel = o2.sc ∧
          st2.rows[st.output]? = some r1) := by
  obtain ⟨hsc1, hsc2⟩ := GetOutput_bounds om _ o hfound
  have hpos : 0 < m.Channels := by omega
  have hfound' : om.GetOutput (m.startChannel + m.Channels - m.Channels) = some o := by
    rw [add_sub_cancel_right]; exact hfound
  obtain ⟨st1, r, e1, hr, hr1, ho1, _, hlen1, _, _⟩ :=
    freshIter_ok om (GetBankSize n) pp m m.Channels st o hlo hhi hrows hfound'
  have hnot : ¬ m.Channels < o.output.channels - o.sc + 1 := by omega
  simp only [if_neg hnot] at e1 hr1 ho1
  refine ⟨st1, _, fun fuel => freshLoop_succ om _ _ m fuel _ st hpos _ st1 e1, ho1, hr1, rfl,
    rfl, rfl, ?_, ?_⟩
  · exact Int.tdiv_eq_ediv (by omega) (by omega)
  · intro hrem hnext o2 hfound2
    have hfound2' : om.GetOutput (m.startChannel + m.Channels
        - (m.Channels - (o.output.channels - o.sc + 1))) = some o2 := by
      rw [← hfound2]; congr 1; ring
    obtain ⟨st2, r', e2, hr', hr2, _, _, _, hframe, _⟩ :=
      freshIter_ok om (GetBankSize n) pp m (m.Channels - (o.output.channels - o.sc + 1)) st1
        o2 (by omega) (by omega) (by omega) hfound2'
    rw [ho1] at hr2 hframe
    refine ⟨_, st2, _, fun fuel => freshLoop_succ om _ _ m fuel _ st1 hrem _ st2 e2, hr2, rfl,
      rfl, rfl, ?_⟩
    rw [hframe _ (Or.inl (by omega))]
    exact hr1

/-- C2 on a 2-output controller, port 1: a model of 600 channels from channel 1 of a
universe of 510 channels; row 0 gets 170 pixels, 90 channels remain, and row 1 is started
at channel 1 of universe 2. -/
theorem fresh_row_to_universe_boundary_witness :
    ∃ st1 r1 channels2 st2 r2,
      (∀ fuel, freshLoop twoUniverses 0 4 longModel (fuel + 1) 600 (portStart 4 1 eightRows)
        = freshLoop twoUniverses 0 4 longModel fuel 90 st1) ∧
      st1.rows[0]? = some r1 ∧ r1.pixels = 170 ∧
      (∀ fuel, freshLoop twoUniverses 0 4 longModel (fuel + 1) 90 st1
        = freshLoop twoUniverses 0 4 longModel fuel channels2 st2) ∧
      st2.rows[1]? = some r2 ∧ r2.universe_ = 2 ∧ r2.startChannel = 1 := by
  obtain ⟨st1, r1, h1, _, h3, _, _, _, h7, h8⟩ :=
    fresh_row_to_universe_boundary twoUniverses 2 1 longModel (portStart 4 1 eightRows)
      ⟨0, ⟨"E131", 1, 510⟩, 1⟩ (by decide) (by decide) (by decide) rfl (by decide)
  obtain ⟨channels2, st2, r2, g1, g2, _, g4, g5, _⟩ :=
    h8 (by decide) (by decide) ⟨1, ⟨"E131", 2, 510⟩, 1⟩ rfl
  exact ⟨st1, r1, channels2, st2, r2, h1, h3, h7, g1, g2, g4, g5⟩

theorem GetOutputFrom_first : ∀ (os : List Output) (index : Nat) (first ch : Int) (f : Found),
    (∀ u ∈ os, 0 ≤ u.channels) → GetOutputFrom os index first ch = some f → first ≤ ch := by
  intro os
  induction os with
  | nil => intro _ _ _ f _ h; cases h
  | cons o os ih =>
    intro index first ch f hnn h
    unfold GetOutputFrom at h
    split at h
    · rename_i hc; exact hc.1
    · have := ih _ _ _ f (fun u hu => hnn u (List.mem_cons_of_mem _ hu)) h
      have := hnn o (List.mem_cons_self _ _)
      omega

theorem GetOutputFrom_shift : ∀ (os : List Output) (index : Nat) (first ch : Int) (f : Found)
    (k : Int), (∀ u ∈ os, 0 ≤ u.channels) → GetOutputFrom os index first ch = some f →
    0 ≤ k → f.sc + k ≤ f.output.channels →
    GetOutputFrom os index first (ch + k) = some { f with sc := f.sc + k } := by
  intro os
  induction os with
  | nil => intro _ _ _ f _ _ h; cases h
  | cons o os ih =>
    intro index first ch f k hnn h hk hle
    unfold GetOutputFrom at h ⊢
    split at h
    · rename_i hc
      cases h
      have hle' : ch - first + 1 + k ≤ o.channels := hle
      rw [if_pos ⟨by omega, by omega⟩]
      show some (⟨index, o, ch + k - first + 1⟩ : Found) = some ⟨index, o, ch - first + 1 + k⟩
      congr 2
      omega
    · rename_i hc
      have hnn' : ∀ u ∈ os, 0 ≤ u.channels := fun u hu => hnn u (List.mem_cons_of_mem _ hu)
      have := GetOutputFrom_first os _ _ _ f hnn' h
      rw [if_neg (by omega)]
      exact ih _ _ _ f k hnn' h hk hle

/-- With no negative channel count in the manager, the channels after a found channel, up
to the end of its output, are found in the same output at the following offsets, and a
found channel is at least 1. -/
theorem GetOutput_shift (om : OutputManager) (ch : Int) (f : Found) (k : Int)
    (hnn : ∀ u ∈ om, 0 ≤ u.channels) (h : om.GetOutput ch = some f) (hk : 0 ≤ k)
    (hle : f.sc + k ≤ f.output.channels) :
    om.GetOutput (ch + k) = some { f with sc := f.sc + k } ∧ 1 ≤ ch :=
  ⟨GetOutputFrom_shift om 0 1 ch f k hnn h hk hle, GetOutputFrom_first om 0 1 ch f hnn h⟩

/-- One pass through the body of the loop of lines 409-447 when the row at `output` has a
universe and the channels left fit below the universe boundary: the pixel count of the row
grows by `channels / 3` and nothing else changes. -/
theorem contIter_ok (om : OutputManager) (lo size : Nat) (m : UDControllerPortModel)
    (channels : Int) (st : AllocState) (o : Found) (r : J1SysOutput)
    (hhi : st.output < lo + size)
    (hfound : om.GetOutput (m.startChannel + m.Channels - channels) = some o)
    (hr : st.rows[st.output]? = some r) (huni : r.universe_ ≠ 0)
    (hfit : channels < o.output.channels - r.startChannel + 1 - r.pixels * 3) :
    ∃ st', contIter om lo size m channels st = .ok (0, st') ∧
      st'.rows = st.rows.set st.output { r with pixels := r.pixels + channels.tdiv 3 } ∧
      st'.output = st.output ∧ st'.lastEnd = st.lastEnd := by
  obtain ⟨s1, e1, r1, o1, l1, _⟩ := read_ok st (.cursor st.output) r hr
  have hr1 : s1.rows[(Access.cursor s1.output).index]? = some r := by
    simp only [Access.index]; rw [o1, r1]; exact hr
  obtain ⟨s2, e2, r2, o2, l2, _⟩ := read_ok s1 (.cursor s1.output) r hr1
  have hr2 : s2.rows[(Access.cursor s2.output).index]? = some r := by
    simp only [Access.index]; rw [o2, r2, o1, r1]; exact hr
  obtain ⟨s3, e3, r3, o3, l3, _⟩ := modify_ok s2 (.cursor s2.output)
    (fun r => { r with pixels := r.pixels + channels.tdiv 3 }) r hr2
  simp only [Access.index] at r3
  refine ⟨s3, ?_, by rw [r3, o2, r2, o1, r1], by rw [o3, o2, o1], by rw [l3, l2, l1]⟩
  have hstart : contStart o lo size st = .ok s1 := by
    unfold contStart
    simp only [bind, Except.bind, e1, if_neg huni, pure, Except.pure]
  unfold contIter
  rw [if_neg (by omega)]
  simp only [hfound, bind, Except.bind, hstart, e2, if_pos hfit, e3, pure, Except.pure]

theorem contLoop_once (om : OutputManager) (lo size : Nat) (m : UDControllerPortModel)
    (fuel : Nat) (channels : Int) (st st' : AllocState) (h : 0 < channels)
    (e : contIter om lo size m channels st = .ok (0, st')) :
    contLoop om lo size m (fuel + 2) channels st = .ok st' := by
  rw [contLoop]
  simp only [gt_iff_lt, h, if_true, bind, Except.bind, e]
  rw [contLoop]
  simp only [gt_iff_lt, lt_irrefl, if_false, pure, Except.pure]

theorem freshLoop_once (om : OutputManager) (lo size : Nat) (m : UDControllerPortModel)
    (fuel : Nat) (channels : Int) (st st' : AllocState) (h : 0 < channels)
    (e : freshIter om lo size m channels st = .ok (0, st')) :
    freshLoop om lo size m (fuel + 2) channels st = .ok st' := by
  rw [freshLoop]
  simp only [gt_iff_lt, h, if_true, bind, Except.bind, e]
  rw [freshLoop]
  simp only [gt_iff_lt, lt_irrefl, if_false, pure, Except.pure]

theorem loopFuel_two (lo size output : Nat) (h : output < lo + size) :
    ∃ k, loopFuel lo size output = k + 2 :=
  ⟨lo + size - output - 1, by unfold loopFuel; omega⟩

/-- The body of the loop over the models for a model that continues the previous one on a
row that has a universe, with fewer channels than are left below the universe boundary: the
row takes the model's protocol and speed and its pixel count grows by `Channels / 3`. -/
theorem placeModel_cont_ok (om : OutputManager) (lo size : Nat) (st : AllocState)
    (m : UDControllerPortModel) (o : Found) (r : J1SysOutput)
    (hlast : st.lastEnd ≠ -1) (hnext : m.startChannel = st.lastEnd + 1)
    (hhi : st.output < lo + size) (hr : st.rows[st.output]? = some r)
    (huni : r.universe_ ≠ 0) (hfound : om.GetOutput m.startChannel = some o)
    (hpos : 0 < m.Channels)
    (hfit : m.Channels < o.output.channels - r.startChannel + 1 - r.pixels * 3) :
    ∃ st', placeModel om lo size st m = .ok st' ∧
      st'.rows = st.rows.set st.output
        { r with protocol := EncodeStringPortProtocol m.protocol,
                 speed := DecodeProtocolSpeed m.protocol,
                 pixels := r.pixels + m.Channels.tdiv 3 } ∧
      st'.output = st.output ∧ st'.lastEnd = m.endChannel := by
  have hgap : gapStep st m = st := by
    unfold gapStep
    rw [if_neg (fun h => h.2 hnext)]
  obtain ⟨s1, e1, r1, o1, l1, _⟩ := modify_ok st (.cursor st.output)
    (fun r => { r with protocol := EncodeStringPortProtocol m.protocol,
                       speed := DecodeProtocolSpeed m.protocol }) r hr
  simp only [Access.index] at r1
  have hlen : st.output < st.rows.length := by
    by_contra hc
    rw [List.getElem?_eq_none (by omega)] at hr
    cases hr
  have hr1 : s1.rows[s1.output]? = some
      { r with protocol := EncodeStringPortProtocol m.protocol,
               speed := DecodeProtocolSpeed m.protocol } := by
    rw [o1, r1]; exact List.getElem?_set_self hlen
  obtain ⟨s2, e2, r2, o2, l2⟩ := contIter_ok om lo size m m.Channels s1 o _ (by omega)
    (by rw [add_sub_cancel_right]; exact hfound) hr1 huni hfit
  obtain ⟨k, hk⟩ := loopFuel_two lo size s1.output (by omega)
  refine ⟨{ s2 with lastEnd := m.endChannel }, ?_, ?_, by show s2.output = _; rw [o2, o1], rfl⟩
  · unfold placeModel
    simp only [hgap, bind, Except.bind, e1]
    rw [if_neg (by rw [l1]; exact hlast), hk, contLoop_once om lo size m k _ s1 s2 hpos e2]
    rfl
  · show s2.rows = _
    rw [r2, o1, r1, List.set_set]

/-- The body of the loop over the models for the first model of a port when it has fewer
channels than are left below the universe boundary: the row at `output` is made active with
the universe and offset found and the pixel count `Channels / 3`, the rows after it in the
bank are cleared, and `output` stays. -/
theorem placeModel_fresh_ok (om : OutputManager) (size pp : Nat) (st : AllocState)
    (m : UDControllerPortModel) (o : Found)
    (hlast : st.lastEnd = -1)
    (hlo : (pp - 1) * size ≤ st.output) (hhi : st.output < (pp - 1) * size + size)
    (hrows : (pp - 1) * size + size ≤ st.rows.length)
    (hfound : om.GetOutput m.startChannel = some o)
    (hpos : 0 < m.Channels) (hfit : m.Channels < o.output.channels - o.sc + 1) :
    ∃ st' r, placeModel om ((pp - 1) * size) size st m = .ok st' ∧
      st'.rows[st.output]? = some r ∧ r.active = true ∧ r.universe_ = o.output.universe_ ∧
      r.startChannel = o.sc ∧ r.pixels = m.Channels.tdiv 3 ∧
      st'.output = st.output ∧ st'.lastEnd = m.endChannel ∧
      st'.rows.length = st.rows.length ∧
      (∀ j, st.output < j → j < (pp - 1) * size + size →
        ∃ r', st'.rows[j]? = some r' ∧ r'.active = false) := by
  have hgap : gapStep st m = st := by
    unfold gapStep
    rw [if_neg (fun h => h.1 hlast)]
  have hlen : st.output < st.rows.length := by omega
  obtain ⟨s1, e1, r1, o1, l1, _⟩ := modify_ok st (.cursor st.output)
    (fun r => { r with protocol := EncodeStringPortProtocol m.protocol,
                       speed := DecodeProtocolSpeed m.protocol }) st.rows[st.output]
    (List.getElem?_eq_getElem hlen)
  simp only [Access.index] at r1
  have hlen1 : s1.rows.length = st.rows.length := by rw [r1]; simp
  obtain ⟨s2, r, e2, hr, hr2, ho2, hl2, hlen2, _, hclear⟩ :=
    freshIter_ok om size pp m m.Channels s1 o (by omega) (by omega) (by omega)
      (by rw [add_sub_cancel_right]; exact hfound)
  simp only [if_pos hfit] at e2 hr2 ho2
  obtain ⟨k, hk⟩ := loopFuel_two ((pp - 1) * size) size s1.output (by omega)
  rw [o1] at hr2 hclear
  refine ⟨{ s2 with lastEnd := m.endChannel }, _, ?_, hr2, rfl, rfl, rfl, rfl,
    by show s2.output = _; rw [ho2, o1], rfl, by show s2.rows.length = _; rw [hlen2, hlen1], ?_⟩
  · unfold placeModel
    simp only [hgap, bind, Except.bind, e1]
    rw [if_pos (by rw [l1]; exact hlast), hk,
      freshLoop_once om _ size m k _ s1 s2 hpos e2]
    rfl
  · intro j hj1 hj2
    obtain ⟨r', _, hr'⟩ := hclear j hj1 hj2
    exact ⟨_, hr', rfl⟩

theorem channels_sum_nonneg (ms : List UDControllerPortModel)
    (h : ∀ x ∈ ms, 0 < x.Channels) : 0 ≤ (ms.map (fun x => x.Channels)).sum := by
  induction ms with
  | nil => simp
  | cons m ms ih =>
    have h1 := h m (List.mem_cons_self _ _)
    have h2 := ih (fun x hx => h x (List.mem_cons_of_mem _ hx))
    simp only [List.map_cons, List.sum_cons]
    omega

/-- The loop over the models for the rest of a contiguous run that stays below the boundary
of the universe `o` it started in (`used` channels of the run are placed already, from
absolute channel `a`): it ends without a stop on the same row, whose pixel count grows by
`Channels / 3` per model, and no other row changes. -/
theorem placeModels_run (om : OutputManager) (lo size : Nat) (o : Found) (a : Int)
    (hcoh : ∀ k, 0 ≤ k → o.sc + k ≤ o.output.channels →
      om.GetOutput (a + k) = some { o with sc := o.sc + k })
    (huni : o.output.universe_ ≠ 0) (ha : 1 ≤ a) (hsize : 0 < size) :
    ∀ (ms : List UDControllerPortModel) (prev : UDControllerPortModel) (st : AllocState)
      (r : J1SysOutput) (used : Int),
      List.Chain (fun x y => y.startChannel = x.endChannel + 1) prev ms →
      (∀ x ∈ ms, 0 < x.Channels) →
      st.output = lo → st.lastEnd = prev.endChannel → prev.endChannel = a + used - 1 →
      0 < used → st.rows[lo]? = some r → r.universe_ = o.output.universe_ →
      r.startChannel = o.sc → r.pixels * 3 ≤ used →
      used + (ms.map (fun x => x.Channels)).sum < o.output.channels - o.sc + 1 →
      ∃ st' r', ms.foldlM (placeModel om lo size) st = .ok st' ∧ st'.output = lo ∧
        st'.rows.length = st.rows.length ∧ st'.rows[lo]? = some r' ∧ r'.active = r.active ∧
        r'.pixels = r.pixels + (ms.map (fun x => x.Channels.tdiv 3)).sum ∧
        r'.universe_ = r.universe_ ∧ r'.startChannel = r.startChannel ∧
        ∀ j, j ≠ lo → st'.rows[j]? = st.rows[j]? := by
  intro ms
  induction ms with
  | nil =>
    intro prev st r used _ _ ho _ _ _ hr _ _ _ _
    exact ⟨st, r, rfl, ho, rfl, hr, rfl, by simp, rfl, rfl, fun _ _ => rfl⟩
  | cons m ms ih =>
    intro prev st r used hchain hpos ho hlast hprev hused hr hu hs hpix htotal
    rw [List.chain_cons] at hchain
    obtain ⟨hnext, hchain'⟩ := hchain
    have hmpos := hpos m (List.mem_cons_self _ _)
    have hpos' : ∀ x ∈ ms, 0 < x.Channels := fun x hx => hpos x (List.mem_cons_of_mem _ hx)
    have hrest := channels_sum_nonneg ms hpos'
    simp only [List.map_cons, List.sum_cons] at htotal
    have hstart : m.startChannel = a + used := by rw [hnext, hprev]; ring
    have hfound : om.GetOutput m.startChannel
        = some { o with sc := o.sc + used } := by
      rw [hstart]; exact hcoh used (by omega) (by omega)
    have hr0 : st.rows[st.output]? = some r := by rw [ho]; exact hr
    obtain ⟨s1, e1, r1, o1, l1⟩ := placeModel_cont_ok om lo size st m _ r
      (by rw [hlast, hprev]; omega) (by rw [hlast]; exact hnext) (by omega) hr0
      (by rw [hu]; exact huni) hfound hmpos
      (by show m.Channels < o.output.channels - r.startChannel + 1 - r.pixels * 3
          rw [hs]; omega)
    have hlen : lo < st.rows.length := by
      by_contra hc
      rw [List.getElem?_eq_none (by omega)] at hr
      cases hr
    rw [ho] at r1
    have hdiv : m.Channels.tdiv 3 = m.Channels / 3 :=
      Int.tdiv_eq_ediv (by omega) (by omega)
    have hend : m.endChannel = a + (used + m.Channels) - 1 := by
      unfold UDControllerPortModel.Channels
      rw [hstart]; ring
    obtain ⟨st', r', e2, q1, q2, q3, q4, q5, q6, q7, q8⟩ := ih m s1
      { r with protocol := EncodeStringPortProtocol m.protocol,
               speed := DecodeProtocolSpeed m.protocol,
               pixels := r.pixels + m.Channels.tdiv 3 }
      (used + m.Channels) hchain' hpos' (by rw [o1, ho]) l1 hend (by omega)
      (by rw [r1]; exact List.getElem?_set_self hlen) hu hs
      (by show (r.pixels + m.Channels.tdiv 3) * 3 ≤ _; rw [hdiv]; omega)
      (by omega)
    refine ⟨st', r', ?_, q1, by rw [q2, r1]; simp, q3, q4, ?_, q6, q7, ?_⟩
    · rw [List.foldlM_cons]
      simp only [bind, Except.bind, e1]
      exact e2
    · rw [q5]
      simp only [List.map_cons, List.sum_cons]
      ring
    · intro j hj
      rw [q8 j hj, r1]
      exact List.getElem?_set_ne (Ne.symm hj)

/-- The copy loop of lines 453-457 with the bank in the vector: it ends without a stop and
leaves the active flag, universe, start channel and pixel count of every row as they are. -/
theorem copyBank_ok (lo : Nat) :
    ∀ (count i : Nat) (st : AllocState), lo + i + count ≤ st.rows.length →
    ∃ st', copyBank lo count i st = .ok st' ∧ st'.rows.length = st.rows.length ∧
      ∀ (j : Nat) (r : J1SysOutput), st.rows[j]? = some r →
        ∃ r' : J1SysOutput, st'.rows[j]? = some r' ∧ r'.active = r.active ∧
          r'.pixels = r.pixels ∧ r'.universe_ = r.universe_ ∧
          r'.startChannel = r.startChannel := by
  intro count
  induction count with
  | zero =>
    intro i st _
    exact ⟨st, rfl, rfl, fun j r hr => ⟨r, hr, rfl, rfl, rfl, rfl⟩⟩
  | succ n ih =>
    intro i st hle
    have hl0 : lo < st.rows.length := by omega
    have hl1 : lo + i < st.rows.length := by omega
    obtain ⟨s1, e1, r1, o1, l1, _⟩ := read_ok st (.bank lo) st.rows[lo]
      (List.getElem?_eq_getElem hl0)
    obtain ⟨s2, e2, r2, o2, l2, _⟩ := modify_ok s1 (.bank (lo + i))
      (fun r => { r with protocol := st.rows[lo].protocol, speed := st.rows[lo].speed })
      st.rows[lo + i] (by simp only [Access.index]; rw [r1]; exact List.getElem?_eq_getElem hl1)
    simp only [Access.index] at r2
    rw [r1] at r2
    obtain ⟨st', e3, hlen, hrow⟩ := ih (i + 1) s2 (by rw [r2]; simp; omega)
    refine ⟨st', ?_, by rw [hlen, r2]; simp, ?_⟩
    · unfold copyBank
      simp only [bind, Except.bind, e1, e2]
      exact e3
    · intro j r hr
      by_cases hj : j = lo + i
      · subst hj
        have : s2.rows[lo + i]? = some
            { st.rows[lo + i] with protocol := st.rows[lo].protocol,
                                   speed := st.rows[lo].speed } := by
          rw [r2]; exact List.getElem?_set_self hl1
        obtain ⟨r', h1, h2, h3, h4, h5⟩ := hrow _ _ this
        rw [List.getElem?_eq_getElem hl1] at hr
        cases hr
        exact ⟨r', h1, h2, h3, h4, h5⟩
      · have : s2.rows[j]? = some r := by
          rw [r2, List.getElem?_set_ne (Ne.symm hj)]; exact hr
        exact hrow _ _ this

theorem sum_div_three (ms : List UDControllerPortModel) (h : ∀ x ∈ ms, 3 ∣ x.Channels) :
    (ms.map (fun x => x.Channels / 3)).sum = (ms.map (fun x => x.Channels)).sum / 3 := by
  induction ms with
  | nil => simp
  | cons m ms ih =>
    simp only [List.map_cons, List.sum_cons]
    rw [ih (fun x hx => h x (List.mem_cons_of_mem _ hx)),
      Int.add_ediv_of_dvd_left (h m (List.mem_cons_self _ _))]

theorem sum_tdiv_three (ms : List UDControllerPortModel) (h : ∀ x ∈ ms, 0 < x.Channels) :
    (ms.map (fun x => x.Channels.tdiv 3)).sum = (ms.map (fun x => x.Channels / 3)).sum := by
  induction ms with
  | nil => simp
  | cons m ms ih =>
    simp only [List.map_cons, List.sum_cons]
    rw [ih (fun x hx => h x (List.mem_cons_of_mem _ hx)),
      Int.tdiv_eq_ediv (le_of_lt (h m (List.mem_cons_self _ _))) (by decide)]

/-- C1, the code at the failing input: port 1 carries one contiguous run of two models (300
and 150 channels, 450 in all) from channel 1 of a universe of 510 channels whose id is 0.
The test of line 421 takes the started row 0 for an unstarted one (its universe is 0), so on
a 2-output controller row 0 is restarted at channel 301 with 70 pixels and row 1 becomes
active as well, and on a 12-output controller the allocation stops with "too many outputs"
and `SetOutputs` returns false.  The same run in a universe whose id is 1 gives one active
row of 150 pixels and `SetOutputs` returns true. -/
theorem run_in_universe_zero_restarts_row :
    List.Chain' (fun x y => y.startChannel = x.endChannel + 1) runPort.models ∧
    zeroUniverse.GetOutput 1 = some ⟨0, ⟨"ArtNet", 0, 510⟩, 1⟩ ∧
    (runPort.models.map (fun x => x.Channels)).sum = 450 ∧ (450 : Int) < 510 - 1 + 1 ∧
    (∃ rows, allocPixel zeroUniverse 2 runCud eightRows = .ok rows ∧
      (rows.take 4).map (fun r => (r.active, r.startChannel, r.pixels))
        = [(true, 301, 70), (true, 301, 50), (false, 0, 0), (false, 0, 0)]) ∧
    (∃ stop, allocPixel zeroUniverse 12 runCud (List.replicate 12 {}) = .error stop ∧
      stop.fault = .tooManyOutputs) ∧
    (SetOutputs p12Controller okDevice noMatch zeroUniverse zeroUniverse runCud).result
      = some false ∧
    (∃ rows, allocPixel oneUniverse 2 runCud eightRows = .ok rows ∧
      (rows.take 4).map (fun r => (r.active, r.startChannel, r.pixels))
        = [(true, 1, 150), (false, 0, 0), (false, 0, 0), (false, 0, 0)]) ∧
    (SetOutputs p12Controller okDevice noMatch oneUniverse oneUniverse runCud).result
      = some true := by
  refine ⟨by simp [runPort], rfl, by decide, by decide, ⟨_, rfl, by decide⟩,
    ⟨_, rfl, rfl⟩, by decide!, ⟨_, rfl, by decide⟩, by decide!⟩

/-- One contiguous run: a port whose models form one contiguous run (each model starts at the
end channel of the one before + 1, each has at least one channel) that starts in a universe
whose id is not 0 and has fewer channels in all than are left in that universe from the
start of the run.  The allocation of the port ends without a stop, the first row of the
port's bank is active at the universe and offset of the start of the run with a pixel count
that is the sum of `Channels / 3` (rounded down) over the models, which is the total
channel count / 3 when every model's channel count is a multiple of 3, and every other row
of the bank is inactive.  The bank of the port lies in the vector and no output of the
manager has a negative channel count. -/
theorem single_run_one_active_row (om : OutputManager) (n pp : Nat) (port : UDControllerPort)
    (rows : List J1SysOutput) (m : UDControllerPortModel) (ms : List UDControllerPortModel)
    (o : Found)
    (hpp : 1 ≤ pp) (hrows : pp * GetBankSize n ≤ rows.length)
    (hom : ∀ u ∈ om, 0 ≤ u.channels)
    (hmodels : port.models = m :: ms)
    (hpos : ∀ x ∈ port.models, 0 < x.Channels)
    (hrun : List.Chain' (fun x y => y.startChannel = x.endChannel + 1) port.models)
    (hfound : om.GetOutput m.startChannel = some o)
    (huni : o.output.universe_ ≠ 0)
    (htotal : (port.models.map (fun x => x.Channels)).sum < o.output.channels - o.sc + 1) :
    ∃ st r, allocPort om (GetBankSize n) pp port rows = .ok st ∧
      st.rows[(pp - 1) * GetBankSize n]? = some r ∧ r.active = true ∧
      r.universe_ = o.output.universe_ ∧ r.startChannel = o.sc ∧
      r.pixels = (port.models.map (fun x => x.Channels / 3)).sum ∧
      ((∀ x ∈ port.models, 3 ∣ x.Channels) →
        r.pixels = (port.models.map (fun x => x.Channels)).sum / 3) ∧
      ∀ k, 1 ≤ k → k < GetBankSize n →
        ∃ r', st.rows[(pp - 1) * GetBankSize n + k]? = some r' ∧ r'.active = false := by
  have hs : 0 < GetBankSize n := by unfold GetBankSize; split <;> decide
  generalize GetBankSize n = size at hrows hs ⊢
  have hbank : (pp - 1) * size + size = pp * size := by
    have : pp = (pp - 1) + 1 := by omega
    rw [this, Nat.succ_mul]; simp
  rw [hmodels] at hpos hrun htotal
  have hmpos := hpos m (List.mem_cons_self _ _)
  have hpos' : ∀ x ∈ ms, 0 < x.Channels := fun x hx => hpos x (List.mem_cons_of_mem _ hx)
  have hrest := channels_sum_nonneg ms hpos'
  simp only [List.map_cons, List.sum_cons] at htotal
  obtain ⟨s1, r1, e1, hr1, ha1, hu1, hc1, hp1, ho1, hl1, hlen1, hin1⟩ :=
    placeModel_fresh_ok om size pp (portStart size pp rows) m o rfl (le_refl _)
      (by show (pp - 1) * size < _; omega) (by show _ ≤ rows.length; omega) hfound hmpos
      (by omega)
  have hout : (portStart size pp rows).output = (pp - 1) * size := rfl
  have hlen0 : (portStart size pp rows).rows.length = rows.length := rfl
  rw [hout] at hr1 ho1 hin1
  have hdiv : m.Channels.tdiv 3 = m.Channels / 3 :=
    Int.tdiv_eq_ediv (by omega) (by omega)
  have hcoh : ∀ k, 0 ≤ k → o.sc + k ≤ o.output.channels →
      om.GetOutput (m.startChannel + k) = some { o with sc := o.sc + k } :=
    fun k hk hle => (GetOutput_shift om _ o k hom hfound hk hle).1
  have ha : 1 ≤ m.startChannel := (GetOutput_shift om _ o 0 hom hfound (le_refl _)
    (by have := GetOutput_bounds om _ o hfound; omega)).2
  obtain ⟨s2, r2, e2, ho2, hlen2, hr2, ha2, hp2, hu2, hc2, hf2⟩ :=
    placeModels_run om ((pp - 1) * size) size o m.startChannel hcoh huni ha hs ms m s1 r1
      m.Channels hrun hpos' ho1 hl1
      (by unfold UDControllerPortModel.Channels; ring) hmpos hr1 hu1 hc1
      (by rw [hp1, hdiv]; omega) htotal
  obtain ⟨st, e3, hlen3, hrow3⟩ := copyBank_ok ((pp - 1) * size) (size - 1) 1 s2
    (by rw [hlen2, hlen1, hlen0]; omega)
  obtain ⟨r, hr, ha3, hp3, hu3, hc3⟩ := hrow3 _ _ hr2
  have hpix : r.pixels = ((m :: ms).map (fun x => x.Channels / 3)).sum := by
    rw [hp3, hp2, hp1, sum_tdiv_three ms hpos', hdiv]
    simp only [List.map_cons, List.sum_cons]
  refine ⟨st, r, ?_, hr, by rw [ha3, ha2, ha1], by rw [hu3, hu2, hu1], by rw [hc3, hc2, hc1],
    by rw [hmodels]; exact hpix, ?_, ?_⟩
  · simp only [allocPort, hmodels, List.foldlM_cons, bind, Except.bind, e1, e2]
    exact e3
  · intro h3
    rw [hmodels] at h3 ⊢
    rw [hpix, sum_div_three _ h3]
  · intro k hk1 hk2
    obtain ⟨r', hr', hact⟩ := hin1 ((pp - 1) * size + k) (by omega) (by omega)
    rw [← hf2 _ (by omega)] at hr'
    obtain ⟨r'', h1, h2, _⟩ := hrow3 _ _ hr'
    exact ⟨r'', h1, by rw [h2, hact]⟩

/-- The contiguous run on port 1 of a 2-output controller: two contiguous models of 300 and 150
channels from channel 1 of a universe of 510 channels give one active row of 150 pixels. -/
theorem single_run_one_active_row_witness :
    ∃ st r, allocPort twoUniverses (GetBankSize 2) 1 runPort eightRows = .ok st ∧
      st.rows[0]? = some r ∧ r.active = true ∧ r.pixels = 150 ∧
      ∀ k, 1 ≤ k → k < GetBankSize 2 → ∃ r', st.rows[0 + k]? = some r' ∧ r'.active = false := by
  obtain ⟨st, r, h1, h2, h3, _, _, h6, _, h8⟩ :=
    single_run_one_active_row twoUniverses 2 1 runPort eightRows ⟨"ws2811", 1, 300⟩
      [⟨"ws2811", 301, 450⟩] ⟨0, ⟨"E131", 1, 510⟩, 1⟩ (by decide) (by decide)
      (by decide) rfl (by decide) (by simp [runPort]) rfl (by decide) (by decide)
  exact ⟨st, r, h1, h2, h3, by rw [h6]; decide, h8⟩

theorem input_trace (j : J1Sys) (dev : Device) (outputs : List Output) :
    ∀ req ∈ (SetInputUniverses j dev outputs).2, req.url = "/protect/ipConfig.htm" := by
  intro req h
  unfold SetInputUniverses at h
  split_ifs at h <;> simp at h
  all_goals (rw [h]; rfl)

theorem pixel_trace (j : J1Sys) (dev : Device) (scr : Scraper) (om : OutputManager)
    (cud : UDController) (success : Bool) :
    (∀ req ∈ (pixelSection j dev scr om cud success).2,
      req.url = "/protect/stringConfig.htm") ∧
    (∀ v, (pixelSection j dev scr om cud success).1 = .ret v → v = false) ∧
    (∀ s, (pixelSection j dev scr om cud success).1 = .next s → success = false →
      s = false) := by
  unfold pixelSection
  split_ifs with h1
  · have hs : success = true := h1.1
    subst hs
    dsimp only
    generalize allocPixel om j._outputs cud _ = res
    cases res with
    | error stop =>
      dsimp only
      refine ⟨fun req h => (by rw [List.mem_singleton.mp h]; rfl), ?_, ?_⟩
      · intro v hv
        split_ifs at hv
        cases hv; rfl
      · intro s hs
        split_ifs at hs
    | ok rows =>
      dsimp only
      split_ifs
      all_goals refine ⟨?_, fun v hv => (by cases hv), fun s _ hf => (by cases hf)⟩
      all_goals intro req h
      all_goals simp only [List.mem_cons, List.mem_singleton, List.not_mem_nil, or_false] at h
      all_goals first
        | (rw [h]; rfl)
        | (rcases h with h | h <;> first | (rw [h]; rfl) | rw [h])
  · refine ⟨fun req h => (by cases h), fun v hv => (by cases hv), fun s hs hf => ?_⟩
    cases hs
    exact hf

theorem serial_trace (j : J1Sys) (dev : Device) (scr : Scraper) (om : OutputManager)
    (cud : UDController) (success : Bool) :
    (∀ req ∈ (serialSection j dev scr om cud success).2,
      req.url = "/protect/portConfig.htm") ∧
    (∀ v, (serialSection j dev scr om cud success).1 = .ret v → v = false) ∧
    (∀ s, (serialSection j dev scr om cud success).1 = .next s → success = false →
      s = false) := by
  unfold serialSection
  split_ifs with h1
  · have hs : success = true := h1.1
    subst hs
    dsimp only
    generalize List.foldlM (serialStep om cud) _ _ = res
    cases res with
    | error stop =>
      dsimp only
      refine ⟨fun req h => (by rw [List.mem_singleton.mp h]; rfl), ?_, ?_⟩
      · intro v hv
        split_ifs at hv
        cases hv; rfl
      · intro s hs
        split_ifs at hs
    | ok rows =>
      dsimp only
      split_ifs
      all_goals refine ⟨?_, fun v hv => (by cases hv), fun s _ hf => (by cases hf)⟩
      all_goals intro req h
      all_goals simp only [List.mem_cons, List.mem_singleton, List.not_mem_nil, or_false] at h
      all_goals first
        | (rw [h]; rfl)
        | (rcases h with h | h <;> first | (rw [h]; rfl) | rw [h])
  · refine ⟨fun req h => (by cases h), fun v hv => (by cases hv), fun s hs hf => ?_⟩
    cases hs
    exact hf

theorem pixelSection_overflow (j : J1Sys) (dev : Device) (scr : Scraper) (om : OutputManager)
    (cud : UDController) (hmax : 0 < cud.maxPixelPort)
    (hover : BankOverflow (allocPixel om j._outputs cud
      (ReadCurrentConfig (GetBankSize j._outputs) (scr.stringRow (dev.respond stringConfigGet))
        (dev.respond stringConfigGet)
        (List.replicate (j._outputs * GetBankSize j._outputs) {})))) :
    pixelSection j dev scr om cud true = (.ret false, [stringConfigGet]) := by
  obtain ⟨stop, h1, h2⟩ := hover
  unfold pixelSection
  rw [if_pos ⟨rfl, hmax⟩]
  dsimp only
  rw [h1]
  dsimp only
  rw [if_pos h2]

theorem sections_skipped (j : J1Sys) (dev : Device) (scr : Scraper) (om : OutputManager)
    (cud : UDController) :
    pixelSection j dev scr om cud false = (.next false, []) ∧
    serialSection j dev scr om cud false = (.next false, []) := by
  constructor
  · unfold pixelSection
    rw [if_neg (fun h => by cases h.1)]
  · unfold serialSection
    rw [if_neg (fun h => by cases h.1)]

/-- C5: when the pixel allocation stops because a model still has channels to place with
`output` past the last row of its bank (the checks of lines 372-378 and 411-417, reached
because `cud.GetMaxPixelPort() > 0`), `SetOutputs` returns false, and it sends no POST to
/protect/stringConfig.htm, no request for /protect/portConfig.htm (neither the serial read
nor the serial upload) and no reboot request. -/
theorem bank_overflow_aborts (j : J1Sys) (dev : Device) (scr : Scraper) (om : OutputManager)
    (outputs : List Output) (cud : UDController) (hmax : 0 < cud.maxPixelPort)
    (hover : BankOverflow (allocPixel om j._outputs cud
      (ReadCurrentConfig (GetBankSize j._outputs) (scr.stringRow (dev.respond stringConfigGet))
        (dev.respond stringConfigGet)
        (List.replicate (j._outputs * GetBankSize j._outputs) {})))) :
    (SetOutputs j dev scr om outputs cud).result = some false ∧
    ∀ req ∈ (SetOutputs j dev scr om outputs cud).trace,
      ¬ (req.method = .POST ∧ req.url = "/protect/stringConfig.htm") ∧
      req.url ≠ "/protect/portConfig.htm" ∧ req.url ≠ "/protect/reboot.htm?" := by
  have hin := input_trace j dev outputs
  have hip : ∀ req : Request, req.url = "/protect/ipConfig.htm" →
      ¬ (req.method = .POST ∧ req.url = "/protect/stringConfig.htm") ∧
      req.url ≠ "/protect/portConfig.htm" ∧ req.url ≠ "/protect/reboot.htm?" := by
    intro req h
    rw [h]
    exact ⟨fun c => absurd c.2 (by decide), by decide, by decide⟩
  have hget : ¬ (stringConfigGet.method = .POST ∧
      stringConfigGet.url = "/protect/stringConfig.htm") ∧
      stringConfigGet.url ≠ "/protect/portConfig.htm" ∧
      stringConfigGet.url ≠ "/protect/reboot.htm?" :=
    ⟨fun c => absurd c.1 (by decide), by decide, by decide⟩
  unfold SetOutputs
  dsimp only
  split_ifs with h0
  · exact ⟨rfl, fun req h => hip req (hin req h)⟩
  · cases hc : cud.check with
    | true =>
      rw [pixelSection_overflow j dev scr om cud hmax hover]
      refine ⟨rfl, fun req h => ?_⟩
      rcases List.mem_append.mp h with h | h
      · exact hip req (hin req h)
      · rw [List.mem_singleton.mp h]; exact hget
    | false =>
      rw [(sections_skipped j dev scr om cud).1]
      dsimp only
      rw [(sections_skipped j dev scr om cud).2]
      refine ⟨rfl, fun req h => ?_⟩
      simp only [List.append_nil, Bool.false_eq_true, if_false] at h
      exact hip req (hin req h)

/-- C5 on a 2-output controller whose port 1 carries one model of 2550 channels (five
universes of 510 for a bank of 4 rows): only the input configuration and the read of the
pixel configuration are sent. -/
theorem bank_overflow_aborts_witness :
    SetOutputs p2Controller okDevice noMatch eightUniverses eightUniverses overflowCud
      = ⟨some false, [ipConfigRequest eightUniverses, stringConfigGet]⟩ ∧
    (SetOutputs p2Controller okDevice noMatch eightUniverses eightUniverses
      overflowCud).result = some false :=
  ⟨by decide,
    (bank_overflow_aborts p2Controller okDevice noMatch eightUniverses eightUniverses
      overflowCud (by decide) ⟨_, rfl, rfl⟩).1⟩

/-- The body of the serial loop never ends normally for a port whose start and end channel
are found in different outputs or whose start channel is found at an offset other than 1. -/
theorem serialStep_invalid (om : OutputManager) (cud : UDController)
    (rows : List J1SysSerialOutput) (sp : Nat) (port : UDControllerPort)
    (hport : cud.serialPort sp = some port)
    (hbad : (om.GetOutput port.startChannel).map (fun x => x.index)
          ≠ (om.GetOutput port.endChannel).map (fun x => x.index) ∨
        ∃ f, om.GetOutput port.startChannel = some f ∧ f.sc ≠ 1) :
    ∃ stop, serialStep om cud rows sp = .error stop := by
  unfold serialStep
  rw [hport]
  dsimp only
  cases hrow : rows[sp - 1]? with
  | none => exact ⟨_, rfl⟩
  | some r =>
    dsimp only
    by_cases hne : (om.GetOutput port.startChannel).map (fun x => x.index)
        ≠ (om.GetOutput port.endChannel).map (fun x => x.index)
    · rw [if_pos hne]; exact ⟨_, rfl⟩
    · rw [if_neg hne]
      rcases hbad with h | ⟨f, hf, hsc⟩
      · exact absurd h hne
      · rw [hf]
        dsimp only
        rw [if_pos hsc]
        exact ⟨_, rfl⟩

theorem serialLoop_invalid (om : OutputManager) (cud : UDController) (sp : Nat)
    (port : UDControllerPort) (hport : cud.serialPort sp = some port)
    (hbad : (om.GetOutput port.startChannel).map (fun x => x.index)
          ≠ (om.GetOutput port.endChannel).map (fun x => x.index) ∨
        ∃ f, om.GetOutput port.startChannel = some f ∧ f.sc ≠ 1) :
    ∀ (ports : List Nat) (rows : List J1SysSerialOutput), sp ∈ ports →
      ∃ stop, ports.foldlM (serialStep om cud) rows = .error stop := by
  intro ports
  induction ports with
  | nil => intro _ h; cases h
  | cons p ps ih =>
    intro rows hmem
    rw [List.foldlM_cons]
    cases hstep : serialStep om cud rows p with
    | error stop => exact ⟨stop, rfl⟩
    | ok rows' =>
      rcases List.mem_cons.mp hmem with h | h
      · subst h
        obtain ⟨stop, hs⟩ := serialStep_invalid om cud rows sp port hport hbad
        rw [hs] at hstep
        cases hstep
      · exact ih rows' h

/-- C6: when an assigned serial port (a port number from 1 to `cud.GetMaxSerialPort()`) has
its start channel and end channel in different outputs, or its start channel at an offset
other than 1 in its output, a call of `SetOutputs` that is free of undefined behaviour
returns false and sends neither the POST to /protect/portConfig.htm nor the reboot
request. -/
theorem serial_validation_aborts (j : J1Sys) (dev : Device) (scr : Scraper)
    (om : OutputManager) (outputs : List Output) (cud : UDController) (sp : Nat)
    (port : UDControllerPort)
    (hsp1 : 1 ≤ sp) (hsp2 : (sp : Int) ≤ cud.maxSerialPort)
    (hport : cud.serialPort sp = some port)
    (hbad : (om.GetOutput port.startChannel).map (fun x => x.index)
          ≠ (om.GetOutput port.endChannel).map (fun x => x.index) ∨
        ∃ f, om.GetOutput port.startChannel = some f ∧ f.sc ≠ 1)
    (hdef : (SetOutputs j dev scr om outputs cud).result ≠ none) :
    (SetOutputs j dev scr om outputs cud).result = some false ∧
    ∀ req ∈ (SetOutputs j dev scr om outputs cud).trace,
      ¬ (req.method = .POST ∧ req.url = "/protect/portConfig.htm") ∧
      req.url ≠ "/protect/reboot.htm?" := by
  have hin := input_trace j dev outputs
  have hpx := pixel_trace j dev scr om cud cud.check
  have hip : ∀ req : Request, req.url = "/protect/ipConfig.htm" →
      ¬ (req.method = .POST ∧ req.url = "/protect/portConfig.htm") ∧
      req.url ≠ "/protect/reboot.htm?" := by
    intro req h
    rw [h]
    exact ⟨fun c => absurd c.2 (by decide), by decide⟩
  have hsp : ∀ req : Request, req.url = "/protect/stringConfig.htm" →
      ¬ (req.method = .POST ∧ req.url = "/protect/portConfig.htm") ∧
      req.url ≠ "/protect/reboot.htm?" := by
    intro req h
    rw [h]
    exact ⟨fun c => absurd c.2 (by decide), by decide⟩
  have hget : ¬ (portConfigGet.method = .POST ∧ portConfigGet.url = "/protect/portConfig.htm")
      ∧ portConfigGet.url ≠ "/protect/reboot.htm?" :=
    ⟨fun c => absurd c.1 (by decide), by decide⟩
  have hmem : sp ∈ List.range' 1 cud.maxSerialPort.toNat := by
    rw [List.mem_range']
    refine ⟨sp - 1, ?_, by omega⟩
    omega
  have hserial : ∀ success, (serialSection j dev scr om cud success).1 ≠ .undefined →
      ((serialSection j dev scr om cud success).1 = .ret false ∨
        (serialSection j dev scr om cud success).1 = .next false) ∧
      ∀ req ∈ (serialSection j dev scr om cud success).2, req = portConfigGet := by
    intro success
    unfold serialSection
    split_ifs with h1
    · dsimp only
      obtain ⟨stop, hs⟩ := serialLoop_invalid om cud sp port hport hbad _
        (ReadCurrentSerialConfig (scr.serialRow (dev.respond portConfigGet))
          (dev.respond portConfigGet)
          (List.replicate
            (J1SysControllerRules.mk j._outputs j._version j._model).GetMaxSerialPort.toNat {}))
        hmem
      rw [hs]
      dsimp only
      intro hu
      split_ifs at hu ⊢
      · exact ⟨Or.inl rfl, fun req h => List.mem_singleton.mp h⟩
      · exact absurd rfl hu
    · intro _
      have hs : success = false := by
        cases success
        · rfl
        · exact absurd ⟨rfl, by omega⟩ h1
      subst hs
      exact ⟨Or.inr rfl, fun req h => (by cases h)⟩
  unfold SetOutputs at hdef ⊢
  dsimp only at hdef ⊢
  split_ifs at hdef ⊢ with h0
  · exact ⟨rfl, fun req h => hip req (hin req h)⟩
  · generalize hp : pixelSection j dev scr om cud cud.check = pixel at hdef hpx ⊢
    obtain ⟨flow, ptrace⟩ := pixel
    dsimp only at hdef hpx ⊢
    cases flow with
    | undefined => exact absurd rfl hdef
    | ret v =>
      refine ⟨by rw [hpx.2.1 v rfl], fun req h => ?_⟩
      rcases List.mem_append.mp h with h | h
      · exact hip req (hin req h)
      · exact hsp req (hpx.1 req h)
    | next success =>
      dsimp only at hdef ⊢
      generalize hsr : serialSection j dev scr om cud success = serial at hdef ⊢
      have hser := hserial success
      rw [hsr] at hser
      obtain ⟨sflow, strace⟩ := serial
      dsimp only at hdef hser ⊢
      have htrace : ∀ req ∈ (SetInputUniverses j dev outputs).2 ++ ptrace ++ strace,
          ¬ (req.method = .POST ∧ req.url = "/protect/portConfig.htm") ∧
          req.url ≠ "/protect/reboot.htm?" := by
        intro req h
        have hs' : sflow ≠ .undefined := by
          intro c; subst c; exact hdef rfl
        rcases List.mem_append.mp h with h | h
        · rcases List.mem_append.mp h with h | h
          · exact hip req (hin req h)
          · exact hsp req (hpx.1 req h)
        · rw [(hser hs').2 req h]; exact hget
      cases sflow with
      | undefined => exact absurd rfl hdef
      | ret v =>
        rcases (hser (by intro c; cases c)).1 with h | h
        · cases h
          exact ⟨rfl, htrace⟩
        · cases h
      | next s =>
        rcases (hser (by intro c; cases c)).1 with h | h
        · cases h
        · cases h
          refine ⟨rfl, fun req h => ?_⟩
          simp only [Bool.false_eq_true, if_false, List.append_nil] at h
          exact htrace req h

/-- C6 on a 12-output ECG-P12S whose serial port 1 runs from channel 1 of one universe into
the next: `SetOutputs` returns false after the read of the serial configuration. -/
theorem serial_validation_aborts_witness :
    (SetOutputs p12Controller okDevice noMatch twoUniverses twoUniverses spanningCud).result
      = some false ∧
    ∀ req ∈ (SetOutputs p12Controller okDevice noMatch twoUniverses twoUniverses
        spanningCud).trace,
      ¬ (req.method = .POST ∧ req.url = "/protect/portConfig.htm") ∧
      req.url ≠ "/protect/reboot.htm?" :=
  serial_validation_aborts p12Controller okDevice noMatch twoUniverses twoUniverses
    spanningCud 1 ⟨"dmx", 1, 1, 600, []⟩ (by decide) (by decide) rfl (Or.inl (by decide))
    (by decide!)

/-! ## Protocol names and their codes -/

/-- C12: for every protocol string, either its lower-cased form is one of ws2811, tm180x,
tm18xx, ws2801, tls3001, lpd6803, `IsValidPixelProtocol` is true and
`EncodeStringPortProtocol` is one of the characters '0' to '4', or it is none of them,
`IsValidPixelProtocol` is false and `EncodeStringPortProtocol` is -1; and either its
lower-cased form is dmx or renard, `IsValidSerialProtocol` is true and
`EncodeSerialPortProtocol` is 'D' or 'R', or it is neither, `IsValidSerialProtocol` is
false and `EncodeSerialPortProtocol` is -1. -/
theorem protocol_encoding_matches_validity (r : J1SysControllerRules) (p : String) :
    ((Lower p ∈ ["ws2811", "tm180x", "tm18xx", "ws2801", "tls3001", "lpd6803"] ∧
        r.IsValidPixelProtocol p = true ∧
        EncodeStringPortProtocol p ∈ [code '0', code '1', code '2', code '3', code '4']) ∨
      (Lower p ∉ ["ws2811", "tm180x", "tm18xx", "ws2801", "tls3001", "lpd6803"] ∧
        r.IsValidPixelProtocol p = false ∧ EncodeStringPortProtocol p = -1)) ∧
    ((Lower p ∈ ["dmx", "renard"] ∧ r.IsValidSerialProtocol p = true ∧
        EncodeSerialPortProtocol p ∈ [code 'D', code 'R']) ∨
      (Lower p ∉ ["dmx", "renard"] ∧ r.IsValidSerialProtocol p = false ∧
        EncodeSerialPortProtocol p = -1)) := by
  constructor
  · unfold J1SysControllerRules.IsValidPixelProtocol EncodeStringPortProtocol
    generalize Lower p = q
    by_cases h1 : q = "ws2811"
    · subst h1; left; decide
    by_cases h2 : q = "tm180x"
    · subst h2; left; decide
    by_cases h3 : q = "tm18xx"
    · subst h3; left; decide
    by_cases h4 : q = "ws2801"
    · subst h4; left; decide
    by_cases h5 : q = "tls3001"
    · subst h5; left; decide
    by_cases h6 : q = "lpd6803"
    · subst h6; left; decide
    right
    simp [h1, h2, h3, h4, h5, h6]
  · unfold J1SysControllerRules.IsValidSerialProtocol EncodeSerialPortProtocol
    generalize Lower p = q
    by_cases h1 : q = "dmx"
    · subst h1; left; decide
    by_cases h2 : q = "renard"
    · subst h2; left; decide
    right
    simp [h1, h2]

/-! ## One universe on port 1 of a 12-output controller -/

theorem allocSteps_unassigned (om : OutputManager) (size : Nat) (cud : UDController) :
    ∀ (ports : List Nat) (rows : List J1SysOutput),
      (∀ pp ∈ ports, cud.pixelPort pp = none) →
      ports.foldlM (allocStep om size cud) rows = .ok rows := by
  intro ports
  induction ports with
  | nil => intro rows _; rfl
  | cons p ps ih =>
    intro rows h
    rw [List.foldlM_cons]
    have hp : allocStep om size cud rows p = .ok rows := by
      unfold allocStep
      rw [h p (List.mem_cons_self _ _)]
      rfl
    rw [hp]
    exact ih rows (fun pp hpp => h pp (List.mem_cons_of_mem _ hpp))

/-- C11: a 12-output controller (bank size 1; model and firmware play no part in the
allocation) whose port 1 carries a single ws2811 model of 510 channels that starts at
channel 1 of a universe of 510 channels, no other port being assigned.  Whatever the 12 rows
hold before, the pixel allocation ends without a stop and row 0 is active with protocol
code '4', speed 3600, the universe found, start channel 1 and 170 pixels; the bank of port 1
has no other row. -/
theorem full_universe_on_port_one (om : OutputManager) (cud : UDController)
    (rows : List J1SysOutput) (port : UDControllerPort) (m : UDControllerPortModel)
    (o : Found)
    (hlen : rows.length = 12)
    (hport : cud.pixelPort 1 = some port) (hothers : ∀ pp, pp ≠ 1 → cud.pixelPort pp = none)
    (hmodels : port.models = [m]) (hproto : Lower m.protocol = "ws2811")
    (hchannels : m.Channels = 510)
    (hfound : om.GetOutput m.startChannel = some o) (hsc : o.sc = 1)
    (hsize : o.output.channels = 510) :
    GetBankSize 12 = 1 ∧
    ∃ rows' r, allocPixel om 12 cud rows = .ok rows' ∧ rows'.length = 12 ∧
      rows'[0]? = some r ∧ r.active = true ∧ r.protocol = code '4' ∧ r.speed = 3600 ∧
      r.universe_ = o.output.universe_ ∧ r.startChannel = 1 ∧ r.pixels = 170 ∧
      ∀ k, 1 ≤ k → k < GetBankSize 12 → ∃ r', rows'[k]? = some r' ∧ r'.active = false := by
  refine ⟨rfl, ?_⟩
  have hbs : GetBankSize 12 = 1 := rfl
  have hl0 : 0 < rows.length := by omega
  obtain ⟨s1, e1, r1, o1, l1, _⟩ := modify_ok (portStart 1 1 rows) (.cursor 0)
    (fun r => { r with protocol := EncodeStringPortProtocol m.protocol,
                       speed := DecodeProtocolSpeed m.protocol }) rows[0]
    (List.getElem?_eq_getElem hl0)
  have o1' : s1.output = 0 := o1
  have l1' : s1.lastEnd = -1 := l1
  have r1' : s1.rows = rows.set 0
      { rows[0] with protocol := EncodeStringPortProtocol m.protocol,
                     speed := DecodeProtocolSpeed m.protocol } := r1
  have hlen1 : s1.rows.length = 12 := by rw [r1', List.length_set]; exact hlen
  obtain ⟨s2, r, e2, hr, hr2, ho2, _, hlen2, _, _⟩ :=
    freshIter_ok om 1 1 m m.Channels s1 o (by omega) (by omega) (by omega) (by rw [add_sub_cancel_right]; exact hfound)
  have hnot : ¬ m.Channels < o.output.channels - o.sc + 1 := by
    rw [hchannels, hsc, hsize]; decide
  simp only [if_neg hnot] at e2 hr2 ho2
  have hzero : m.Channels - (o.output.channels - o.sc + 1) = 0 := by
    rw [hchannels, hsc, hsize]; decide
  rw [hzero] at e2
  rw [o1'] at hr hr2
  rw [r1', List.getElem?_set_self hl0] at hr
  cases hr
  have hplace : placeModel om 0 1 (portStart 1 1 rows) m
      = .ok { s2 with lastEnd := m.endChannel } := by
    have hgap : gapStep (portStart 1 1 rows) m = portStart 1 1 rows := by
      unfold gapStep
      rw [if_neg (fun h => h.1 rfl)]
    unfold placeModel
    simp only [hgap, bind, Except.bind]
    have e1' : (portStart 1 1 rows).modify (.cursor (portStart 1 1 rows).output)
        (fun r => { r with protocol := EncodeStringPortProtocol m.protocol,
                           speed := DecodeProtocolSpeed m.protocol }) = .ok s1 := e1
    rw [e1']
    simp only [l1', if_true]
    have hfuel : loopFuel 0 1 s1.output = 0 + 1 + 1 := by rw [o1']; rfl
    rw [hfuel, freshLoop_succ om 0 1 m (0 + 1) m.Channels s1 (by rw [hchannels]; decide) 0 s2 e2]
    rw [freshLoop]
    simp only [gt_iff_lt, lt_irrefl, if_false, pure, Except.pure]
  have hport1 : allocPort om 1 1 port rows = .ok { s2 with lastEnd := m.endChannel } := by
    simp only [allocPort, hmodels, List.foldlM_cons, List.foldlM_nil, bind, Except.bind]
    have hp' : placeModel om ((1 - 1) * 1) 1 (portStart 1 1 rows) m
        = .ok { s2 with lastEnd := m.endChannel } := hplace
    rw [hp']
    rfl
  have hrange : List.range' 1 12 = 1 :: List.range' 2 11 := rfl
  have hall : allocPixel om 12 cud rows = .ok s2.rows := by
    unfold allocPixel
    rw [hbs, hrange, List.foldlM_cons]
    have hs : allocStep om 1 cud rows 1 = .ok s2.rows := by
      unfold allocStep
      rw [hport]
      simp only [bind, Except.bind, hport1, pure, Except.pure]
    rw [hs]
    exact allocSteps_unassigned om 1 cud _ _ (fun pp hpp => hothers pp (by
      have := (List.mem_range'_1.mp hpp).1
      omega))
  have hdiv : (o.output.channels - o.sc + 1).tdiv 3 = 170 := by rw [hsc, hsize]; decide
  refine ⟨s2.rows, _, hall, by rw [hlen2, hlen1], hr2, rfl, ?_, ?_, rfl, hsc, hdiv, ?_⟩
  · show EncodeStringPortProtocol m.protocol = code '4'
    unfold EncodeStringPortProtocol
    simp only [hproto, if_true]
  · show DecodeProtocolSpeed m.protocol = 3600
    unfold DecodeProtocolSpeed
    simp only [hproto, if_true]
  · intro k h1 h2
    rw [hbs] at h2
    omega

/-- C11 with one universe of 510 channels, universe id 1, and a vector on which the
read-back found nothing; the whole of `SetOutputs` on the ECG-P12R with firmware 3.5 then
returns true. -/
theorem full_universe_on_port_one_witness :
    (∃ rows' r, allocPixel oneUniverse 12 fullCud (List.replicate 12 {}) = .ok rows' ∧
      rows'[0]? = some r ∧ r.active = true ∧ r.protocol = code '4' ∧ r.speed = 3600 ∧
      r.universe_ = 1 ∧ r.startChannel = 1 ∧ r.pixels = 170) ∧
    (SetOutputs p12rController okDevice noMatch oneUniverse oneUniverse fullCud).result
      = some true := by
  obtain ⟨_, rows', r, h1, _, h3, h4, h5, h6, h7, h8, h9, _⟩ :=
    full_universe_on_port_one oneUniverse fullCud (List.replicate 12 {})
      ⟨"ws2811", 1, 1, 510, [⟨"ws2811", 1, 510⟩]⟩ ⟨"ws2811", 1, 510⟩ ⟨0, ⟨"E131", 1, 510⟩, 1⟩
      rfl rfl (fun pp hpp => by simp [fullCud, hpp]) rfl (by decide) (by decide) rfl rfl rfl
  exact ⟨⟨rows', r, h1, h3, h4, h5, h6, h7, h8, h9⟩, by decide!⟩

/-! ## The pixel upload and its answer -/

theorem pixel_post (j : J1Sys) (dev : Device) (scr : Scraper) (om : OutputManager)
    (cud : UDController) (success : Bool) (req : Request)
    (hreq : req ∈ (pixelSection j dev scr om cud success).2) (hpost : req.method = .POST) :
    (pixelSection j dev scr om cud success).2 = [stringConfigGet, req] ∧
    (dev.respond req = "" → (pixelSection j dev scr om cud success).1 = .next false) := by
  have hget : stringConfigGet.method ≠ .POST := by decide
  unfold pixelSection at hreq ⊢
  by_cases h1 : success = true ∧ cud.maxPixelPort > 0
  · rw [if_pos h1] at hreq ⊢
    dsimp only at hreq ⊢
    generalize allocPixel om j._outputs cud _ = res at hreq ⊢
    cases res with
    | error stop =>
      dsimp only at hreq ⊢
      rw [List.mem_singleton.mp hreq] at hpost
      exact absurd hpost hget
    | ok rows =>
      dsimp only at hreq ⊢
      by_cases h2 : stringRequest (numberPorts rows 0) ≠ ""
      · rw [if_pos h2] at hreq ⊢
        rcases List.mem_cons.mp hreq with h | h
        · rw [h] at hpost; exact absurd hpost hget
        · have h' := List.mem_singleton.mp h
          subst h'
          exact ⟨rfl, fun he => by rw [if_pos he]⟩
      · rw [if_neg h2] at hreq
        rw [List.mem_singleton.mp hreq] at hpost
        exact absurd hpost hget
  · rw [if_neg h1] at hreq
    cases hreq

/-- C14: when `SetOutputs` sends the POST of the pixel configuration to
/protect/stringConfig.htm and the answer is an empty body, it returns false and that POST is
its last request: after the input configuration and the read of the pixel configuration
nothing else is sent, so the serial configuration is neither read nor uploaded and the
controller is not rebooted. -/
theorem empty_pixel_upload_aborts (j : J1Sys) (dev : Device) (scr : Scraper)
    (om : OutputManager) (outputs : List Output) (cud : UDController) (req : Request)
    (hreq : req ∈ (SetOutputs j dev scr om outputs cud).trace)
    (hpost : req.method = .POST) (hurl : req.url = "/protect/stringConfig.htm")
    (hempty : dev.respond req = "") :
    (SetOutputs j dev scr om outputs cud).result = some false ∧
    (SetOutputs j dev scr om outputs cud).trace
      = (SetInputUniverses j dev outputs).2 ++ [stringConfigGet, req] ∧
    ∀ q ∈ (SetOutputs j dev scr om outputs cud).trace,
      q.url ≠ "/protect/portConfig.htm" ∧ q.url ≠ "/protect/reboot.htm?" := by
  have hin := input_trace j dev outputs
  have hnotin : req ∉ (SetInputUniverses j dev outputs).2 := by
    intro h
    have := hin req h
    rw [hurl] at this
    exact absurd this (by decide)
  have hkey : (SetOutputs j dev scr om outputs cud).result = some false ∧
      (SetOutputs j dev scr om outputs cud).trace
        = (SetInputUniverses j dev outputs).2 ++ [stringConfigGet, req] := by
    unfold SetOutputs at hreq ⊢
    dsimp only at hreq ⊢
    split_ifs at hreq ⊢ with h0
    · exact absurd hreq hnotin
    · have hsk := sections_skipped j dev scr om cud
      have hpx := pixel_trace j dev scr om cud cud.check
      have hsr := fun s => serial_trace j dev scr om cud s
      generalize hp : pixelSection j dev scr om cud cud.check = pixel at hreq hpx ⊢
      have hpp := pixel_post j dev scr om cud cud.check req
      rw [hp] at hpp
      obtain ⟨flow, ptrace⟩ := pixel
      dsimp only at hreq hpx hpp ⊢
      have hmem : req ∈ ptrace := by
        cases flow with
        | undefined =>
          rcases List.mem_append.mp hreq with h | h
          · exact absurd h hnotin
          · exact h
        | ret v =>
          rcases List.mem_append.mp hreq with h | h
          · exact absurd h hnotin
          · exact h
        | next s =>
          dsimp only at hreq
          have hs := hsr s
          generalize serialSection j dev scr om cud s = serial at hreq hs
          obtain ⟨sflow, strace⟩ := serial
          dsimp only at hreq hs
          have hne : req ∉ strace := by
            intro h
            have := hs.1 req h
            rw [hurl] at this
            exact absurd this (by decide)
          have hall : req ∈ (SetInputUniverses j dev outputs).2 ++ ptrace ++ strace := by
            cases sflow with
            | undefined => exact hreq
            | ret v => exact hreq
            | next s2 =>
              dsimp only at hreq
              rcases List.mem_append.mp hreq with h | h
              · exact h
              · split_ifs at h
                · rw [List.mem_singleton.mp h] at hurl
                  exact absurd hurl (by decide)
                · cases h
          rcases List.mem_append.mp hall with h | h
          · rcases List.mem_append.mp h with h | h
            · exact absurd h hnotin
            · exact h
          · exact absurd h hne
      obtain ⟨ht, hf⟩ := hpp hmem hpost
      have hf := hf hempty
      subst ht
      subst hf
      dsimp only
      rw [hsk.2]
      exact ⟨rfl, by simp⟩
  refine ⟨hkey.1, hkey.2, ?_⟩
  rw [hkey.2]
  intro q hq
  rcases List.mem_append.mp hq with h | h
  · rw [hin q h]; exact ⟨by decide, by decide⟩
  · rcases List.mem_cons.mp h with h | h
    · rw [h]; exact ⟨by decide, by decide⟩
    · rw [List.mem_singleton.mp h, hurl]; exact ⟨by decide, by decide⟩

/-- C14 on a 12-output ECG-P12R with a device that answers the pixel upload with an
empty body: `SetOutputs` returns false. -/
theorem empty_pixel_upload_aborts_witness :
    (SetOutputs p12rController pixelPostFails noMatch oneUniverse oneUniverse fullCud).result
      = some false :=
  (empty_pixel_upload_aborts p12rController pixelPostFails noMatch oneUniverse oneUniverse
    fullCud
    ⟨.POST, "/protect/stringConfig.htm",
      stringRequest (numberPorts (rowsOf (allocPixel oneUniverse 12 fullCud
        (List.replicate 12 {}))) 0)⟩
    (by decide!) rfl rfl rfl).1

/-! ## The serial rows -/

/-- The body of the serial loop for an assigned port whose row is in the vector: in every
outcome the vector is the old one with the port's row written. -/
theorem serialStep_rows (om : OutputManager) (cud : UDController)
    (rows : List J1SysSerialOutput) (sp : Nat) (port : UDControllerPort)
    (r : J1SysSerialOutput) (hport : cud.serialPort sp = some port)
    (hrow : rows[sp - 1]? = some r) :
    serialRowsOf (serialStep om cud rows sp) = rows.set (sp - 1) (serialWritten r port) := by
  unfold serialStep serialWritten
  rw [hport]
  dsimp only
  rw [hrow]
  dsimp only
  by_cases hc : EncodeSerialPortProtocol port.protocol = code 'D' ∧ r.speed < 5
  · rw [if_pos hc, if_pos hc]
    split_ifs
    · rfl
    · split
      · rfl
      · split_ifs <;> rfl
  · rw [if_neg hc, if_neg hc]
    split_ifs
    · rfl
    · split
      · rfl
      · split_ifs <;> rfl

theorem serialStep_ok (om : OutputManager) (cud : UDController)
    (rows rows' : List J1SysSerialOutput) (sp : Nat)
    (h : serialStep om cud rows sp = .ok rows') :
    (cud.serialPort sp = none ∧ rows' = rows) ∨
    ∃ port r, cud.serialPort sp = some port ∧ rows[sp - 1]? = some r ∧
      rows' = rows.set (sp - 1) (serialWritten r port) := by
  cases hport : cud.serialPort sp with
  | none =>
    unfold serialStep at h
    rw [hport] at h
    cases h
    exact Or.inl ⟨rfl, rfl⟩
  | some port =>
    cases hrow : rows[sp - 1]? with
    | none =>
      unfold serialStep at h
      rw [hport] at h
      dsimp only at h
      rw [hrow] at h
      cases h
    | some r =>
      have := serialStep_rows om cud rows sp port r hport hrow
      rw [h] at this
      exact Or.inr ⟨port, r, rfl, rfl, this⟩

/-- The serial loop over distinct port numbers, when it ends normally: the row of an
assigned port of the loop is the old row written once, every other row is as before. -/
theorem serialLoop_row (om : OutputManager) (cud : UDController) :
    ∀ (ports : List Nat) (rows rows' : List J1SysSerialOutput), ports.Nodup →
      (∀ p ∈ ports, 1 ≤ p) → ports.foldlM (serialStep om cud) rows = .ok rows' →
      ∀ sp, 1 ≤ sp →
        (sp ∈ ports → ∀ port, cud.serialPort sp = some port →
          rows'[sp - 1]? = (rows[sp - 1]?).map (fun r => serialWritten r port)) ∧
        ((sp ∉ ports ∨ cud.serialPort sp = none) → rows'[sp - 1]? = rows[sp - 1]?) := by
  intro ports
  induction ports with
  | nil =>
    intro rows rows' _ _ h sp _
    cases h
    exact ⟨fun h => (by cases h), fun _ => rfl⟩
  | cons p ps ih =>
    intro rows rows' hnd hpos h sp hsp
    rw [List.foldlM_cons] at h
    cases hstep : serialStep om cud rows p with
    | error e => rw [hstep] at h; cases h
    | ok rows1 =>
      rw [hstep] at h
      have hp1 : 1 ≤ p := hpos p (List.mem_cons_self _ _)
      obtain ⟨hnp, hnd'⟩ := List.nodup_cons.mp hnd
      have ih' := ih rows1 rows' hnd' (fun q hq => hpos q (List.mem_cons_of_mem _ hq)) h sp hsp
      have hs := serialStep_ok om cud rows rows1 p hstep
      by_cases hpsp : p = sp
      · subst hpsp
        have hkeep := ih'.2 (Or.inl hnp)
        constructor
        · intro _ port hport
          rcases hs with ⟨hn, _⟩ | ⟨port', r, hport', hr, hrows⟩
          · rw [hn] at hport; cases hport
          · rw [hport'] at hport
            cases hport
            rw [hkeep, hrows, hr]
            have hlt : p - 1 < rows.length := by
              by_contra hc
              rw [List.getElem?_eq_none (by omega)] at hr
              cases hr
            rw [List.getElem?_set_self hlt]
            rfl
        · intro hor
          rcases hor with hmem | hnone
          · exact absurd (List.mem_cons_self _ _) hmem
          · rcases hs with ⟨_, hrows⟩ | ⟨port', r, hport', _, _⟩
            · rw [hkeep, hrows]
            · rw [hnone] at hport'; cases hport'
      · have hsame : rows1[sp - 1]? = rows[sp - 1]? := by
          rcases hs with ⟨_, hrows⟩ | ⟨port', r, _, _, hrows⟩
          · rw [hrows]
          · rw [hrows]
            exact List.getElem?_set_ne (by omega)
        constructor
        · intro hmem port hport
          have hmem' : sp ∈ ps := by
            rcases List.mem_cons.mp hmem with h | h
            · exact absurd h.symm hpsp
            · exact h
          rw [ih'.1 hmem' port hport, hsame]
        · intro hor
          have hor' : sp ∉ ps ∨ cud.serialPort sp = none := by
            rcases hor with h | h
            · exact Or.inl (fun c => h (List.mem_cons_of_mem _ c))
            · exact Or.inr h
          rw [ih'.2 hor', hsame]

/-- C13: an assigned serial port `sp` whose row holds `r` before its turn.  After the body
of the serial loop for `sp`, however it ends, and after the whole loop when it ends
normally, the speed of the row is `max r.speed 5` if the port's protocol is DMX and
`r.speed` if it is Renard. -/
theorem serial_speed_floor (om : OutputManager) (cud : UDController)
    (rows : List J1SysSerialOutput) (n sp : Nat) (port : UDControllerPort)
    (r : J1SysSerialOutput)
    (hsp1 : 1 ≤ sp) (hsp2 : sp ≤ n) (hport : cud.serialPort sp = some port)
    (hrow : rows[sp - 1]? = some r) :
    (∃ r', (serialRowsOf (serialStep om cud rows sp))[sp - 1]? = some r' ∧
      (Lower port.protocol = "dmx" → r'.speed = max r.speed 5) ∧
      (Lower port.protocol = "renard" → r'.speed = r.speed)) ∧
    (∀ rows', (List.range' 1 n).foldlM (serialStep om cud) rows = .ok rows' →
      ∃ r', rows'[sp - 1]? = some r' ∧
        (Lower port.protocol = "dmx" → r'.speed = max r.speed 5) ∧
        (Lower port.protocol = "renard" → r'.speed = r.speed)) := by
  have hlt : sp - 1 < rows.length := by
    by_contra hc
    rw [List.getElem?_eq_none (by omega)] at hrow
    cases hrow
  have hdmx : Lower port.protocol = "dmx" → (serialWritten r port).speed = max r.speed 5 := by
    intro h
    have he : EncodeSerialPortProtocol port.protocol = code 'D' := by
      unfold EncodeSerialPortProtocol
      simp only [h, if_true]
    show (if EncodeSerialPortProtocol port.protocol = code 'D' ∧ r.speed < 5 then 5
      else r.speed) = max r.speed 5
    by_cases hlt5 : r.speed < 5
    · rw [if_pos ⟨he, hlt5⟩]; omega
    · rw [if_neg (fun c => hlt5 c.2)]; omega
  have hren : Lower port.protocol = "renard" → (serialWritten r port).speed = r.speed := by
    intro h
    have he : EncodeSerialPortProtocol port.protocol ≠ code 'D' := by
      unfold EncodeSerialPortProtocol
      simp only [h]
      decide
    show (if EncodeSerialPortProtocol port.protocol = code 'D' ∧ r.speed < 5 then 5
      else r.speed) = r.speed
    rw [if_neg (fun c => he c.1)]
  constructor
  · refine ⟨serialWritten r port, ?_, hdmx, hren⟩
    rw [serialStep_rows om cud rows sp port r hport hrow]
    exact List.getElem?_set_self hlt
  · intro rows' h
    have hmem : sp ∈ List.range' 1 n := by
      rw [List.mem_range'_1]; omega
    have := (serialLoop_row om cud (List.range' 1 n) rows rows' (List.nodup_range' 1 n)
      (fun p hp => (List.mem_range'_1.mp hp).1) h sp hsp1).1 hmem port hport
    rw [hrow] at this
    exact ⟨serialWritten r port, this, hdmx, hren⟩

/-- C13 for a DMX port on a fresh row (speed 0): the speed becomes 5. -/
theorem serial_speed_floor_witness :
    ∃ r', (serialRowsOf (serialStep oneUniverse dmxCud (List.replicate 2 {}) 1))[1 - 1]?
        = some r' ∧ r'.speed = 5 := by
  obtain ⟨⟨r', h1, h2, _⟩, _⟩ := serial_speed_floor oneUniverse dmxCud (List.replicate 2 {})
    2 1 ⟨"DMX", 1, 1, 510, []⟩ {} (by decide) (by decide) rfl rfl
  exact ⟨r', h1, by rw [h2 (by decide)]; decide⟩

/-- C20 as stated fails: serial port 1 of `spanningCud` runs from channel 1 of one universe
into the next, its row is inactive before, and at the stop for "more than 1 universe" the
row is active. -/
theorem serial_row_written_counterexample :
    (List.replicate 2 ({} : J1SysSerialOutput))[0]? = some ({} : J1SysSerialOutput) ∧
    ({} : J1SysSerialOutput).active = false ∧
    ∃ stop r, serialStep twoUniverses spanningCud (List.replicate 2 {}) 1 = .error stop ∧
      stop.fault = .moreThanOneUniverse ∧ stop.rows[0]? = some r ∧ r.active = true :=
  ⟨rfl, rfl, _, _, rfl, rfl, rfl, rfl⟩

/-- C20 as amended: when the validation of an assigned serial port fails (start and end
channel in different outputs, or start channel at an offset other than 1), the loop stops
with the reported failure, and at that moment the row of the port in the vector of
`SetOutputs` has been written: it is active, with the protocol code, the speed (raised to 5
for DMX) and the universe of the port, whatever its active flag was before. -/
theorem serial_row_written_before_validation (om : OutputManager) (cud : UDController)
    (rows : List J1SysSerialOutput) (sp : Nat) (port : UDControllerPort)
    (r : J1SysSerialOutput) (hport : cud.serialPort sp = some port)
    (hrow : rows[sp - 1]? = some r)
    (hbad : (om.GetOutput port.startChannel).map (fun x => x.index)
          ≠ (om.GetOutput port.endChannel).map (fun x => x.index) ∨
        ∃ f, om.GetOutput port.startChannel = some f ∧ f.sc ≠ 1) :
    ∃ stop r', serialStep om cud rows sp = .error stop ∧
      (stop.fault = .moreThanOneUniverse ∨ stop.fault = .notChannelOne) ∧
      stop.rows[sp - 1]? = some r' ∧ r'.active = true ∧
      r'.protocol = EncodeSerialPortProtocol port.protocol ∧
      r'.universe_ = port.universe_ ∧
      r'.speed = (if EncodeSerialPortProtocol port.protocol = code 'D' ∧ r.speed < 5 then 5
                  else r.speed) := by
  have hlt : sp - 1 < rows.length := by
    by_contra hc
    rw [List.getElem?_eq_none (by omega)] at hrow
    cases hrow
  have hrows := serialStep_rows om cud rows sp port r hport hrow
  obtain ⟨stop, hstop⟩ := serialStep_invalid om cud rows sp port hport hbad
  rw [hstop] at hrows
  have hrows' : stop.rows = rows.set (sp - 1) (serialWritten r port) := hrows
  refine ⟨stop, serialWritten r port, hstop, ?_,
    by rw [hrows']; exact List.getElem?_set_self hlt, rfl, rfl, rfl, rfl⟩
  unfold serialStep at hstop
  rw [hport] at hstop
  dsimp only at hstop
  rw [hrow] at hstop
  dsimp only at hstop
  split_ifs at hstop
  all_goals first
    | (cases hstop; exact Or.inl rfl)
    | (split at hstop
       · rcases hbad with hb | ⟨f, hf, _⟩
         · contradiction
         · simp_all
       · split_ifs at hstop
         cases hstop
         exact Or.inr rfl)

/-- C20 as amended, on serial port 1 of `spanningCud`. -/
theorem serial_row_written_before_validation_witness :
    ∃ stop r', serialStep twoUniverses spanningCud (List.replicate 2 {}) 1 = .error stop ∧
      stop.rows[1 - 1]? = some r' ∧ r'.active = true := by
  obtain ⟨stop, r', h1, _, h3, h4, _⟩ :=
    serial_row_written_before_validation twoUniverses spanningCud (List.replicate 2 {}) 1
      ⟨"dmx", 1, 1, 600, []⟩ {} rfl rfl (Or.inl (by decide))
  exact ⟨stop, r', h1, h3, h4⟩

/-! ## Runs that cross a universe, and gaps at the end of a bank -/

/-- C18, the code at the failing input: on a 2-output controller (bank size 4) with two
universes of 510 channels, port 1 carrying two contiguous 300-channel models from channel 1
is not allocated.  The second model fills row 0 to the universe boundary (170 pixels) but
its remaining channel count stays 300, so rows 1, 2 and 3 are each started at channel 301
with 70 pixels, the cursor leaves the bank, and the allocation stops with "too many outputs":
`SetOutputs` returns false. -/
theorem contiguous_models_overflow :
    GetBankSize 2 = 4 ∧
    (∃ stop, allocPixel twoUniverses 2 contCud eightRows = .error stop ∧
      stop.fault = .tooManyOutputs ∧ stop.st.output = 4 ∧
      stop.st.rows.map (fun r => (r.active, r.startChannel, r.pixels))
        = [(true, 1, 170), (true, 301, 70), (true, 301, 70), (true, 301, 70),
           (false, 0, 0), (false, 0, 0), (false, 0, 0), (false, 0, 0)]) ∧
    (SetOutputs p2Controller okDevice noMatch twoUniverses twoUniverses contCud).result
      = some false :=
  ⟨rfl, ⟨_, rfl, rfl, rfl, by decide⟩, by decide!⟩

/-- C19, the code at the failing input: on a 12-output controller (bank size 1, rows 0 to
11) with port 12 carrying two models separated by a gap, the second model moves the cursor
to index 12 and line 364 writes `j1SysOutputs[12]` before any bank check: an access outside
port 12's bank [11, 12) and outside the vector of 12 rows. -/
theorem gap_on_last_port_leaves_vector :
    GetBankSize 12 = 1 ∧
    (∃ stop, allocPixel oneUniverse 12 gapLastCud (List.replicate 12 {}) = .error stop ∧
      stop.fault = .outOfRange ∧ stop.st.rows.length = 12 ∧
      stop.st.log.getLast? = some (.cursor 12)) ∧
    (SetOutputs p12Controller okDevice noMatch oneUniverse oneUniverse gapLastCud).result
      = none :=
  ⟨rfl, ⟨_, rfl, rfl, rfl, by decide⟩, by decide!⟩

/-! ## Properties that every access of the allocation keeps -/

theorem modify_cursor_inv {I : List J1SysOutput → List Access → Prop} (hI : Writes I)
    (st : AllocState) (j : Nat) (f : J1SysOutput → J1SysOutput) (h : I st.rows st.log) :
    Post (st.modify (.cursor j) f) (fun s => I s.rows s.log) (fun _ => True) := by
  unfold AllocState.modify
  split
  · rename_i r hr
    exact hI.cursor st.rows st.log j f r h hr
  · trivial

theorem read_inv {I : List J1SysOutput → List Access → Prop} (hI : Writes I)
    (st : AllocState) (a : Access) (h : I st.rows st.log) :
    Post (st.read a) (fun p => I p.2.rows p.2.log) (fun _ => True) := by
  unfold AllocState.read
  split
  · exact hI.access st.rows st.log a h
  · trivial

theorem clearRows_inv {I : List J1SysOutput → List Access → Prop} (hI : Writes I)
    (lo : Nat) : ∀ (count i : Nat) (st : AllocState), I st.rows st.log →
    Post (clearRows lo count i st) (fun s => I s.rows s.log) (fun _ => True) := by
  intro count
  induction count with
  | zero => intro i st h; exact h
  | succ n ih =>
    intro i st h
    unfold clearRows
    refine Post.bind (P := fun s => I s.rows s.log) ?_ (fun s hs => ih (i + 1) s hs)
    unfold AllocState.modify
    split
    · rename_i r hr
      exact hI.clear st.rows st.log (lo + i) r h hr
    · trivial

theorem freshIter_inv {I : List J1SysOutput → List Access → Prop} (hI : Writes I)
    (om : OutputManager) (lo size : Nat) (m : UDControllerPortModel) (channels : Int)
    (st : AllocState) (h : I st.rows st.log) :
    Post (freshIter om lo size m channels st) (fun p => I p.2.rows p.2.log)
      (fun _ => True) := by
  unfold freshIter
  split
  · trivial
  · refine Post.bind (modify_cursor_inv hI st _ _ h) ?_
    intro st1 h1
    refine Post.bind (clearRows_inv hI lo _ _ st1 h1) ?_
    intro st2 h2
    split
    · trivial
    · refine Post.bind (modify_cursor_inv hI st2 _ _ h2) ?_
      intro st3 h3
      split
      · refine Post.bind (modify_cursor_inv hI st3 _ _ h3) ?_
        intro st4 h4
        exact h4
      · refine Post.bind (modify_cursor_inv hI st3 _ _ h3) ?_
        intro st4 h4
        exact h4

theorem freshLoop_inv {I : List J1SysOutput → List Access → Prop} (hI : Writes I)
    (om : OutputManager) (lo size : Nat) (m : UDControllerPortModel) :
    ∀ (fuel : Nat) (channels : Int) (st : AllocState), I st.rows st.log →
    Post (freshLoop om lo size m fuel channels st) (fun s => I s.rows s.log)
      (fun _ => True) := by
  intro fuel
  induction fuel with
  | zero => intro _ st _; trivial
  | succ n ih =>
    intro channels st h
    unfold freshLoop
    split
    · refine Post.bind (freshIter_inv hI om lo size m channels st h) ?_
      intro p hp
      exact ih p.1 p.2 hp
    · exact h

theorem contStart_inv {I : List J1SysOutput → List Access → Prop} (hI : Writes I)
    (o : Found) (lo size : Nat) (st : AllocState) (h : I st.rows st.log) :
    Post (contStart o lo size st) (fun s => I s.rows s.log) (fun _ => True) := by
  unfold contStart
  refine Post.bind (read_inv hI st _ h) ?_
  rintro ⟨r, st1⟩ h1
  dsimp only at h1 ⊢
  split
  · refine Post.bind (modify_cursor_inv hI st1 _ _ h1) ?_
    intro st2 h2
    refine Post.bind (clearRows_inv hI lo _ _ st2 h2) ?_
    intro st3 h3
    refine Post.bind (read_inv hI st3 _ h3) ?_
    rintro ⟨leader, st4⟩ h4
    dsimp only at h4 ⊢
    exact modify_cursor_inv hI st4 _ _ h4
  · exact h1

theorem contIter_inv {I : List J1SysOutput → List Access → Prop} (hI : Writes I)
    (om : OutputManager) (lo size : Nat) (m : UDControllerPortModel) (channels : Int)
    (st : AllocState) (h : I st.rows st.log) :
    Post (contIter om lo size m channels st) (fun p => I p.2.rows p.2.log)
      (fun _ => True) := by
  unfold contIter
  split
  · trivial
  · split
    · trivial
    · refine Post.bind (contStart_inv hI _ lo size st h) ?_
      intro st5 h5
      refine Post.bind (read_inv hI st5 _ h5) ?_
      rintro ⟨r6, st6⟩ h6
      dsimp only at h6 ⊢
      split
      · refine Post.bind (modify_cursor_inv hI st6 _ _ h6) ?_
        intro st7 h7
        exact h7
      · refine Post.bind (modify_cursor_inv hI st6 _ _ h6) ?_
        intro st7 h7
        refine Post.bind (read_inv hI st7 _ h7) ?_
        rintro ⟨r8, st8⟩ h8
        dsimp only at h8 ⊢
        exact h8

theorem contLoop_inv {I : List J1SysOutput → List Access → Prop} (hI : Writes I)
    (om : OutputManager) (lo size : Nat) (m : UDControllerPortModel) :
    ∀ (fuel : Nat) (channels : Int) (st : AllocState), I st.rows st.log →
    Post (contLoop om lo size m fuel channels st) (fun s => I s.rows s.log)
      (fun _ => True) := by
  intro fuel
  induction fuel with
  | zero => intro _ st _; trivial
  | succ n ih =>
    intro channels st h
    unfold contLoop
    split
    · refine Post.bind (contIter_inv hI om lo size m channels st h) ?_
      intro p hp
      exact ih p.1 p.2 hp
    · exact h

theorem gapStep_rows (st : AllocState) (m : UDControllerPortModel) :
    (gapStep st m).rows = st.rows ∧ (gapStep st m).log = st.log := by
  unfold gapStep
  split_ifs <;> exact ⟨rfl, rfl⟩

theorem placeModel_inv {I : List J1SysOutput → List Access → Prop} (hI : Writes I)
    (om : OutputManager) (lo size : Nat) (st : AllocState) (m : UDControllerPortModel)
    (h : I st.rows st.log) :
    Post (placeModel om lo size st m) (fun s => I s.rows s.log) (fun _ => True) := by
  unfold placeModel
  have hg : I (gapStep st m).rows (gapStep st m).log := by
    rw [(gapStep_rows st m).1, (gapStep_rows st m).2]; exact h
  refine Post.bind (modify_cursor_inv hI (gapStep st m) _ _ hg) ?_
  intro st1 h1
  split
  · refine Post.bind (freshLoop_inv hI om lo size m _ _ st1 h1) ?_
    intro st2 h2
    exact h2
  · refine Post.bind (contLoop_inv hI om lo size m _ _ st1 h1) ?_
    intro st2 h2
    exact h2

theorem placeModels_inv {I : List J1SysOutput → List Access → Prop} (hI : Writes I)
    (om : OutputManager) (lo size : Nat) :
    ∀ (ms : List UDControllerPortModel) (st : AllocState), I st.rows st.log →
    Post (ms.foldlM (placeModel om lo size) st) (fun s => I s.rows s.log)
      (fun _ => True) := by
  intro ms
  induction ms with
  | nil => intro st h; exact h
  | cons m ms ih =>
    intro st h
    rw [List.foldlM_cons]
    exact Post.bind (placeModel_inv hI om lo size st m h) (fun s hs => ih s hs)

theorem copyBank_inv {I : List J1SysOutput → List Access → Prop} (hI : Writes I)
    (lo : Nat) : ∀ (count i : Nat) (st : AllocState), I st.rows st.log →
    Post (copyBank lo count i st) (fun s => I s.rows s.log) (fun _ => True) := by
  intro count
  induction count with
  | zero => intro i st h; exact h
  | succ n ih =>
    intro i st h
    unfold copyBank
    refine Post.bind (read_inv hI st _ h) ?_
    rintro ⟨leader, st1⟩ h1
    dsimp only at h1 ⊢
    refine Post.bind (P := fun s => I s.rows s.log) ?_ (fun s hs => ih (i + 1) s hs)
    unfold AllocState.modify
    split
    · rename_i r hr
      exact hI.copy st1.rows st1.log (lo + i) r leader h1 hr
    · trivial

/-- The allocation of rows keeps the size of the vector. -/
theorem length_writes (n : Nat) : Writes (fun rows _ => rows.length = n) :=
  ⟨fun _ _ _ h => h, fun rows _ j f r h _ => by rw [List.length_set]; exact h,
    fun rows _ j r h _ => by rw [List.length_set]; exact h,
    fun rows _ j r l h _ => by rw [List.length_set]; exact h⟩

theorem allocPort_length (om : OutputManager) (size pp : Nat) (port : UDControllerPort)
    (rows : List J1SysOutput) (st : AllocState) (h : allocPort om size pp port rows = .ok st) :
    st.rows.length = rows.length := by
  have hp : Post (allocPort om size pp port rows) (fun s => s.rows.length = rows.length)
      (fun _ => True) := by
    unfold allocPort
    refine Post.bind (placeModels_inv (length_writes rows.length) om _ size port.models
      (portStart size pp rows) rfl) ?_
    intro s1 h1
    exact copyBank_inv (length_writes rows.length) _ _ _ s1 h1
  exact hp.of_eq h

theorem allocSteps_length (om : OutputManager) (size : Nat) (cud : UDController) :
    ∀ (ports : List Nat) (rows rows' : List J1SysOutput),
      ports.foldlM (allocStep om size cud) rows = .ok rows' → rows'.length = rows.length := by
  intro ports
  induction ports with
  | nil => intro rows rows' h; cases h; rfl
  | cons pp ps ih =>
    intro rows rows' h
    rw [List.foldlM_cons] at h
    cases hstep : allocStep om size cud rows pp with
    | error e => rw [hstep] at h; cases h
    | ok mid =>
      rw [hstep] at h
      have hmid : mid.length = rows.length := by
        unfold allocStep at hstep
        split at hstep
        · rename_i port hport
          cases hport' : allocPort om size pp port rows with
          | error e => rw [hport'] at hstep; cases hstep
          | ok st =>
            rw [hport'] at hstep
            cases hstep
            exact allocPort_length om size pp port rows st hport'
        · cases hstep; rfl
      exact (ih mid rows' h).trans hmid

/-! ## The body of the pixel upload -/

theorem BuildStringPort_ne_empty (active : Bool) (string protocol speed startChannel
    universe_ pixels : Int) :
    BuildStringPort active string protocol speed startChannel universe_ pixels ≠ "" := by
  intro h
  have hl := congrArg String.length h
  unfold BuildStringPort at hl
  simp only [String.length_append] at hl
  have h2 : "sA".length = 2 := rfl
  have h0 : "".length = 0 := rfl
  rw [h2, h0] at hl
  omega

theorem append_ne_empty (a b : String) (hb : b ≠ "") : a ++ b ≠ "" := by
  intro h
  have hl := congrArg String.length h
  rw [String.length_append] at hl
  have h0 : "".length = 0 := rfl
  rw [h0] at hl
  have : b.length ≠ 0 := fun hz => hb (String.ext (List.length_eq_zero.mp hz))
  omega

theorem stringRequest_fold : ∀ (rows : List J1SysOutput) (acc : String), acc ≠ "" →
    rows.foldl
      (fun requestString j =>
        (if requestString ≠ "" then requestString ++ "&" else requestString)
          ++ BuildStringPort j.active j.port j.protocol j.speed j.startChannel j.universe_
              j.pixels) acc
    = String.intercalate.go acc "&"
        (rows.map (fun j => BuildStringPort j.active j.port j.protocol j.speed j.startChannel
          j.universe_ j.pixels)) := by
  intro rows
  induction rows with
  | nil => intro acc _; rfl
  | cons j js ih =>
    intro acc hacc
    rw [List.foldl_cons, List.map_cons, String.intercalate.go, if_pos hacc]
    exact ih _ (append_ne_empty _ _ (BuildStringPort_ne_empty _ _ _ _ _ _ _))

/-- The pixel upload body is the row strings joined by "&". -/
theorem stringRequest_join (rows : List J1SysOutput) :
    stringRequest rows
      = "&".intercalate (rows.map (fun j => BuildStringPort j.active j.port j.protocol j.speed
          j.startChannel j.universe_ j.pixels)) := by
  unfold stringRequest
  cases rows with
  | nil => rfl
  | cons j js =>
    rw [List.foldl_cons, List.map_cons, String.intercalate, if_neg (fun h => h rfl),
      String.empty_append]
    exact stringRequest_fold js _ (BuildStringPort_ne_empty _ _ _ _ _ _ _)

/-- After the numbering of lines 465-470 from `port`, the row strings are those of the rows
in order, the row at index `k` with port number `port + k`. -/
theorem numberPorts_map : ∀ (rows : List J1SysOutput) (port : Int),
    (numberPorts rows port).map (fun j => BuildStringPort j.active j.port j.protocol j.speed
        j.startChannel j.universe_ j.pixels)
    = (List.range rows.length).map (fun k =>
        BuildStringPort (rows.getD k {}).active (port + k) (rows.getD k {}).protocol
          (rows.getD k {}).speed (rows.getD k {}).startChannel (rows.getD k {}).universe_
          (rows.getD k {}).pixels) := by
  intro rows
  induction rows with
  | nil => intro _; rfl
  | cons j js ih =>
    intro port
    rw [numberPorts, List.map_cons, ih (port + 1), List.length_cons, List.range_succ_eq_map,
      List.map_cons, List.map_map]
    refine congrArg₂ List.cons ?_ (List.map_congr_left ?_)
    · simp only [List.getD_cons_zero, Nat.cast_zero, add_zero]
    · intro k _
      simp only [Function.comp, List.getD_cons_succ]
      have e : port + 1 + (k : Int) = port + ((k + 1 : Nat) : Int) := by push_cast; ring
      rw [e]

/-- A POST sent by the pixel section carries the body built from the rows that the
allocation ended with. -/
theorem pixel_post_body (j : J1Sys) (dev : Device) (scr : Scraper) (om : OutputManager)
    (cud : UDController) (success : Bool) (req : Request)
    (hreq : req ∈ (pixelSection j dev scr om cud success).2) (hpost : req.method = .POST) :
    ∃ rows, allocPixel om j._outputs cud
        (ReadCurrentConfig (GetBankSize j._outputs)
          (scr.stringRow (dev.respond stringConfigGet)) (dev.respond stringConfigGet)
          (List.replicate (j._outputs * GetBankSize j._outputs) {})) = .ok rows ∧
      req.body = stringRequest (numberPorts rows 0) := by
  have hget : stringConfigGet.method ≠ .POST := by decide
  unfold pixelSection at hreq
  by_cases h1 : success = true ∧ cud.maxPixelPort > 0
  · rw [if_pos h1] at hreq
    dsimp only at hreq
    generalize allocPixel om j._outputs cud _ = res at hreq ⊢
    cases res with
    | error stop =>
      dsimp only at hreq
      rw [List.mem_singleton.mp hreq] at hpost
      exact absurd hpost hget
    | ok rows =>
      dsimp only at hreq
      by_cases h2 : stringRequest (numberPorts rows 0) ≠ ""
      · rw [if_pos h2] at hreq
        rcases List.mem_cons.mp hreq with h | h
        · rw [h] at hpost; exact absurd hpost hget
        · have h' := List.mem_singleton.mp h
          exact ⟨rows, rfl, by rw [h']⟩
      · rw [if_neg h2] at hreq
        rw [List.mem_singleton.mp hreq] at hpost
        exact absurd hpost hget
  · rw [if_neg h1] at hreq
    cases hreq

/-- A request of `SetOutputs` for /protect/stringConfig.htm is a request of its pixel
section. -/
theorem stringConfig_request_mem (j : J1Sys) (dev : Device) (scr : Scraper)
    (om : OutputManager) (outputs : List Output) (cud : UDController) (req : Request)
    (hreq : req ∈ (SetOutputs j dev scr om outputs cud).trace)
    (hurl : req.url = "/protect/stringConfig.htm") :
    req ∈ (pixelSection j dev scr om cud cud.check).2 := by
  have hin := input_trace j dev outputs
  have hnotin : req ∉ (SetInputUniverses j dev outputs).2 := by
    intro h
    have := hin req h
    rw [hurl] at this
    exact absurd this (by decide)
  unfold SetOutputs at hreq
  dsimp only at hreq
  split_ifs at hreq with h0
  · exact absurd hreq hnotin
  · have hsr := fun s => serial_trace j dev scr om cud s
    generalize pixelSection j dev scr om cud cud.check = pixel at hreq ⊢
    obtain ⟨flow, ptrace⟩ := pixel
    dsimp only at hreq ⊢
    cases flow with
    | undefined =>
      rcases List.mem_append.mp hreq with h | h
      · exact absurd h hnotin
      · exact h
    | ret v =>
      rcases List.mem_append.mp hreq with h | h
      · exact absurd h hnotin
      · exact h
    | next s =>
      dsimp only at hreq
      have hs := hsr s
      generalize serialSection j dev scr om cud s = serial at hreq hs
      obtain ⟨sflow, strace⟩ := serial
      dsimp only at hreq hs
      have hne : req ∉ strace := by
        intro h
        have := hs.1 req h
        rw [hurl] at this
        exact absurd this (by decide)
      have hall : req ∈ (SetInputUniverses j dev outputs).2 ++ ptrace ++ strace := by
        cases sflow with
        | undefined => exact hreq
        | ret v => exact hreq
        | next s2 =>
          dsimp only at hreq
          rcases List.mem_append.mp hreq with h | h
          · exact h
          · split_ifs at h
            · rw [List.mem_singleton.mp h] at hurl
              exact absurd hurl (by decide)
            · cases h
      rcases List.mem_append.mp hall with h | h
      · rcases List.mem_append.mp h with h | h
        · exact absurd h hnotin
        · exact h
      · exact absurd h hne

/-- C17: `BuildStringPort` for row index `k` yields
sA<L>=<a>&sT<L>=<protocol char>&sB<L>=<speed>&sU<L>=<universe>&sS<L>=<start channel>&sC<L>=<pixels>
with <L> the character of code 65 + k and <a> 1 for an active row and 0 otherwise (numbers in
decimal, the protocol as the character of its code); and every POST that `SetOutputs` sends to
/protect/stringConfig.htm has as body these strings for the rows 0 to outputs*bankSize - 1
that the allocation ended with, in row order, joined by "&", the row at index `k` with port
number `k`. -/
theorem string_upload_body (j : J1Sys) (dev : Device) (scr : Scraper) (om : OutputManager)
    (outputs : List Output) (cud : UDController) (req : Request)
    (hreq : req ∈ (SetOutputs j dev scr om outputs cud).trace)
    (hpost : req.method = .POST) (hurl : req.url = "/protect/stringConfig.htm") :
    (∀ (k : Nat) (active : Bool) (protocol speed startChannel universe_ pixels : Int),
      BuildStringPort active k protocol speed startChannel universe_ pixels
        = "sA" ++ String.singleton (Char.ofNat (65 + k)) ++ "="
            ++ (if active then "1" else "0")
          ++ "&sT" ++ String.singleton (Char.ofNat (65 + k)) ++ "="
            ++ String.singleton (Char.ofNat protocol.toNat)
          ++ "&sB" ++ String.singleton (Char.ofNat (65 + k)) ++ "=" ++ toString speed
          ++ "&sU" ++ String.singleton (Char.ofNat (65 + k)) ++ "=" ++ toString universe_
          ++ "&sS" ++ String.singleton (Char.ofNat (65 + k)) ++ "=" ++ toString startChannel
          ++ "&sC" ++ String.singleton (Char.ofNat (65 + k)) ++ "=" ++ toString pixels) ∧
    ∃ rows, allocPixel om j._outputs cud
        (ReadCurrentConfig (GetBankSize j._outputs)
          (scr.stringRow (dev.respond stringConfigGet)) (dev.respond stringConfigGet)
          (List.replicate (j._outputs * GetBankSize j._outputs) {})) = .ok rows ∧
      rows.length = j._outputs * GetBankSize j._outputs ∧
      req.body = "&".intercalate ((List.range (j._outputs * GetBankSize j._outputs)).map
        (fun k => BuildStringPort (rows.getD k {}).active k (rows.getD k {}).protocol
          (rows.getD k {}).speed (rows.getD k {}).startChannel (rows.getD k {}).universe_
          (rows.getD k {}).pixels)) := by
  constructor
  · intro k active protocol speed startChannel universe_ pixels
    unfold BuildStringPort formatC formatD
    have e : (65 + (k : Int)).toNat = 65 + k := by omega
    have a : toString (if active = true then (1 : Int) else 0)
        = (if active = true then "1" else "0") := by
      cases active <;> rfl
    simp only [e, a]
  · obtain ⟨rows, halloc, hbody⟩ := pixel_post_body j dev scr om cud cud.check req
      (stringConfig_request_mem j dev scr om outputs cud req hreq hurl) hpost
    have hlen : rows.length = j._outputs * GetBankSize j._outputs := by
      have := allocSteps_length om (GetBankSize j._outputs) cud (List.range' 1 j._outputs) _
        rows halloc
      rw [this, (ReadCurrentConfig_agree _ _ _ _).1]
    refine ⟨rows, halloc, hlen, ?_⟩
    rw [hbody, stringRequest_join, numberPorts_map, hlen]
    simp only [zero_add]

/-- C17 on a 12-output ECG-P12R: the body of the pixel upload is the 12 row strings
joined by "&". -/
theorem string_upload_body_witness :
    ∃ rows, allocPixel oneUniverse 12 fullCud
        (ReadCurrentConfig 1 (noMatch.stringRow "ok") "ok" (List.replicate 12 {})) = .ok rows ∧
      rows.length = 12 ∧
      stringRequest (numberPorts (rowsOf (allocPixel oneUniverse 12 fullCud
          (List.replicate 12 {}))) 0)
        = "&".intercalate ((List.range 12).map
          (fun k => BuildStringPort (rows.getD k {}).active k (rows.getD k {}).protocol
            (rows.getD k {}).speed (rows.getD k {}).startChannel (rows.getD k {}).universe_
            (rows.getD k {}).pixels)) := by
  obtain ⟨_, rows, h1, h2, h3⟩ := string_upload_body p12rController okDevice noMatch
    oneUniverse oneUniverse fullCud
    ⟨.POST, "/protect/stringConfig.htm",
      stringRequest (numberPorts (rowsOf (allocPixel oneUniverse 12 fullCud
        (List.replicate 12 {}))) 0)⟩
    (by decide!) rfl rfl
  exact ⟨rows, h1, h2, h3⟩

/-! ## An empty read of the existing configuration -/

theorem GetBankSize_pos (n : Nat) : 0 < GetBankSize n := by
  unfold GetBankSize
  split_ifs <;> omega

theorem stringRequest_ne_empty (rows : List J1SysOutput) (h : rows ≠ []) :
    stringRequest rows ≠ "" := by
  have hfold : ∀ (js : List J1SysOutput) (acc : String), acc ≠ "" →
      js.foldl
        (fun requestString j =>
          (if requestString ≠ "" then requestString ++ "&" else requestString)
            ++ BuildStringPort j.active j.port j.protocol j.speed j.startChannel j.universe_
                j.pixels) acc ≠ "" := by
    intro js
    induction js with
    | nil => intro acc hacc; exact hacc
    | cons j js ih =>
      intro acc _
      rw [List.foldl_cons]
      exact ih _ (append_ne_empty _ _ (BuildStringPort_ne_empty _ _ _ _ _ _ _))
  cases rows with
  | nil => exact absurd rfl h
  | cons j js =>
    unfold stringRequest
    rw [List.foldl_cons]
    exact hfold js _ (append_ne_empty _ _ (BuildStringPort_ne_empty _ _ _ _ _ _ _))

theorem numberPorts_ne_nil (rows : List J1SysOutput) (port : Int) (h : rows ≠ []) :
    numberPorts rows port ≠ [] := by
  cases rows with
  | nil => exact absurd rfl h
  | cons j js => rw [numberPorts]; exact List.cons_ne_nil _ _

/-- C15 as stated fails: with a device that answers the read of the existing pixel
configuration with an empty body, `SetOutputs` on a 12-output ECG-P12R returns true
and has sent a POST to /protect/stringConfig.htm. -/
theorem empty_read_counterexample :
    emptyReadDevice.respond stringConfigGet = "" ∧
    (SetOutputs p12rController emptyReadDevice noMatch oneUniverse oneUniverse fullCud).result
      = some true ∧
    ∃ req ∈ (SetOutputs p12rController emptyReadDevice noMatch oneUniverse oneUniverse
        fullCud).trace,
      req.method = .POST ∧ req.url = "/protect/stringConfig.htm" :=
  ⟨by decide, by decide!,
    ⟨.POST, "/protect/stringConfig.htm",
      stringRequest (numberPorts (rowsOf (allocPixel oneUniverse 12 fullCud
        (List.replicate 12 {}))) 0)⟩, by decide!, rfl, rfl⟩

/-- C15 as amended: when the read of the existing pixel configuration returns an empty body,
`ReadCurrentConfig` leaves the vector as constructed and the session does not abort at that
step: the pixel section (entered after a successful input configuration and check, with a
pixel port in use, on a controller with at least one output) runs the allocation on that
vector and, when the allocation completes, sends the pixel upload POST with the body built
from it and goes on with the flag that the answer to that POST decides. -/
theorem empty_read_does_not_abort (j : J1Sys) (dev : Device) (scr : Scraper)
    (om : OutputManager) (outputs : List Output) (cud : UDController)
    (rows : List J1SysOutput)
    (hin : (SetInputUniverses j dev outputs).1 = true) (hcheck : cud.check = true)
    (hmax : 0 < cud.maxPixelPort) (hout : 0 < j._outputs)
    (hempty : dev.respond stringConfigGet = "")
    (halloc : allocPixel om j._outputs cud
      (List.replicate (j._outputs * GetBankSize j._outputs) {}) = .ok rows) :
    ReadCurrentConfig (GetBankSize j._outputs) (scr.stringRow (dev.respond stringConfigGet))
        (dev.respond stringConfigGet) (List.replicate (j._outputs * GetBankSize j._outputs) {})
      = List.replicate (j._outputs * GetBankSize j._outputs) {} ∧
    pixelSection j dev scr om cud cud.check
      = (.next (if dev.respond ⟨.POST, "/protect/stringConfig.htm",
                    stringRequest (numberPorts rows 0)⟩ = "" then false else true),
         [stringConfigGet,
          ⟨.POST, "/protect/stringConfig.htm", stringRequest (numberPorts rows 0)⟩]) ∧
    (⟨.POST, "/protect/stringConfig.htm", stringRequest (numberPorts rows 0)⟩ : Request)
      ∈ (SetOutputs j dev scr om outputs cud).trace := by
  have hread : ReadCurrentConfig (GetBankSize j._outputs)
      (scr.stringRow (dev.respond stringConfigGet)) (dev.respond stringConfigGet)
      (List.replicate (j._outputs * GetBankSize j._outputs) {})
      = List.replicate (j._outputs * GetBankSize j._outputs) {} := by
    unfold ReadCurrentConfig
    rw [if_neg (fun h => h hempty)]
  have hlen : rows.length = j._outputs * GetBankSize j._outputs := by
    have := allocSteps_length om (GetBankSize j._outputs) cud (List.range' 1 j._outputs) _
      rows halloc
    rw [this, List.length_replicate]
  have hne : rows ≠ [] := by
    intro h
    rw [h] at hlen
    have := Nat.mul_pos hout (GetBankSize_pos j._outputs)
    simp only [List.length_nil] at hlen
    omega
  have hreq : stringRequest (numberPorts rows 0) ≠ "" :=
    stringRequest_ne_empty _ (numberPorts_ne_nil rows 0 hne)
  have hpix : pixelSection j dev scr om cud cud.check
      = (.next (if dev.respond ⟨.POST, "/protect/stringConfig.htm",
                    stringRequest (numberPorts rows 0)⟩ = "" then false else true),
         [stringConfigGet,
          ⟨.POST, "/protect/stringConfig.htm", stringRequest (numberPorts rows 0)⟩]) := by
    unfold pixelSection
    rw [if_pos ⟨hcheck, hmax⟩]
    dsimp only
    rw [hread, halloc]
    dsimp only
    rw [if_pos hreq, hcheck]
  refine ⟨hread, hpix, ?_⟩
  unfold SetOutputs
  dsimp only
  rw [if_neg (by rw [hin]; exact Bool.noConfusion), hpix]
  dsimp only
  generalize serialSection j dev scr om cud _ = serial
  obtain ⟨sflow, strace⟩ := serial
  cases sflow <;> simp

/-- C15 as amended, on a 12-output ECG-P12R with `emptyReadDevice`. -/
theorem empty_read_does_not_abort_witness :
    (⟨.POST, "/protect/stringConfig.htm",
        stringRequest (numberPorts (rowsOf (allocPixel oneUniverse 12 fullCud
          (List.replicate 12 {}))) 0)⟩ : Request)
      ∈ (SetOutputs p12rController emptyReadDevice noMatch oneUniverse oneUniverse
          fullCud).trace :=
  (empty_read_does_not_abort p12rController emptyReadDevice noMatch oneUniverse oneUniverse
    fullCud (rowsOf (allocPixel oneUniverse 12 fullCud (List.replicate 12 {})))
    (by decide!) rfl (by decide) (by decide) (by decide) rfl).2.2

/-! ## Rows that no span was written to -/

theorem unwritten_writes (lo hi : Nat) : Writes (UnwrittenUnused lo hi) := by
  refine ⟨?_, ?_, ?_, ?_⟩
  · intro rows log a h k h1 h2 hk r hr
    exact h k h1 h2 (fun hc => hk (List.mem_append.mpr (Or.inl hc))) r hr
  · intro rows log j f r0 h hj k h1 h2 hk r hr
    have hne : j ≠ k := by
      intro e
      subst e
      exact hk (List.mem_append.mpr (Or.inr (List.mem_singleton.mpr rfl)))
    rw [List.getElem?_set_ne hne] at hr
    exact h k h1 h2 (fun hc => hk (List.mem_append.mpr (Or.inl hc))) r hr
  · intro rows log j r0 h hj k h1 h2 hk r hr
    by_cases e : j = k
    · subst e
      have hlt : j < rows.length := by
        by_contra hc
        rw [List.getElem?_eq_none (by omega)] at hj
        cases hj
      rw [List.getElem?_set_self hlt] at hr
      cases hr
      exact ⟨rfl, rfl, rfl, rfl⟩
    · rw [List.getElem?_set_ne e] at hr
      exact h k h1 h2 (fun hc => hk (List.mem_append.mpr (Or.inl hc))) r hr
  · intro rows log j r0 l h hj k h1 h2 hk r hr
    by_cases e : j = k
    · subst e
      have hlt : j < rows.length := by
        by_contra hc
        rw [List.getElem?_eq_none (by omega)] at hj
        cases hj
      rw [List.getElem?_set_self hlt] at hr
      cases hr
      exact h j h1 h2 (fun hc => hk (List.mem_append.mpr (Or.inl hc))) r0 hj
    · rw [List.getElem?_set_ne e] at hr
      exact h k h1 h2 (fun hc => hk (List.mem_append.mpr (Or.inl hc))) r hr

theorem modify_log (st : AllocState) (a : Access) (f : J1SysOutput → J1SysOutput) :
    Post (st.modify a f)
      (fun s => s.output = st.output ∧ s.lastEnd = st.lastEnd ∧ s.log = st.log ++ [a] ∧
        ∀ k, k ≠ a.index → s.rows[k]? = st.rows[k]?)
      (fun _ => True) := by
  unfold AllocState.modify
  split
  · exact ⟨rfl, rfl, rfl, fun k hk => List.getElem?_set_ne (Ne.symm hk)⟩
  · trivial

/-- The clearing loop leaves the rows `bankStart + i` up to `bankStart + i + count - 1`
unused, keeps the rows before them and `output`, and only adds to the access record. -/
theorem clearRows_unused (lo : Nat) : ∀ (count i : Nat) (st : AllocState),
    Post (clearRows lo count i st)
      (fun s => s.output = st.output ∧ (∀ a ∈ st.log, a ∈ s.log) ∧
        (∀ k, k < lo + i → s.rows[k]? = st.rows[k]?) ∧
        ∀ k, lo + i ≤ k → k < lo + i + count → ∀ r, s.rows[k]? = some r → Unused r)
      (fun _ => True) := by
  intro count
  induction count with
  | zero =>
    intro i st
    exact ⟨rfl, fun _ h => h, fun _ _ => rfl, fun k h1 h2 => by omega⟩
  | succ n ih =>
    intro i st
    unfold clearRows
    refine Post.bind
      (P := fun s => s.output = st.output ∧ (∀ a ∈ st.log, a ∈ s.log) ∧
        (∀ k, k < lo + i → s.rows[k]? = st.rows[k]?) ∧
        ∀ r, s.rows[lo + i]? = some r → Unused r) ?_ ?_
    · unfold AllocState.modify
      split
      · rename_i r0 hr0
        have hlt : lo + i < st.rows.length := by
          by_contra hc
          simp only [Access.index] at hr0
          rw [List.getElem?_eq_none (by omega)] at hr0
          cases hr0
        refine ⟨rfl, fun a ha => List.mem_append.mpr (Or.inl ha), ?_, ?_⟩
        · intro k hk
          simp only [Access.index]
          exact List.getElem?_set_ne (by omega)
        · intro r hr
          simp only [Access.index] at hr
          rw [List.getElem?_set_self hlt] at hr
          cases hr
          exact ⟨rfl, rfl, rfl, rfl⟩
      · trivial
    · intro s1 h1
      refine Post.mono (ih (i + 1) s1) ?_ (fun _ h => h)
      intro s2 h2
      refine ⟨h2.1.trans h1.1, fun a ha => h2.2.1 a (h1.2.1 a ha), ?_, ?_⟩
      · intro k hk
        rw [h2.2.2.1 k (by omega), h1.2.2.1 k hk]
      · intro k hk1 hk2 r hr
        by_cases e : k = lo + i
        · subst e
          rw [h2.2.2.1 _ (by omega)] at hr
          exact h1.2.2.2 r hr
        · exact h2.2.2.2 k (by omega) (by omega) r hr

/-- The first pass of the loop of lines 370-403 on a port, with `output` at the first row of
the bank: after it every row of the bank that no span has been written to is unused. -/
theorem freshIter_first (om : OutputManager) (size pp : Nat) (m : UDControllerPortModel)
    (channels : Int) (st : AllocState) (hout : st.output = (pp - 1) * size) :
    Post (freshIter om ((pp - 1) * size) size m channels st)
      (fun p => UnwrittenUnused ((pp - 1) * size) ((pp - 1) * size + size) p.2.rows p.2.log)
      (fun _ => True) := by
  have hI := unwritten_writes ((pp - 1) * size) ((pp - 1) * size + size)
  unfold freshIter
  split
  · trivial
  · rename_i hlt
    have hs : 0 < size := by omega
    refine Post.bind (modify_log st _ _) ?_
    intro st1 h1
    have hmod : st1.output % size + 1 = 1 := by
      rw [h1.1, hout, Nat.mul_mod_left]
    rw [hmod]
    refine Post.bind (clearRows_unused ((pp - 1) * size) (size - 1) 1 st1) ?_
    intro st2 h2
    have hQ : UnwrittenUnused ((pp - 1) * size) ((pp - 1) * size + size) st2.rows st2.log := by
      intro k hk1 hk2 hk r hr
      by_cases e : k = (pp - 1) * size
      · exfalso
        apply hk
        apply h2.2.1
        rw [h1.2.2.1, e, ← hout]
        exact List.mem_append.mpr (Or.inr (List.mem_singleton.mpr rfl))
      · exact h2.2.2.2 k (by omega) (by omega) r hr
    split
    · trivial
    · refine Post.bind (modify_cursor_inv hI st2 _ _ hQ) ?_
      intro st3 h3
      split
      · refine Post.bind (modify_cursor_inv hI st3 _ _ h3) ?_
        intro st4 h4
        exact h4
      · refine Post.bind (modify_cursor_inv hI st3 _ _ h3) ?_
        intro st4 h4
        exact h4

/-- The allocation of a port whose first model has at least one channel: when it ends
without a stop, every row of the port's bank that no span was written to is unused. -/
theorem allocPort_unwritten (om : OutputManager) (size pp : Nat) (port : UDControllerPort)
    (rows : List J1SysOutput) (m : UDControllerPortModel) (ms : List UDControllerPortModel)
    (hmodels : port.models = m :: ms) (hch : 0 < m.Channels) :
    Post (allocPort om size pp port rows)
      (fun s => UnwrittenUnused ((pp - 1) * size) ((pp - 1) * size + size) s.rows s.log)
      (fun _ => True) := by
  have hI := unwritten_writes ((pp - 1) * size) ((pp - 1) * size + size)
  unfold allocPort
  dsimp only
  rw [hmodels, List.foldlM_cons]
  refine Post.bind (P := fun (s : AllocState) =>
    UnwrittenUnused ((pp - 1) * size) ((pp - 1) * size + size) s.rows s.log) ?_
    (fun s hs => copyBank_inv hI _ _ _ s hs)
  refine Post.bind (P := fun (s : AllocState) =>
    UnwrittenUnused ((pp - 1) * size) ((pp - 1) * size + size) s.rows s.log) ?_
    (fun s hs => placeModels_inv hI om _ size ms s hs)
  unfold placeModel
  have hg : gapStep (portStart size pp rows) m = portStart size pp rows := by
    unfold gapStep
    rw [if_neg (fun h => h.1 rfl)]
  rw [hg]
  refine Post.bind (modify_log (portStart size pp rows) _ _) ?_
  intro st1 h1
  have hle : st1.lastEnd = -1 := h1.2.1
  have hout : st1.output = (pp - 1) * size := h1.1
  rw [if_pos hle]
  have hfuel : loopFuel ((pp - 1) * size) size st1.output
      = ((pp - 1) * size + size - st1.output) + 1 := rfl
  rw [hfuel, freshLoop, if_pos hch]
  refine Post.bind (P := fun (s : AllocState) =>
    UnwrittenUnused ((pp - 1) * size) ((pp - 1) * size + size) s.rows s.log) ?_
    (fun s hs => hs)
  refine Post.bind (freshIter_first om size pp m m.Channels st1 hout) ?_
  intro p hp
  exact freshLoop_inv hI om _ size m _ p.1 p.2 hp

/-- The banks of two different ports have no row in common. -/
theorem banks_disjoint (size pp p k : Nat) (h1 : 1 ≤ pp) (h2 : 1 ≤ p) (hne : pp ≠ p)
    (hk1 : (pp - 1) * size ≤ k) (hk2 : k < (pp - 1) * size + size) :
    k < (p - 1) * size ∨ (p - 1) * size + size ≤ k := by
  rcases Nat.lt_or_gt_of_ne hne with h | h
  · left
    have e : (pp - 1) * size + size = (pp - 1 + 1) * size := by rw [Nat.succ_mul]
    have : (pp - 1 + 1) * size ≤ (p - 1) * size := Nat.mul_le_mul_right _ (by omega)
    omega
  · right
    have e : (p - 1) * size + size = (p - 1 + 1) * size := by rw [Nat.succ_mul]
    have : (p - 1 + 1) * size ≤ (pp - 1) * size := Nat.mul_le_mul_right _ (by omega)
    omega

/-- The allocation of one port, when every model has at least one channel and it ends
without a stop, changes rows of the port's bank only. -/
theorem allocPort_frame (om : OutputManager) (size pp : Nat) (hs : 0 < size)
    (port : UDControllerPort) (rows : List J1SysOutput) (st : AllocState)
    (hpos : ∀ m ∈ port.models, 0 < m.Channels)
    (h : allocPort om size pp port rows = .ok st) :
    ∀ j, (j < (pp - 1) * size ∨ (pp - 1) * size + size ≤ j) → st.rows[j]? = rows[j]? := by
  have hp : Post (allocPort om size pp port rows)
      (fun s => Step ((pp - 1) * size) ((pp - 1) * size + size) (portStart size pp rows) s)
      (fun _ => True) := by
    unfold allocPort
    refine Post.bind (placeModels_post om _ size port.models (portStart size pp rows)
      (le_refl _)) ?_
    intro s1 h1
    have h1s := h1.2 hpos
    refine Post.mono (copyBank_post ((pp - 1) * size) ((pp - 1) * size + size) (size - 1) 1 s1
      (le_trans (le_refl _) h1.1) (le_refl _) (by omega)) ?_ (fun _ h => h)
    intro s2 h2
    exact h1s.trans h2.1
  exact (hp.of_eq h).frame (le_refl _)

/-- The allocation of a list of ports leaves the bank of port `pp` as it was when every
port of the list is another port or has no assignment. -/
theorem allocSteps_frame (om : OutputManager) (size : Nat) (hs : 0 < size)
    (cud : UDController)
    (hpos : ∀ pp port, cud.pixelPort pp = some port → ∀ m ∈ port.models, 0 < m.Channels)
    (pp : Nat) (hpp : 1 ≤ pp) :
    ∀ (ports : List Nat) (rows rows' : List J1SysOutput),
      (∀ p ∈ ports, 1 ≤ p ∧ (pp ≠ p ∨ cud.pixelPort p = none)) →
      ports.foldlM (allocStep om size cud) rows = .ok rows' →
      ∀ k, (pp - 1) * size ≤ k → k < (pp - 1) * size + size → rows'[k]? = rows[k]? := by
  intro ports
  induction ports with
  | nil => intro rows rows' _ h; cases h; exact fun _ _ _ => rfl
  | cons p ps ih =>
    intro rows rows' hps h k hk1 hk2
    rw [List.foldlM_cons] at h
    cases hstep : allocStep om size cud rows p with
    | error e => rw [hstep] at h; cases h
    | ok mid =>
      rw [hstep] at h
      rw [ih mid rows' (fun q hq => hps q (List.mem_cons_of_mem _ hq)) h k hk1 hk2]
      obtain ⟨hp1, hp2⟩ := hps p (List.mem_cons_self _ _)
      unfold allocStep at hstep
      split at hstep
      · rename_i port hport
        cases hport' : allocPort om size p port rows with
        | error e => rw [hport'] at hstep; cases hstep
        | ok st =>
          rw [hport'] at hstep
          cases hstep
          rcases hp2 with hne | hnone
          · exact allocPort_frame om size p hs port rows st (hpos p port hport) hport' k
              (banks_disjoint size pp p k hpp hp1 hne hk1 hk2)
          · rw [hport] at hnone; cases hnone
      · cases hstep; rfl

theorem foldlM_split {α β ε : Type} (f : β → α → Except ε β) :
    ∀ (pre : List α) (p : α) (post : List α) (b b' : β),
      (pre ++ p :: post).foldlM f b = .ok b' →
      ∃ mid mid', pre.foldlM f b = .ok mid ∧ f mid p = .ok mid' ∧
        post.foldlM f mid' = .ok b' := by
  intro pre
  induction pre with
  | nil =>
    intro p post b b' h
    rw [List.nil_append, List.foldlM_cons] at h
    cases hp : f b p with
    | error e => rw [hp] at h; cases h
    | ok mid' =>
      rw [hp] at h
      exact ⟨b, mid', rfl, hp, h⟩
  | cons q qs ih =>
    intro p post b b' h
    rw [List.cons_append, List.foldlM_cons] at h
    cases hq : f b q with
    | error e => rw [hq] at h; cases h
    | ok b1 =>
      rw [hq] at h
      obtain ⟨mid, mid', h1, h2, h3⟩ := ih p post b1 b' h
      refine ⟨mid, mid', ?_, h2, h3⟩
      rw [List.foldlM_cons, hq]
      exact h1

theorem ports_split (n pp : Nat) (h1 : 1 ≤ pp) (h2 : pp ≤ n) :
    List.range' 1 n = List.range' 1 (pp - 1) ++ pp :: List.range' (pp + 1) (n - pp) := by
  have e : pp :: List.range' (pp + 1) (n - pp) = List.range' (1 + (pp - 1)) (n - pp + 1) := by
    rw [List.range'_succ]
    have : 1 + (pp - 1) = pp := by omega
    rw [this]
  rw [e, List.range'_append_1]
  congr 1
  omega

/-- C16 as stated fails: on a 2-output controller whose page reports every row in use, with
port 1 carrying one model and port 2 without assignment, the allocation completes and row 4
(first row of the bank of port 2, to which no span was written) is still active on universe
5 from channel 1 with 10 pixels, as read back. -/
theorem unassigned_bank_counterexample :
    longCud.pixelPort 2 = none ∧
    ∃ rows' r, allocPixel twoUniverses 2 longCud
        (ReadCurrentConfig (GetBankSize 2) (busyScraper.stringRow "ok") "ok"
          (List.replicate (2 * GetBankSize 2) {})) = .ok rows' ∧
      rows'[4]? = some r ∧ r.active = true ∧ r.universe_ = 5 ∧ r.startChannel = 1 ∧
      r.pixels = 10 :=
  ⟨rfl, _, _, rfl, rfl, rfl, rfl, rfl, rfl⟩

/-- C16 as amended: after the pixel allocation completes without error (every model having
at least one channel), in the bank of a port that has an assignment with at least one model,
every row that no model span wrote to (no access `j1SysOutputs[output]` of the port's
allocation names it) is inactive and has universe 0, start channel 0 and pixel count 0,
whatever the vector held before; the rows of the bank of a port without assignment are as
they were before the allocation, that is as read back from the device.  Here `mid` is the
vector when the loop reaches port `pp` and `st` the variables at the end of the port. -/
theorem unwritten_rows_unused (om : OutputManager) (n : Nat) (cud : UDController)
    (rows rows' : List J1SysOutput) (pp : Nat)
    (hpos : ∀ p port, cud.pixelPort p = some port → ∀ m ∈ port.models, 0 < m.Channels)
    (h : allocPixel om n cud rows = .ok rows') (h1 : 1 ≤ pp) (h2 : pp ≤ n) :
    (cud.pixelPort pp = none →
      ∀ k, (pp - 1) * GetBankSize n ≤ k → k < (pp - 1) * GetBankSize n + GetBankSize n →
        rows'[k]? = rows[k]?) ∧
    (∀ port, cud.pixelPort pp = some port → port.models ≠ [] →
      ∃ mid st,
        (List.range' 1 (pp - 1)).foldlM (allocStep om (GetBankSize n) cud) rows = .ok mid ∧
        allocPort om (GetBankSize n) pp port mid = .ok st ∧
        ∀ k, (pp - 1) * GetBankSize n ≤ k → k < (pp - 1) * GetBankSize n + GetBankSize n →
          mid[k]? = rows[k]? ∧ rows'[k]? = st.rows[k]? ∧
          (Access.cursor k ∉ st.log → ∀ r, rows'[k]? = some r →
            r.active = false ∧ r.universe_ = 0 ∧ r.startChannel = 0 ∧ r.pixels = 0)) := by
  have hs := GetBankSize_pos n
  unfold allocPixel at h
  rw [ports_split n pp h1 h2] at h
  obtain ⟨mid, mid', hpre, hstep, hpost⟩ :=
    foldlM_split (allocStep om (GetBankSize n) cud) _ _ _ _ _ h
  have hmid := allocSteps_frame om (GetBankSize n) hs cud hpos pp h1
    (List.range' 1 (pp - 1)) rows mid
    (fun p hp => by
      have := List.mem_range'_1.mp hp
      exact ⟨this.1, Or.inl (by omega)⟩) hpre
  have hlast := allocSteps_frame om (GetBankSize n) hs cud hpos pp h1
    (List.range' (pp + 1) (n - pp)) mid' rows'
    (fun p hp => by
      have := List.mem_range'_1.mp hp
      exact ⟨by omega, Or.inl (by omega)⟩) hpost
  constructor
  · intro hnone k hk1 hk2
    unfold allocStep at hstep
    rw [hnone] at hstep
    dsimp only at hstep
    cases hstep
    rw [hlast k hk1 hk2, hmid k hk1 hk2]
  · intro port hport hne
    unfold allocStep at hstep
    rw [hport] at hstep
    dsimp only at hstep
    cases hrun : allocPort om (GetBankSize n) pp port mid with
    | error e => rw [hrun] at hstep; cases hstep
    | ok st =>
      rw [hrun] at hstep
      cases hstep
      refine ⟨mid, st, hpre, hrun, ?_⟩
      intro k hk1 hk2
      refine ⟨hmid k hk1 hk2, hlast k hk1 hk2, ?_⟩
      intro hk r hr
      cases hm : port.models with
      | nil => exact absurd hm hne
      | cons m ms =>
        have hch : 0 < m.Channels := hpos pp port hport m (by rw [hm]; exact List.mem_cons_self _ _)
        have hQ := (allocPort_unwritten om (GetBankSize n) pp port mid m ms hm hch).of_eq hrun
        rw [hlast k hk1 hk2] at hr
        exact hQ k hk1 hk2 hk r hr

/-- C16 as amended, on the 2-output controller of the counterexample: the bank of port 2,
which has no assignment, is as read back, and row 3, in the bank of port 1 and reported in
use by the page, is unused after the allocation. -/
theorem unwritten_rows_unused_witness :
    (∀ k, 4 ≤ k → k < 8 →
      (rowsOf (allocPixel twoUniverses 2 longCud
        (ReadCurrentConfig 4 (busyScraper.stringRow "ok") "ok" eightRows)))[k]?
      = (ReadCurrentConfig 4 (busyScraper.stringRow "ok") "ok" eightRows)[k]?) ∧
    ∀ r, (rowsOf (allocPixel twoUniverses 2 longCud
        (ReadCurrentConfig 4 (busyScraper.stringRow "ok") "ok" eightRows)))[3]? = some r →
      r.active = false ∧ r.universe_ = 0 ∧ r.startChannel = 0 ∧ r.pixels = 0 := by
  have hpos : ∀ p port, longCud.pixelPort p = some port → ∀ m ∈ port.models,
      0 < m.Channels := by
    intro p port hp m hm
    have hport : port = longPort := by
      unfold longCud at hp
      by_cases h1 : p = 1
      · simp only [h1, if_true] at hp; exact (Option.some.inj hp).symm
      · simp only [h1, if_false] at hp; cases hp
    subst hport
    have : m = ⟨"ws2811", 1, 600⟩ := by simpa [longPort] using hm
    subst this
    decide
  constructor
  · exact (unwritten_rows_unused twoUniverses 2 longCud
      (ReadCurrentConfig 4 (busyScraper.stringRow "ok") "ok" eightRows)
      (rowsOf (allocPixel twoUniverses 2 longCud
        (ReadCurrentConfig 4 (busyScraper.stringRow "ok") "ok" eightRows))) 2
      hpos rfl (by decide) (by decide)).1 rfl
  · obtain ⟨mid, st, hpre, hrun, hk⟩ := (unwritten_rows_unused twoUniverses 2 longCud
      (ReadCurrentConfig 4 (busyScraper.stringRow "ok") "ok" eightRows)
      (rowsOf (allocPixel twoUniverses 2 longCud
        (ReadCurrentConfig 4 (busyScraper.stringRow "ok") "ok" eightRows))) 1
      hpos rfl (by decide) (by decide)).2 longPort rfl (by decide)
    have hmid : mid = ReadCurrentConfig 4 (busyScraper.stringRow "ok") "ok" eightRows :=
      (Except.ok.inj hpre).symm
    subst hmid
    have hst : st = finalState (allocPort twoUniverses (GetBankSize 2) 1 longPort
        (ReadCurrentConfig 4 (busyScraper.stringRow "ok") "ok" eightRows)) := by
      rw [hrun]; rfl
    subst hst
    exact (hk 3 (by decide) (by decide)).2.2 (by decide)

/-! ## Servo: property changes and Init -/

/-- C21, the code at the failing input: a change of the property Servo1MinLimit to 100 on a
node that stores MinLimit="5" is handled (return value 0) by writing the attribute
DmxServoMinLimit="100" and leaving MinLimit="5", and the following `Init`, which reads
MinLimit, sets `min_limit` to 5, not 100.  The same change of Channel, MaxLimit and
RangeOfMotion is read back by `Init`. -/
theorem min_limit_change_not_read_back :
    (storedServo.OnPropertyGridChange plainFloatText ⟨"Servo1MinLimit", 100, 0⟩).ret = 0 ∧
    (storedServo.OnPropertyGridChange plainFloatText
        ⟨"Servo1MinLimit", 100, 0⟩).servo.node_xml
      = ⟨[("Channel", "3"), ("MinLimit", "5"), ("MaxLimit", "60000"),
          ("RangeOfMotion", "90"), ("DmxServoMinLimit", "100")]⟩ ∧
    ((storedServo.OnPropertyGridChange plainFloatText
        ⟨"Servo1MinLimit", 100, 0⟩).servo.Init plainFloatText).min_limit = 5 ∧
    ((storedServo.OnPropertyGridChange plainFloatText
        ⟨"Servo1Channel", 100, 0⟩).servo.Init plainFloatText).channel = 100 ∧
    ((storedServo.OnPropertyGridChange plainFloatText
        ⟨"Servo1MaxLimit", 100, 0⟩).servo.Init plainFloatText).max_limit = 100 ∧
    ((storedServo.OnPropertyGridChange plainFloatText
        ⟨"Servo1RangeOfMotion", 100, 0⟩).servo.Init plainFloatText).range_of_motion = 100 := by
  refine ⟨by decide, by decide, by decide, by decide, by decide, by decide⟩

/-! ## ElementEffects: positions accessed -/

/-- C22, the code at the failing input: with one effect in the list and index 0 (so
0 <= index < Effects.size()), `IsStartTimeLinked` accesses `Effects[index-1]`, position
2^64 - 1 after conversion, and `IsEndTimeLinked` accesses `Effects[index+1]`, position 1;
both are outside [0, 1) and the calls have undefined behaviour. -/
theorem linked_tests_read_outside :
    (0 : Int) ≤ 0 ∧ (0 : Int) < oneEffect.length ∧
    (IsStartTimeLinked oneEffect 0).accesses = [2 ^ 64 - 1, 0] ∧
    (IsStartTimeLinked oneEffect 0).result = none ∧
    (IsEndTimeLinked oneEffect 0).accesses = [0, 1] ∧
    (IsEndTimeLinked oneEffect 0).result = none ∧
    ¬ (∀ p ∈ (IsStartTimeLinked oneEffect 0).accesses, p < oneEffect.length) ∧
    ¬ (∀ p ∈ (IsEndTimeLinked oneEffect 0).accesses, p < oneEffect.length) := by
  refine ⟨by decide, by decide, by decide, by decide, by decide, by decide, ?_, ?_⟩
  · intro h
    exact absurd (h (2 ^ 64 - 1) (by decide)) (by decide)
  · intro h
    exact absurd (h 1 (by decide)) (by decide)

/-- The two time-limit queries stay inside the vector: for every effect list (of a size
that `size_t` holds) and every index with 0 <= index < Effects.size(), every position that
`GetMaximumEndTime` and `GetMinimumStartTime` access is below Effects.size() and both return
a value. -/
theorem limit_queries_in_range (c : Int) (Effects : List Effect_Struct) (index : Int)
    (hsize : Effects.length < 2 ^ 64) (h0 : 0 ≤ index) (h1 : index < Effects.length) :
    (∀ p ∈ (GetMaximumEndTime c Effects index).accesses, p < Effects.length) ∧
    (GetMaximumEndTime c Effects index).result ≠ none ∧
    (∀ p ∈ (GetMinimumStartTime c Effects index).accesses, p < Effects.length) ∧
    (GetMinimumStartTime c Effects index).result ≠ none := by
  have hconv : ∀ i : Int, 0 ≤ i → i < 2 ^ 64 → toSizeT i = i.toNat := by
    intro i hi1 hi2
    unfold toSizeT
    rw [Int.emod_eq_of_lt hi1 hi2]
  have hlen : ((Effects.length : Int)) < 2 ^ 64 := by exact_mod_cast hsize
  have hmax : (∀ p ∈ (GetMaximumEndTime c Effects index).accesses, p < Effects.length) ∧
      (GetMaximumEndTime c Effects index).result ≠ none := by
    unfold GetMaximumEndTime
    split
    · exact ⟨fun p hp => (by cases hp), (by simp)⟩
    · rename_i hne
      rw [hconv index h0 (by omega), hconv _ (by omega) (by omega)] at hne
      have hlt : (index + 1).toNat < Effects.length := by omega
      rw [hconv (index + 1) (by omega) (by omega)]
      refine ⟨fun p hp => (by rw [List.mem_singleton.mp hp]; exact hlt), ?_⟩
      rw [List.getElem?_eq_getElem hlt]
      simp
  have hmin : (∀ p ∈ (GetMinimumStartTime c Effects index).accesses, p < Effects.length) ∧
      (GetMinimumStartTime c Effects index).result ≠ none := by
    unfold GetMinimumStartTime
    split
    · exact ⟨fun p hp => (by cases hp), (by simp)⟩
    · rename_i hne
      have hlt : (index - 1).toNat < Effects.length := by omega
      rw [hconv (index - 1) (by omega) (by omega)]
      refine ⟨fun p hp => (by rw [List.mem_singleton.mp hp]; exact hlt), ?_⟩
      rw [List.getElem?_eq_getElem hlt]
      simp
  exact ⟨hmax.1, hmax.2, hmin.1, hmin.2⟩

/-- Away from the two ends the link tests stay inside the vector: `IsStartTimeLinked` for
1 <= index < Effects.size() and `IsEndTimeLinked` for 0 <= index < Effects.size() - 1. -/
theorem linked_tests_in_range (Effects : List Effect_Struct) (index : Int)
    (hsize : Effects.length < 2 ^ 64) (h0 : 0 ≤ index) (h1 : index < Effects.length) :
    (1 ≤ index → ∀ p ∈ (IsStartTimeLinked Effects index).accesses, p < Effects.length) ∧
    (index + 1 < Effects.length →
      ∀ p ∈ (IsEndTimeLinked Effects index).accesses, p < Effects.length) := by
  have hconv : ∀ i : Int, 0 ≤ i → i < 2 ^ 64 → toSizeT i = i.toNat := by
    intro i hi1 hi2
    unfold toSizeT
    rw [Int.emod_eq_of_lt hi1 hi2]
  have hlen : ((Effects.length : Int)) < 2 ^ 64 := by exact_mod_cast hsize
  constructor
  · intro h p hp
    unfold IsStartTimeLinked at hp
    split at hp
    · rw [hconv index h0 (by omega), hconv (index - 1) (by omega) (by omega)] at hp
      simp only [List.mem_cons, List.mem_singleton, List.not_mem_nil, or_false] at hp
      rcases hp with hp | hp <;> omega
    · cases hp
  · intro h p hp
    unfold IsEndTimeLinked at hp
    split at hp
    · rw [hconv index h0 (by omega), hconv (index + 1) (by omega) (by omega)] at hp
      simp only [List.mem_cons, List.mem_singleton, List.not_mem_nil, or_false] at hp
      rcases hp with hp | hp <;> omega
    · cases hp

end xLights
